import Mathlib

/-!
# v4r: Global Hypothesis Verification bookkeeping and its callers

A shallow embedding of the parts of `v4r` that the verified properties are about:

* `ghv.h`: `GHV::updateUnexplainedVector`, `GHV::getUnexplainedInformationInNeighborhood`,
  `GHV::getTotalBadInformation`, `GHV::extractEuclideanClustersSmooth`;
* `hypotheses_verification.h`: `HypothesisVerification::addModels`, `addNormalsClouds`, `getMask`;
* `singleview_object_recognizer.cpp`: `SingleViewRecognizer::hypothesesVerification`, `recognize`;
* `miscellaneous.h`: `incrementVector`, `filterVector`, `convertVecInt2VecSizet`,
  `convertVecSizet2VecInt`, `createMaskFromIndices`, `createIndicesFromMask`;
* `ObjectRecognizerParameter.h`: `ObjectRecognizerParameter::validate`;
* `multiview_object_recognizer.hpp`: `MultiviewRecognizer::pruneGraph`, `recognize`.

Conventions. `double`/`float` values are rationals (arithmetic is exact), `int` counters are
integers, `std::vector<T>` is `List T`, an index stored in a `std::vector<int>` is a natural
number. Reading or writing a vector outside its bounds is undefined in the source; the
definitions use `List.getD`/`List.set` there and the theorems assume the indices in range.
Where the width of a machine integer matters (`convertVecInt2VecSizet` and its inverse) an
`int` is an integer of 32 bits and a `size_t` a natural number below `2 ^ 64`, with the casts
written out.
-/

namespace V4R

/-! ## Clutter bookkeeping (`ghv.h`) -/

/-- The aggregate cost terms of `GHV` kept as running totals (members `previous_*`). -/
structure GHVTotals where
  previous_explained_value : ℚ
  previous_duplicity_ : ℚ
  previous_duplicity_complete_models_ : Int
  previous_bad_info_ : ℚ
  previous_unexplained_ : ℚ
  deriving DecidableEq, Repr

/-- The by-reference arguments of `updateUnexplainedVector` and the members of `GHV` it can
reach, as they are when the call returns. -/
structure UnexplainedUpdate where
  unexplained_by_RM : List ℚ
  explained : List Nat
  explained_by_RM : List Int
  totals : GHVTotals
  deriving DecidableEq, Repr

/-- Body of the first loop of `updateUnexplainedVector` (ghv.h 454-473) for one neighbourhood
entry `pw = (unexplained_[i], unexplained_distances[i])`; the state is the accumulator vector
`unexplained_by_RM` and the local `add_to_unexplained`. -/
def unexplainedStep (val : ℚ) (explained_by_RM : List Int) (st : List ℚ × ℚ) (pw : Nat × ℚ) :
    List ℚ × ℚ :=
  let prev_unexplained : Bool :=
    decide (st.1.getD pw.1 0 > 0) && decide (explained_by_RM.getD pw.1 0 = 0)
  let unexplained_by_RM := st.1.set pw.1 (st.1.getD pw.1 0 + val * pw.2)
  if val < 0 then
    if prev_unexplained then (unexplained_by_RM, st.2 - pw.2) else (unexplained_by_RM, st.2)
  else
    if explained_by_RM.getD pw.1 0 = 0 then (unexplained_by_RM, st.2 + pw.2)
    else (unexplained_by_RM, st.2)

/-- Body of the second loop of `updateUnexplainedVector` (ghv.h 475-491) for one explained index
`q = explained[i]`; it only reads the vectors and updates the local `add_to_unexplained`. -/
def explainedStep (val : ℚ) (unexplained_by_RM : List ℚ) (explained_by_RM : List Int)
    (add_to_unexplained : ℚ) (q : Nat) : ℚ :=
  if val < 0 then
    if explained_by_RM.getD q 0 = 0 ∧ unexplained_by_RM.getD q 0 > 0 then
      add_to_unexplained + unexplained_by_RM.getD q 0
    else add_to_unexplained
  else
    if explained_by_RM.getD q 0 = 1 ∧ unexplained_by_RM.getD q 0 > 0 then
      add_to_unexplained - unexplained_by_RM.getD q 0
    else add_to_unexplained

/-- Embedding of `GHV::updateUnexplainedVector` (ghv.h 448-495). The first loop runs over the
positions of `unexplained_` and reads `unexplained_distances` at the same position, so the two
lists are walked together; the second loop runs over `explained`; finally
`previous_unexplained_ += add_to_unexplained`. -/
def updateUnexplainedVector (unexplained_ : List Nat) (unexplained_distances : List ℚ)
    (unexplained_by_RM : List ℚ) (explained : List Nat) (explained_by_RM : List Int) (val : ℚ)
    (g : GHVTotals) : UnexplainedUpdate :=
  let st := (unexplained_.zip unexplained_distances).foldl (unexplainedStep val explained_by_RM)
    (unexplained_by_RM, 0)
  let add_to_unexplained := explained.foldl (explainedStep val st.1 explained_by_RM) st.2
  { unexplained_by_RM := st.1
    explained := explained
    explained_by_RM := explained_by_RM
    totals := { g with previous_unexplained_ := g.previous_unexplained_ + add_to_unexplained } }

/-- Embedding of `GHV::getUnexplainedInformationInNeighborhood` (ghv.h 517-528): one pass over
the positions of `unexplained`, adding the entries that are positive and whose explained-by
count is zero. -/
def getUnexplainedInformationInNeighborhood (unexplained : List ℚ) (explained : List Int) : ℚ :=
  (List.range unexplained.length).foldl
    (fun unexplained_sum i =>
      if unexplained.getD i 0 > 0 ∧ explained.getD i 0 = 0 then
        unexplained_sum + unexplained.getD i 0
      else unexplained_sum)
    0

/-- The explained-by counts after a toggle has added `sign` (`+1` on activation, `-1` on
deactivation) to the counter of every index of the hypothesis's explained list; this is the
count update that precedes the call of `updateUnexplainedVector`. -/
def addToCounts (explained : List Nat) (sign : Int) (explained_by_RM : List Int) : List Int :=
  explained.foldl (fun e q => e.set q (e.getD q 0 + sign)) explained_by_RM

/-- One toggle of a hypothesis on the clutter bookkeeping: the explained-by counts are moved by
`sign`, then `updateUnexplainedVector` runs on the updated counts with `val = sign`. -/
def toggleClutter (unexplained_ : List Nat) (unexplained_distances : List ℚ)
    (explained : List Nat) (sign : Int) (unexplained_by_RM : List ℚ) (explained_by_RM : List Int)
    (g : GHVTotals) : UnexplainedUpdate :=
  updateUnexplainedVector unexplained_ unexplained_distances unexplained_by_RM explained
    (addToCounts explained sign explained_by_RM) (sign : ℚ) g

/-- Contribution of one scene point to the clutter total: its accumulator when that is positive
and the point is explained by no hypothesis, nothing otherwise. -/
def clutterVal (u : ℚ) (e : Int) : ℚ := if u > 0 ∧ e = 0 then u else 0

/-- The accumulator vector after the first loop of `updateUnexplainedVector`: `val * weight` has
been added at every listed index. -/
def addWeights (val : ℚ) (nw : List (Nat × ℚ)) (unexplained_by_RM : List ℚ) : List ℚ :=
  nw.foldl (fun u pw => u.set pw.1 (u.getD pw.1 0 + val * pw.2)) unexplained_by_RM

/-- What the first loop of `updateUnexplainedVector` adds to `add_to_unexplained` for a
neighbourhood point with accumulator `u` (before the update), count `e` and weight `w`. -/
def neighbourDelta (val u : ℚ) (e : Int) (w : ℚ) : ℚ :=
  if val < 0 then (if u > 0 ∧ e = 0 then -w else 0) else (if e = 0 then w else 0)

/-- What the second loop of `updateUnexplainedVector` adds to `add_to_unexplained` for an
explained point with accumulator `u` and (already updated) count `e`. -/
def explainedDelta (val u : ℚ) (e : Int) : ℚ :=
  if val < 0 then (if e = 0 ∧ u > 0 then u else 0) else (if e = 1 ∧ u > 0 then -u else 0)

/-! ## Recognition models and the explained-by counters -/

/-- Modelled from the spec: `GHVRecognitionModel` is declared in `ghv_opt.h`, which is not among
the sources. The fields are the ones `ghv.h` reads (`bad_information_`, `outliers_weight_`) and
the index lists and weights a hypothesis carries according to the data model: the scene points
it can explain with their scores, and its clutter-influence neighbourhood with its weights. -/
structure GHVRecognitionModel where
  explained_ : List Nat
  explained_distances_ : List ℚ
  unexplained_in_neighborhood : List Nat
  unexplained_in_neighborhood_weights : List ℚ
  bad_information_ : ℚ
  outliers_weight_ : ℚ
  deriving DecidableEq, Repr, Inhabited

/-- Embedding of `GHV::getTotalBadInformation` (ghv.h 507-515). The vector of models is passed
by non-const reference; the result pairs the vector as it is on return with the returned
`bad_info`. -/
def getTotalBadInformation (recog_models : List GHVRecognitionModel) :
    List GHVRecognitionModel × ℚ :=
  (recog_models,
    recog_models.foldl (fun bad_info m => bad_info + m.outliers_weight_ * m.bad_information_) 0)

/-- Modelled from the spec: the body of `GHV::updateExplainedVector` is not among the sources
(ghv.h 497-499 only declares it). Following the update protocol, for every scene point of the
hypothesis's explained set `vec` the explained-by count moves by `sign` and the weighted score
sum by `sign` times the point's score `vec_float[i]`. The contributions to `explained_value`
and `duplicity_penalty`, whose formulas the spec leaves open, are not part of this model. -/
def updateExplainedVector (vec : List Nat) (vec_float : List ℚ) (explained_ : List Int)
    (explained_by_RM_distance_weighted : List ℚ) (sign : Int) : List Int × List ℚ :=
  (vec.zip vec_float).foldl
    (fun st pv => (st.1.set pv.1 (st.1.getD pv.1 0 + sign),
      st.2.set pv.1 (st.2.getD pv.1 0 + (sign : ℚ) * pv.2)))
    (explained_, explained_by_RM_distance_weighted)

/-- Modelled from the spec: the optimisation state a move acts on, restricted to the
explained-by bookkeeping: the activation bit of every hypothesis and the per-scene-point
counters `explained_by_RM_` and `explained_by_RM_distance_weighted`. -/
structure ExplainedState where
  active : List Bool
  explained_by_RM_ : List Int
  explained_by_RM_distance_weighted : List ℚ
  deriving DecidableEq, Repr

/-- Modelled from the spec: the state before optimisation, every hypothesis inactive and every
counter of the `n` scene points zero. -/
def ExplainedState.init (hypotheses : List GHVRecognitionModel) (n : Nat) : ExplainedState :=
  { active := List.replicate hypotheses.length false
    explained_by_RM_ := List.replicate n 0
    explained_by_RM_distance_weighted := List.replicate n 0 }

/-- Modelled from the spec: a move `Activate(h)` / `Deactivate(h)`. An inactive hypothesis is
toggled on with `updateExplainedVector (sign = +1)`, an active one off with `sign = -1`, and its
activation bit is flipped. -/
def applyMove (hypotheses : List GHVRecognitionModel) (s : ExplainedState) (h : Nat) :
    ExplainedState :=
  let rm := hypotheses.getD h default
  let sign : Int := if s.active.getD h false then -1 else 1
  let r := updateExplainedVector rm.explained_ rm.explained_distances_ s.explained_by_RM_
    s.explained_by_RM_distance_weighted sign
  { active := s.active.set h (!s.active.getD h false)
    explained_by_RM_ := r.1
    explained_by_RM_distance_weighted := r.2 }

/-- The hypotheses that are active and whose explained set contains the scene point `p`. -/
def activeExplainers (hypotheses : List GHVRecognitionModel) (active : List Bool) (p : Nat) :
    Finset Nat :=
  (Finset.range hypotheses.length).filter
    (fun h => active.getD h false = true ∧ p ∈ (hypotheses.getD h default).explained_)

/-- Well-formed hypotheses over `n` scene points: every explained list is a set (repeat-free)
of valid scene indices and has a score for each of its points. -/
def WellFormedHypotheses (hypotheses : List GHVRecognitionModel) (n : Nat) : Prop :=
  ∀ rm ∈ hypotheses, rm.explained_.Nodup ∧ rm.explained_.length ≤ rm.explained_distances_.length
    ∧ ∀ q ∈ rm.explained_, q < n

/-- The explained-by count invariant of a state. -/
def CountInvariant (hypotheses : List GHVRecognitionModel) (n : Nat) (s : ExplainedState) :
    Prop :=
  s.active.length = hypotheses.length ∧ s.explained_by_RM_.length = n ∧
    ∀ p, s.explained_by_RM_.getD p 0 = ((activeExplainers hypotheses s.active p).card : Int)

/-! ## `HypothesisVerification::addModels` (`hypotheses_verification.h`) -/

/-- The members of `HypothesisVerification` that `addModels`, `addNormalsClouds` and `getMask`
read or write. A null `ConstPtr` is `none`. -/
structure HypothesisVerification (Cloud Normals : Type) where
  mask_ : List Bool
  scene_cloud_ : Option Cloud
  occlusion_cloud_ : Option Cloud
  occlusion_cloud_set_ : Bool
  visible_models_ : List Cloud
  visible_normal_models_ : List Normals
  visible_indices_ : List (List Nat)
  complete_models_ : List Cloud
  complete_normal_models_ : List Normals
  requires_normals_ : Bool
  normals_set_ : Bool

/-- The point-cloud operations `addModels` calls and whose code is outside the sources (PCL and
`v4r/common/zbuffering.h`), taken as parameters. -/
structure OcclusionOps (Cloud Normals : Type) where
  /-- Result of `cloud.isOrganized ()`. -/
  isOrganized : Cloud → Bool
  /-- Result of `cloud.points.size ()`. -/
  size : Cloud → Nat
  /-- Indices kept by `zbuffer_self_occlusion.computeDepthMap` followed by `filter`. -/
  selfOcclusionIndices : Cloud → List Nat
  /-- Result `out` of `pcl::copyPointCloud (cloud, indices, out)`. -/
  copyPointCloud : Cloud → List Nat → Cloud
  /-- Result of `filter<ModelT,SceneT> (occlusion_cloud, model, f, thres, indices)` on an
  organized occlusion cloud: the filtered cloud and `indices_cloud_occlusion`. -/
  filterOrganized : Cloud → Cloud → Cloud × List Nat
  /-- Result `out` of `zbuffer_scene.filter (model, out, thres)`, the depth map being the one of
  the occlusion cloud. -/
  filterDepthBuffer : Cloud → Cloud → Cloud
  /-- Result of `pcl::copyPointCloud` on a cloud of normals. -/
  copyNormals : Normals → List Nat → Normals

/-- What a call of `addModels` ends with: a normal return, the `std::runtime_error` thrown at
hypotheses_verification.h 222, or a dereference of a null pointer or a read past the end of a
vector (undefined in the source, kept apart from the documented error). -/
inductive AddModelsOutcome where
  | returned
  | runtime_error (what : String)
  | undefined_access
  deriving DecidableEq, Repr

/-- Result of `std::vector::resize (n)` on a vector whose new elements are value-initialised
to `d`. -/
def resizeVec {α : Type} (v : List α) (n : Nat) (d : α) : List α :=
  v.take n ++ List.replicate (n - v.length) d

/-- The loop body of `addModels` (hypotheses_verification.h 233-269) for model `i`, with the
occlusion cloud `occ` already dereferenced. -/
def addModelsStep {Cloud Normals : Type} (ops : OcclusionOps Cloud Normals) (occ : Cloud)
    (st : HypothesisVerification Cloud Normals × AddModelsOutcome) (im : Nat × Cloud) :
    HypothesisVerification Cloud Normals × AddModelsOutcome :=
  match st.2 with
  | AddModelsOutcome.returned =>
    let s := st.1
    let self_occlusion_indices := ops.selfOcclusionIndices im.2
    let const_filtered := ops.copyPointCloud im.2 self_occlusion_indices
    if ops.isOrganized occ then
      let r := ops.filterOrganized occ const_filtered
      let filtered := r.1
      let indices_cloud_occlusion := r.2
      let vis_i := (List.range indices_cloud_occlusion.length).foldl
        (fun v k => v.set k (self_occlusion_indices.getD (indices_cloud_occlusion.getD k 0) 0))
        (resizeVec (s.visible_indices_.getD im.1 []) (ops.size filtered) 0)
      let s1 := { s with visible_indices_ := s.visible_indices_.set im.1 vis_i }
      if s1.normals_set_ && s1.requires_normals_ then
        match s1.complete_normal_models_[im.1]? with
        | some nrm =>
          ({ s1 with
              visible_normal_models_ := s1.visible_normal_models_ ++ [ops.copyNormals nrm vis_i]
              visible_models_ := s1.visible_models_ ++ [filtered] },
            AddModelsOutcome.returned)
        | none => (s1, AddModelsOutcome.undefined_access)
      else
        ({ s1 with visible_models_ := s1.visible_models_ ++ [filtered] },
          AddModelsOutcome.returned)
    else
      ({ s with visible_models_ :=
          s.visible_models_ ++ [ops.filterDepthBuffer occ const_filtered] },
        AddModelsOutcome.returned)
  | _ => st

/-- The occlusion-reasoning branch of `addModels` after the scene-cloud check
(hypotheses_verification.h 224-271), with the occlusion cloud `occ` dereferenced:
`visible_indices_` is resized, the loop runs over the models, `complete_models_` is set. -/
def addModelsOcclusion {Cloud Normals : Type} (ops : OcclusionOps Cloud Normals)
    (s : HypothesisVerification Cloud Normals) (models : List Cloud) (occ : Cloud) :
    HypothesisVerification Cloud Normals × AddModelsOutcome :=
  let r := models.enum.foldl (addModelsStep ops occ)
    ({ s with visible_indices_ := resizeVec s.visible_indices_ models.length [] },
      AddModelsOutcome.returned)
  let s3 := r.1
  match r.2 with
  | AddModelsOutcome.returned =>
    ({ s3 with complete_models_ := models, occlusion_cloud_set_ := false, normals_set_ := false },
      AddModelsOutcome.returned)
  | _ => r

/-- Embedding of `HypothesisVerification::addModels` (hypotheses_verification.h 206-276). The
result is the object as the call leaves it together with how the call ended; after a throw
the members keep what was written before it. -/
def addModels {Cloud Normals : Type} (ops : OcclusionOps Cloud Normals)
    (s : HypothesisVerification Cloud Normals) (models : List Cloud)
    (occlusion_reasoning : Bool) : HypothesisVerification Cloud Normals × AddModelsOutcome :=
  let s0 := { s with mask_ := [] }
  let s1 := if !s0.occlusion_cloud_set_ then { s0 with occlusion_cloud_ := s0.scene_cloud_ }
    else s0
  if !occlusion_reasoning then
    ({ s1 with visible_models_ := models, occlusion_cloud_set_ := false, normals_set_ := false },
      AddModelsOutcome.returned)
  else
    match s1.scene_cloud_ with
    | none =>
      (s1, AddModelsOutcome.runtime_error
        "setSceneCloud should be called before adding the model if reasoning about occlusions...")
    | some _ =>
      match s1.occlusion_cloud_ with
      | none => (s1, AddModelsOutcome.undefined_access)
      | some occ => addModelsOcclusion ops s1 models occ

/-- Embedding of `HypothesisVerification::addNormalsClouds`
(hypotheses_verification.h 190-200). -/
def addNormalsClouds {Cloud Normals : Type} (s : HypothesisVerification Cloud Normals)
    (complete_models : List Normals) : HypothesisVerification Cloud Normals :=
  { s with complete_normal_models_ := complete_models, normals_set_ := true }

/-- Embedding of `HypothesisVerification::getMask` (hypotheses_verification.h 169-177). -/
def getMask {Cloud Normals : Type} (s : HypothesisVerification Cloud Normals) : List Bool :=
  s.mask_

/-! ## `SingleViewRecognizer` (`singleview_object_recognizer.cpp`) -/

/-- A planar hypothesis. `PlaneModel` is declared outside the sources; only the member that
`hypothesesVerification` reads is kept. -/
structure PlaneModel (Cloud : Type) where
  plane_cloud_ : Cloud

/-- The members of `SingleViewRecognizer` that `hypothesesVerification` and `recognize` read or
write; `add_planes_` is `sv_params_.add_planes_`, and `models_` and `transforms_` stand for the
vectors the two shared pointers refer to. -/
structure SingleViewRecognizer (Model Transform Cloud : Type) where
  models_ : List Model
  transforms_ : List Transform
  model_ids_ : List String
  aligned_models_ : List Cloud
  planes_found_ : List (PlaneModel Cloud)
  verified_planes_ : List Cloud
  models_verified_ : List Model
  model_ids_verified_ : List String
  transforms_verified_ : List Transform
  add_planes_ : Bool

/-- The block "append planar models" of `hypothesesVerification`
(singleview_object_recognizer.cpp 258-269): when `add_planes_` is set, `planes_found_` becomes
the result `mps_models` of the plane segmentation and one id `plane_kk` per plane is pushed to
`model_ids_`. -/
def appendPlanarModels {Model Transform Cloud : Type} (mps_models : List (PlaneModel Cloud))
    (s : SingleViewRecognizer Model Transform Cloud) :
    SingleViewRecognizer Model Transform Cloud :=
  if s.add_planes_ then
    { s with
        planes_found_ := mps_models
        model_ids_ := s.model_ids_ ++
          (List.range mps_models.length).map (fun kk => "plane_" ++ toString kk) }
  else s

/-- A finished call of `hypothesesVerification`: the returned value, the by-reference argument
`mask_hv`, the recognizer, and whether `go->verify ()` was executed. -/
structure VerificationRun (Model Transform Cloud : Type) where
  returned : Bool
  mask_hv : List Bool
  recognizer : SingleViewRecognizer Model Transform Cloud
  verify_called : Bool

/-- Embedding of `SingleViewRecognizer::hypothesesVerification`
(singleview_object_recognizer.cpp 139-310).
The two collaborators whose code is outside the sources are parameters: `mps_models` is what
`multiplaneSegmentation ()` stores in `planes_found_`, and `go_mask` is the mask that
`go->getMask` hands out after `go->verify ()` (one decision per object hypothesis followed by
one per planar hypothesis). The configuration of `go` has no effect on the members kept here. -/
def hypothesesVerification {Model Transform Cloud : Type} (mps_models : List (PlaneModel Cloud))
    (go_mask : List Bool) (s : SingleViewRecognizer Model Transform Cloud)
    (mask_hv : List Bool) : VerificationRun Model Transform Cloud :=
  let mask_hv := resizeVec mask_hv s.aligned_models_.length false
  let s1 := appendPlanarModels mps_models s
  if s1.model_ids_.length = 0 then
    { returned := true, mask_hv := mask_hv, recognizer := s1, verify_called := false }
  else
    let mask_hv_with_planes := go_mask
    let mask_hv := (List.range s1.aligned_models_.length).foldl
      (fun m j => m.set j (mask_hv_with_planes.getD j false)) mask_hv
    let verified_planes_ := s1.planes_found_.enum.foldl
      (fun acc jp =>
        if mask_hv_with_planes.getD (s1.aligned_models_.length + jp.1) false then
          acc ++ [jp.2.plane_cloud_]
        else acc)
      []
    { returned := true, mask_hv := mask_hv
      recognizer := { s1 with verified_planes_ := verified_planes_ }, verify_called := true }

/-- The selection loop of `recognize` (singleview_object_recognizer.cpp 498-506) for position
`j`. `models_->at (j)` and `transforms_->at (j)` throw when `j` is out of range and
`model_ids_[j]` is undefined there; in each of these cases the call does not return. -/
def selectVerifiedStep {Model Transform Cloud : Type} (mask_hv : List Bool)
    (s : SingleViewRecognizer Model Transform Cloud) (j : Nat) :
    Option (SingleViewRecognizer Model Transform Cloud) :=
  if mask_hv.getD j false then
    match s.models_[j]?, s.model_ids_[j]?, s.transforms_[j]? with
    | some m, some id, some t =>
      some { s with
        models_verified_ := s.models_verified_ ++ [m]
        model_ids_verified_ := s.model_ids_verified_ ++ [id]
        transforms_verified_ := s.transforms_verified_ ++ [t] }
    | _, _, _ => none
  else some s

/-- A finished call of `recognize`: the returned value, the local `mask_hv` as it is at the
end, and the recognizer. -/
structure RecognizeRun (Model Transform Cloud : Type) where
  returned : Bool
  mask_hv : List Bool
  recognizer : SingleViewRecognizer Model Transform Cloud

/-- Embedding of `SingleViewRecognizer::recognize` (singleview_object_recognizer.cpp 452-512);
`none` when an
exception leaves the call. Parameters stand for what lies outside the sources:
`have_a_finite_pt` is the outcome of the scan of the input cloud, `recognized_models` and
`recognized_transforms` are what `constructHypotheses` obtains from the recognition pipeline
(`model_ids_[kk] = models_->at (kk)->id_`), `setModelsAndTransforms` is the member function of
that name (declared in the header), `mps_models` and `go_mask` are as in
`hypothesesVerification`. The normal estimation and the depth cut do not touch the members
kept here. -/
def recognize {Model Transform Cloud : Type} (have_a_finite_pt : Bool)
    (recognized_models : List Model) (recognized_transforms : List Transform)
    (id_ : Model → String)
    (setModelsAndTransforms : SingleViewRecognizer Model Transform Cloud →
      SingleViewRecognizer Model Transform Cloud)
    (mps_models : List (PlaneModel Cloud)) (go_mask : List Bool)
    (s : SingleViewRecognizer Model Transform Cloud) :
    Option (RecognizeRun Model Transform Cloud) :=
  let s0 := { s with
    model_ids_verified_ := [], transforms_verified_ := [], models_verified_ := []
    aligned_models_ := [], model_ids_ := [], transforms_ := [] }
  if !have_a_finite_pt then
    some { returned := false, mask_hv := [], recognizer := s0 }
  else
    let s1 := { s0 with
      models_ := recognized_models, transforms_ := recognized_transforms
      model_ids_ := recognized_models.map id_ }
    let s2 := setModelsAndTransforms s1
    let hv := hypothesesVerification mps_models go_mask s2 []
    match (List.range hv.mask_hv.length).foldlM (selectVerifiedStep hv.mask_hv) hv.recognizer with
    | some s3 => some { returned := true, mask_hv := hv.mask_hv, recognizer := s3 }
    | none => none

/-- The entries of `l` at the positions where `mask` is true, in increasing order of the
position. -/
def selectByMask {α : Type} (l : List α) (mask : List Bool) : List α :=
  (List.range mask.length).filterMap (fun j => if mask.getD j false then l[j]? else none)

/-! ## Vector helpers (`miscellaneous.h`) -/

/-- The pass of `incrementVector` over the bits below the last one (miscellaneous.h 409-413),
for one position `bit`: `inc_v[bit] = v[bit] != carry; carry = v[bit] && carry`. The state is
`inc_v` and `carry`. -/
def incrementStep (v : List Bool) (st : List Bool × Bool) (bit : Nat) : List Bool × Bool :=
  (st.1.set bit (v.getD bit false != st.2), v.getD bit false && st.2)

/-- Embedding of `incrementVector` (miscellaneous.h 386-415): the returned overflow flag and the
output vector `inc_v`. The first loop leaves `overflow` true exactly when it meets no false bit
(the `break` only skips iterations that cannot change it); `v.back ()` is the entry at position
`v.size () - 1`; the last loop runs `bit` from `v.size () - 2` down to `0`. -/
def incrementVector (v : List Bool) : Bool × List Bool :=
  let inc_v := v
  let overflow := v.foldl (fun overflow b => if !b then false else overflow) true
  let carry := v.getD (v.length - 1) false
  let inc_v := inc_v.set (v.length - 1) (!v.getD (v.length - 1) false)
  let st := (List.range (v.length - 1)).reverse.foldl (incrementStep v) (inc_v, carry)
  (overflow, st.1)

/-- The unsigned binary number a boolean vector stands for, least significant bit at the
end. -/
def binaryValue (v : List Bool) : Nat :=
  v.foldl (fun acc b => 2 * acc + (if b then 1 else 0)) 0

/-- Embedding of `filterVector` (miscellaneous.h 417-434). The local `kept` is declared without
an initial value (`size_t kept;`); what it holds when the loop starts is the parameter `kept0`.
The vector `out` starts as `in.size ()` value-initialised elements `d`. -/
def filterVector {T : Type} (d : T) (kept0 : Nat) (input : List T) (indices : List Nat) :
    List T :=
  let st := indices.foldl
    (fun (st : List T × Nat) idx => (st.1.set st.2 (input.getD idx d), st.2 + 1))
    (List.replicate input.length d, kept0)
  resizeVec st.1 st.2 d

/-! ## `ObjectRecognizerParameter::validate` (`ObjectRecognizerParameter.h`) -/

/-- The data members of `ObjectRecognizerParameter` (ObjectRecognizerParameter.h 61-102), in
the order of their declaration; enumeration values are integers. -/
structure ObjectRecognizerParameter where
  hv_config_xml_ : String
  shot_config_xml_ : String
  global_recognition_pipeline_config_ : List String
  camera_config_xml_ : String
  depth_img_mask_ : String
  sift_config_xml_ : String
  cg_size_ : ℚ
  cg_thresh_ : Int
  cg_min_dist_for_cluster_factor_ : ℚ
  use_graph_based_gc_grouping_ : Bool
  do_sift_ : Bool
  do_shot_ : Bool
  segmentation_method_ : Int
  global_feature_types_ : List Int
  classification_methods_ : List Int
  shot_keypoint_extractor_method_ : Int
  normal_computation_method_ : Int
  keypoint_support_radii_ : List ℚ
  chop_z_ : ℚ
  remove_planes_ : Bool
  plane_inlier_threshold_ : ℚ
  min_plane_inliers_ : Nat
  remove_non_upright_objects_ : Bool
  use_multiview_ : Bool
  use_multiview_hv_ : Bool
  use_multiview_with_kp_correspondence_transfer_ : Bool
  use_change_detection_ : Bool
  tolerance_for_cloud_diff_ : ℚ
  min_points_for_hyp_removal_ : Nat
  max_views_ : Nat
  icp_iterations_ : Nat
  sift_knn_ : Nat
  shot_knn_ : Nat
  deriving DecidableEq, Repr

/-- Embedding of `ObjectRecognizerParameter::validate` (ObjectRecognizerParameter.h 141-161);
the messages written to the error log are left out. -/
def ObjectRecognizerParameter.validate (p : ObjectRecognizerParameter) :
    ObjectRecognizerParameter :=
  if p.global_feature_types_.length ≠ p.classification_methods_.length
      ∨ p.global_recognition_pipeline_config_.length ≠ p.classification_methods_.length then
    let minn := min p.global_feature_types_.length p.classification_methods_.length
    let minn := min minn p.global_recognition_pipeline_config_.length
    { p with
      global_feature_types_ := resizeVec p.global_feature_types_ minn 0
      classification_methods_ := resizeVec p.classification_methods_ minn 0
      global_recognition_pipeline_config_ :=
        resizeVec p.global_recognition_pipeline_config_ minn "" }
  else p

/-! ## `MultiviewRecognizer` (`multiview_object_recognizer.hpp`) -/

/-- The value of `std::numeric_limits<size_t>::max ()` (64-bit `size_t`). -/
def size_t_max : Nat := 2 ^ 64 - 1

/-- The header of a point cloud as far as `MultiviewRecognizer::recognize` inspects it. -/
structure SceneCloud (Points : Type) where
  width : Nat
  height : Nat
  points : Points

/-- The members of `MultiviewRecognizer` that `pruneGraph` and the checks of `recognize` read
or write. `views_` is the `std::map<size_t, View>` as the list of its entries in iteration
order; `max_vertices_in_graph_` and `compute_mst_` are the fields of `param_`; a null pointer
is `none`. -/
structure MultiviewRecognizer (View Graph Recognizer Points : Type) where
  rr_ : Option Recognizer
  scene_ : Option (SceneCloud Points)
  views_ : List (Nat × View)
  gs_ : Graph
  id_ : Nat
  max_vertices_in_graph_ : Nat
  compute_mst_ : Bool

/-- Embedding of `MultiviewRecognizer::pruneGraph` (multiview_object_recognizer.hpp 209-235).
The removal of the first vertex of the Boost graph `gs_` that carries a given view id
(`clear_vertex`, `remove_vertex`) is the parameter `removeVertex`. -/
def MultiviewRecognizer.pruneGraph {View Graph Recognizer Points : Type}
    (removeVertex : Graph → Nat → Graph)
    (s : MultiviewRecognizer View Graph Recognizer Points) :
    MultiviewRecognizer View Graph Recognizer Points :=
  if s.views_.length > s.max_vertices_in_graph_ then
    let lowest_vertex_id := s.views_.foldl
      (fun lowest_vertex_id view_it =>
        if view_it.1 < lowest_vertex_id then view_it.1 else lowest_vertex_id)
      size_t_max
    let s1 := { s with views_ := s.views_.eraseP (fun view_it => view_it.1 == lowest_vertex_id) }
    if s1.compute_mst_ then { s1 with gs_ := removeVertex s1.gs_ lowest_vertex_id } else s1
  else s

/-- How a call of `MultiviewRecognizer::recognize` ends: a normal return or one of the two
`std::runtime_error` exceptions. -/
inductive RecognizeOutcome where
  | returned
  | runtime_error (what : String)
  deriving DecidableEq, Repr

/-- Embedding of `MultiviewRecognizer::recognize` (multiview_object_recognizer.hpp 273-694): the
two checks at its head, then the processing of the new view (lines 289-690, whose collaborators
are outside the sources; parameter `processView`), then `pruneGraph ()` and `id_++`. -/
def MultiviewRecognizer.recognize {View Graph Recognizer Points : Type}
    (removeVertex : Graph → Nat → Graph)
    (processView : MultiviewRecognizer View Graph Recognizer Points →
      MultiviewRecognizer View Graph Recognizer Points)
    (s : MultiviewRecognizer View Graph Recognizer Points) :
    MultiviewRecognizer View Graph Recognizer Points × RecognizeOutcome :=
  match s.rr_ with
  | none =>
    (s, RecognizeOutcome.runtime_error
      "Single-View recognizer is not set. Please provide a recognizer to the multi-view recognition system!")
  | some _ =>
    if (match s.scene_ with
        | none => true
        | some scene => scene.width != 640 || scene.height != 480) then
      (s, RecognizeOutcome.runtime_error
        "Size of input cloud is not 640x480, which is the only resolution currently supported by the verification framework.")
    else
      let s1 := MultiviewRecognizer.pruneGraph removeVertex (processView s)
      ({ s1 with id_ := s1.id_ + 1 }, RecognizeOutcome.returned)

/-! ## Smooth segmentation (`ghv.h`) -/

/-- A point of the cloud of normals (`pcl::Normal`): the components `normal[0..2]` and the
curvature. -/
structure Normal where
  normal_0 : ℚ
  normal_1 : ℚ
  normal_2 : ℚ
  curvature : ℚ
  deriving DecidableEq, Repr, Inhabited

/-- What a call `tree->radiusSearch (index, tolerance, nn_indices, nn_distances)` hands back:
the returned number and `nn_indices`. -/
structure RadiusSearchResult where
  found : Int
  nn_indices : List Nat
  deriving DecidableEq, Repr

/-- The arguments of `extractEuclideanClustersSmooth` other than `clusters`. Of `cloud` only the
number of points is read, of `tree` the number of points of its input cloud and the radius
search; `acos` is the function of the C library. -/
structure SmoothSegmentationInput where
  cloud_size : Nat
  normals : List Normal
  tolerance : ℚ
  tree_cloud_size : Nat
  radiusSearch : Nat → ℚ → RadiusSearchResult
  acos : ℚ → ℚ
  eps_angle : ℚ
  curvature_threshold : ℚ
  min_pts_per_cluster : Nat
  max_pts_per_cluster : Nat

/-- The value `dot_p` of ghv.h 283-285 for the points `s` and `j`. -/
def dotNormals (inp : SmoothSegmentationInput) (s j : Nat) : ℚ :=
  (inp.normals.getD s default).normal_0 * (inp.normals.getD j default).normal_0
    + (inp.normals.getD s default).normal_1 * (inp.normals.getD j default).normal_1
    + (inp.normals.getD s default).normal_2 * (inp.normals.getD j default).normal_2

/-- Body of the loop over the neighbours (ghv.h 270-292) for the neighbour `nj = nn_indices[j]`
of the seed `s = seed_queue[sq_idx]`; the state is `processed` and `seed_queue`. A neighbour
outside the cloud (undefined in the source) is passed over. -/
def growStep (inp : SmoothSegmentationInput) (s : Nat) (st : List Bool × List Nat) (nj : Nat) :
    List Bool × List Nat :=
  if st.1.getD nj true then st
  else if (inp.normals.getD nj default).curvature > inp.curvature_threshold then st
  else if |inp.acos (dotNormals inp s nj)| < inp.eps_angle then
    (st.1.set nj true, st.2 ++ [nj])
  else st

/-- The `while` loop over the seed queue (ghv.h 254-295). The result is `processed`,
`seed_queue` and `sq_idx` when the loop is left; `fuel` bounds the number of iterations and the
caller supplies the number of points, which no run exceeds. -/
def growRegion (inp : SmoothSegmentationInput) :
    Nat → List Bool → List Nat → Nat → List Bool × List Nat × Nat
  | 0, processed, seed_queue, sq_idx => (processed, seed_queue, sq_idx)
  | fuel + 1, processed, seed_queue, sq_idx =>
    if sq_idx < seed_queue.length then
      if (inp.normals.getD (seed_queue.getD sq_idx 0) default).curvature
          > inp.curvature_threshold then
        growRegion inp fuel processed seed_queue (sq_idx + 1)
      else if (inp.radiusSearch (seed_queue.getD sq_idx 0) inp.tolerance).found = 0 then
        growRegion inp fuel processed seed_queue (sq_idx + 1)
      else
        let st := (inp.radiusSearch (seed_queue.getD sq_idx 0) inp.tolerance).nn_indices.tail.foldl
          (growStep inp (seed_queue.getD sq_idx 0)) (processed, seed_queue)
        growRegion inp fuel st.1 st.2 (sq_idx + 1)
    else (processed, seed_queue, sq_idx)

/-- Body of the loop over the points (ghv.h 243-309) for the point `i`; the state is
`processed` and `clusters`. `std::sort` is an insertion sort and `std::unique` the removal of
repeated neighbours. -/
def clusterStep (inp : SmoothSegmentationInput) (st : List Bool × List (List Nat)) (i : Nat) :
    List Bool × List (List Nat) :=
  if st.1.getD i true then st
  else
    let r := growRegion inp inp.cloud_size (st.1.set i true) [i] 0
    if inp.min_pts_per_cluster ≤ r.2.1.length ∧ r.2.1.length ≤ inp.max_pts_per_cluster then
      (r.1, st.2 ++ [(r.2.1.insertionSort (· ≤ ·)).destutter (· ≠ ·)])
    else (r.1, st.2)

/-- What a call of `extractEuclideanClustersSmooth` leaves: the vector `clusters` and the
message passed to `PCL_ERROR`, if any. -/
structure ClusterExtraction where
  clusters : List (List Nat)
  error : Option String
  deriving DecidableEq, Repr

/-- Embedding of `GHV::extractEuclideanClustersSmooth` (ghv.h 217-310). -/
def extractEuclideanClustersSmooth (inp : SmoothSegmentationInput)
    (clusters : List (List Nat)) : ClusterExtraction :=
  if inp.tree_cloud_size ≠ inp.cloud_size then
    { clusters := clusters
      error := some "[pcl::extractEuclideanClusters] Tree built for a different point cloud dataset" }
  else if inp.cloud_size ≠ inp.normals.length then
    { clusters := clusters
      error := some
        "[pcl::extractEuclideanClusters] Number of points in the input point cloud different than normals!" }
  else
    { clusters := ((List.range inp.cloud_size).foldl (clusterStep inp)
        (List.replicate inp.cloud_size false, clusters)).2
      error := none }

/-- The merge test of the smooth segmentation as the code applies it: `j` is among the
neighbours the radius search around `s` returns (from the second entry on), the angle between
the two normals is below `eps_angle`, and neither curvature exceeds `curvature_threshold`. -/
def Joins (inp : SmoothSegmentationInput) (s j : Nat) : Prop :=
  j ∈ (inp.radiusSearch s inp.tolerance).nn_indices.tail
    ∧ |inp.acos (dotNormals inp s j)| < inp.eps_angle
    ∧ (inp.normals.getD s default).curvature ≤ inp.curvature_threshold
    ∧ (inp.normals.getD j default).curvature ≤ inp.curvature_threshold

/-- Invariant of the growth of one region from the processed vector `P0` found at its seed: the
queue is repeat-free, its points are processed now and were not in `P0`, processed points stay
processed, and every point after the first joined from a point queued before it. -/
def RegionInv (inp : SmoothSegmentationInput) (P0 p : List Bool) (q : List Nat) : Prop :=
  q.Nodup ∧ (∀ e ∈ q, p.getD e true = true) ∧ (∀ e ∈ q, P0.getD e true = false)
    ∧ (∀ e, P0.getD e true = true → p.getD e true = true)
    ∧ ∀ k, 0 < k → k < q.length → ∃ m, m < k ∧ Joins inp (q.getD m 0) (q.getD k 0)

/-- What holds of every region the segmentation appends: strictly ascending indices, a size
within the two bounds, every point but one seed joined from a point of the region, and no
curvature above the threshold once the region has two points. -/
def RegionProp (inp : SmoothSegmentationInput) (R : List Nat) : Prop :=
  R.Sorted (· < ·) ∧ inp.min_pts_per_cluster ≤ R.length ∧ R.length ≤ inp.max_pts_per_cluster
    ∧ (∃ seed ∈ R, ∀ j ∈ R, j ≠ seed → ∃ s ∈ R, Joins inp s j)
    ∧ (2 ≤ R.length →
        ∀ j ∈ R, (inp.normals.getD j default).curvature ≤ inp.curvature_threshold)

/-! ## Index conversions and masks (`miscellaneous.h`) -/

/-- The value of `std::numeric_limits<int>::max ()` (32-bit `int`). -/
def int_max : Int := 2 ^ 31 - 1

/-- The conversion `static_cast<size_t>` of an `int` (64-bit `size_t`): the value modulo
`2 ^ 64`. -/
def castIntToSizet (x : Int) : Nat := (x % 2 ^ 64).toNat

/-- The conversion `static_cast<int>` of a `size_t`: the 32-bit two's complement value that is
congruent to the argument modulo `2 ^ 32`. -/
def castSizetToInt (u : Nat) : Int := ((u : Int) + 2 ^ 31) % 2 ^ 32 - 2 ^ 31

/-- Embedding of `convertVecInt2VecSizet` (miscellaneous.h 282-295): the result is resized to
the size of the input and filled position by position. The warning written to `std::cerr` for
a negative element is not part of the returned value. -/
def convertVecInt2VecSizet (input : List Int) : List Nat :=
  (List.range input.length).foldl
    (fun v_size_t i => v_size_t.set i (castIntToSizet (input.getD i 0)))
    (List.replicate input.length 0)

/-- Embedding of `convertVecSizet2VecInt` (miscellaneous.h 297-310); the warning written to
`std::cerr` for an element above the largest `int` is not part of the returned value. -/
def convertVecSizet2VecInt (input : List Nat) : List Int :=
  (List.range input.length).foldl
    (fun v_int i => v_int.set i (castSizetToInt (input.getD i 0)))
    (List.replicate input.length 0)

/-- Embedding of `createMaskFromIndices` (miscellaneous.h 342-351, and the overload for `int`
indices 354-363): a mask of `image_size` entries `false` in which the listed positions are set
to `true`, in the order of the list. -/
def createMaskFromIndices (indices : List Nat) (image_size : Nat) : List Bool :=
  indices.foldl (fun mask idx => mask.set idx true) (List.replicate image_size false)

/-- Embedding of `createIndicesFromMask<T>` (miscellaneous.h 366-384). `cast` is
`static_cast<T>` on positions and `d` the value of a value-initialised `T`; the state of the
loop is the buffer `out` and the counter `kept`. -/
def createIndicesFromMask {T : Type} (cast : Nat → T) (d : T) (mask : List Bool)
    (invert : Bool) : List T :=
  let st := (List.range mask.length).foldl
    (fun (st : List T × Nat) i =>
      if (mask.getD i false && !invert) || (!mask.getD i false && invert) then
        (st.1.set st.2 (cast i), st.2 + 1)
      else st)
    (List.replicate mask.length d, 0)
  resizeVec st.1 st.2 d

/-! ## Concrete inputs used by the witnesses -/

/-- A recognizer with two object hypotheses, planes enabled, nothing verified yet; models,
transforms and clouds are numbered. -/
def sampleRecognizer : SingleViewRecognizer Nat Nat Nat :=
  { models_ := [10, 11], transforms_ := [20, 21], model_ids_ := ["a", "b"]
    aligned_models_ := [30, 31], planes_found_ := [], verified_planes_ := []
    models_verified_ := [], model_ids_verified_ := [], transforms_verified_ := []
    add_planes_ := true }

/-- Two planes found by the plane segmentation. -/
def samplePlanes : List (PlaneModel Nat) := [⟨40⟩, ⟨41⟩]

/-- A recognizer without any hypothesis. -/
def emptyRecognizer : SingleViewRecognizer Nat Nat Nat :=
  { models_ := [], transforms_ := [], model_ids_ := []
    aligned_models_ := [], planes_found_ := [], verified_planes_ := []
    models_verified_ := [], model_ids_verified_ := [], transforms_verified_ := []
    add_planes_ := true }

/-- A recognizer that holds two aligned models while `model_ids_` is empty, planes disabled. -/
def unlabelledRecognizer : SingleViewRecognizer Nat Nat Nat :=
  { models_ := [10, 11], transforms_ := [20, 21], model_ids_ := []
    aligned_models_ := [30, 31], planes_found_ := [], verified_planes_ := []
    models_verified_ := [], model_ids_verified_ := [], transforms_verified_ := []
    add_planes_ := false }

/-- Point-cloud operations on clouds given as lists of point numbers: every cloud is organized
and nothing is occluded. -/
def sampleOps : OcclusionOps (List Nat) (List Nat) :=
  { isOrganized := fun _ => true
    size := List.length
    selfOcclusionIndices := fun c => List.range c.length
    copyPointCloud := fun c idx => idx.map (fun i => c.getD i 0)
    filterOrganized := fun _ c => (c, List.range c.length)
    filterDepthBuffer := fun _ c => c
    copyNormals := fun n idx => idx.map (fun i => n.getD i 0) }

/-- A verifier that requires normals, has a scene cloud, and has been given no normals. -/
def sampleVerifier : HypothesisVerification (List Nat) (List Nat) :=
  { mask_ := [true], scene_cloud_ := some [1, 2, 3], occlusion_cloud_ := none
    occlusion_cloud_set_ := false, visible_models_ := [], visible_normal_models_ := []
    visible_indices_ := [], complete_models_ := [], complete_normal_models_ := []
    requires_normals_ := true, normals_set_ := false }

/-- A verifier on which `setSceneCloud` has not been called. -/
def sceneLessVerifier : HypothesisVerification (List Nat) (List Nat) :=
  { sampleVerifier with scene_cloud_ := none, visible_models_ := [[5]], complete_models_ := [[6]]
                        visible_indices_ := [[0]] }

/-- Default-constructed recognizer parameters (ObjectRecognizerParameter.h 104-139) with two
feature types and three configuration files given. -/
def sampleParameter : ObjectRecognizerParameter :=
  { hv_config_xml_ := "cfg/hv_config.xml", shot_config_xml_ := "cfg/shot_config.xml"
    global_recognition_pipeline_config_ := ["a.xml", "b.xml", "c.xml"]
    camera_config_xml_ := "cfg/camera.xml", depth_img_mask_ := "cfg/xtion_depth_mask.png"
    sift_config_xml_ := "cfg/sift_config.xml", cg_size_ := 1 / 100, cg_thresh_ := 4
    cg_min_dist_for_cluster_factor_ := 1, use_graph_based_gc_grouping_ := true
    do_sift_ := true, do_shot_ := false, segmentation_method_ := 0
    global_feature_types_ := [1, 2], classification_methods_ := [5]
    shot_keypoint_extractor_method_ := 0, normal_computation_method_ := 0
    keypoint_support_radii_ := [1 / 25, 2 / 25], chop_z_ := 3, remove_planes_ := true
    plane_inlier_threshold_ := 1 / 50, min_plane_inliers_ := 20000
    remove_non_upright_objects_ := false, use_multiview_ := false, use_multiview_hv_ := true
    use_multiview_with_kp_correspondence_transfer_ := false, use_change_detection_ := true
    tolerance_for_cloud_diff_ := 1 / 50, min_points_for_hyp_removal_ := 50, max_views_ := 3
    icp_iterations_ := 0, sift_knn_ := 0, shot_knn_ := 0 }

/-- A multi-view recognizer holding the views 4, 5, 6 and 7 with at most three allowed, a
recognizer and a 640 x 480 scene; views, graph and points are numbers or lists of them. -/
def sampleMultiview : MultiviewRecognizer Nat (List Nat) Nat Nat :=
  { rr_ := some 0, scene_ := some ⟨640, 480, 0⟩
    views_ := [(4, 40), (5, 50), (6, 60), (7, 70)], gs_ := [4, 5, 6, 7], id_ := 8
    max_vertices_in_graph_ := 3, compute_mst_ := true }

/-- Five points on a line, neighbours at distance one, equal normals; the curvature of points 0
and 1 equals the threshold, point 3 is sharply curved. -/
def sampleSegmentation : SmoothSegmentationInput :=
  { cloud_size := 5
    normals := [⟨0, 0, 1, 1 / 25⟩, ⟨0, 0, 1, 1 / 25⟩, ⟨0, 0, 1, 0⟩, ⟨0, 0, 1, 1⟩, ⟨0, 0, 1, 0⟩]
    tolerance := 1
    tree_cloud_size := 5
    radiusSearch := fun i _ =>
      { found := 3, nn_indices := [i, i - 1, i + 1] }
    acos := fun x => 1 - x
    eps_angle := 1 / 4
    curvature_threshold := 1 / 25
    min_pts_per_cluster := 1
    max_pts_per_cluster := 100 }

/-- The sample segmentation input with a search tree built for a cloud of four points. -/
def mismatchedSegmentation : SmoothSegmentationInput :=
  { sampleSegmentation with tree_cloud_size := 4 }

/-! ## Lemmas on vectors and on the clutter bookkeeping -/

theorem getD_set_self {α : Type} (l : List α) (i : Nat) (a d : α) (h : i < l.length) :
    (l.set i a).getD i d = a := by
  simp [List.getD_eq_getElem?_getD, List.getElem?_set_self, h]

theorem getD_set_other {α : Type} (l : List α) (i j : Nat) (a d : α) (h : i ≠ j) :
    (l.set i a).getD j d = l.getD j d := by
  simp [List.getD_eq_getElem?_getD, List.getElem?_set_ne h]

theorem foldl_range_ite (c : Nat → Prop) [DecidablePred c] (f : Nat → ℚ) (n : Nat) :
    (List.range n).foldl (fun s i => if c i then s + f i else s) 0
      = ∑ i in Finset.range n, if c i then f i else 0 := by
  induction n with
  | zero => simp
  | succ n ih =>
    rw [List.range_succ, List.foldl_append, ih, Finset.sum_range_succ]
    by_cases h : c n <;> simp [h]

theorem scratch_eq_sum (U : List ℚ) (E : List Int) :
    getUnexplainedInformationInNeighborhood U E
      = ∑ i in Finset.range U.length, clutterVal (U.getD i 0) (E.getD i 0) := by
  unfold getUnexplainedInformationInNeighborhood clutterVal
  exact foldl_range_ite (fun i => U.getD i 0 > 0 ∧ E.getD i 0 = 0) (fun i => U.getD i 0) U.length

theorem scratch_set_U (U : List ℚ) (E : List Int) (p : Nat) (u : ℚ) (hp : p < U.length) :
    getUnexplainedInformationInNeighborhood (U.set p u) E
      = getUnexplainedInformationInNeighborhood U E
        - clutterVal (U.getD p 0) (E.getD p 0) + clutterVal u (E.getD p 0) := by
  rw [scratch_eq_sum, scratch_eq_sum, List.length_set]
  have hmem : p ∈ Finset.range U.length := Finset.mem_range.mpr hp
  rw [← Finset.add_sum_erase _ _ hmem, ← Finset.add_sum_erase (Finset.range U.length) _ hmem]
  have hrest : ∑ i in (Finset.range U.length).erase p,
        clutterVal ((U.set p u).getD i 0) (E.getD i 0)
      = ∑ i in (Finset.range U.length).erase p, clutterVal (U.getD i 0) (E.getD i 0) := by
    refine Finset.sum_congr rfl (fun i hi => ?_)
    rw [getD_set_other U p i u 0 (Ne.symm (Finset.ne_of_mem_erase hi))]
  rw [hrest, getD_set_self U p u 0 hp]
  ring

theorem scratch_set_E (U : List ℚ) (E : List Int) (q : Nat) (e : Int) (hq : q < E.length)
    (hqU : q < U.length) :
    getUnexplainedInformationInNeighborhood U (E.set q e)
      = getUnexplainedInformationInNeighborhood U E
        - clutterVal (U.getD q 0) (E.getD q 0) + clutterVal (U.getD q 0) e := by
  rw [scratch_eq_sum, scratch_eq_sum]
  have hmem : q ∈ Finset.range U.length := Finset.mem_range.mpr hqU
  rw [← Finset.add_sum_erase _ _ hmem, ← Finset.add_sum_erase (Finset.range U.length) _ hmem]
  have hrest : ∑ i in (Finset.range U.length).erase q,
        clutterVal (U.getD i 0) ((E.set q e).getD i 0)
      = ∑ i in (Finset.range U.length).erase q, clutterVal (U.getD i 0) (E.getD i 0) := by
    refine Finset.sum_congr rfl (fun i hi => ?_)
    rw [getD_set_other E q i e 0 (Ne.symm (Finset.ne_of_mem_erase hi))]
  rw [hrest, getD_set_self E q e 0 hq]
  ring

theorem loop1_fst (val : ℚ) (E : List Int) (nw : List (Nat × ℚ)) (U : List ℚ) (add : ℚ) :
    (nw.foldl (unexplainedStep val E) (U, add)).1 = addWeights val nw U := by
  induction nw generalizing U add with
  | nil => rfl
  | cons pw rest ih =>
    simp only [List.foldl_cons, addWeights]
    have hstep : unexplainedStep val E (U, add) pw
        = (U.set pw.1 (U.getD pw.1 0 + val * pw.2), (unexplainedStep val E (U, add) pw).2) := by
      unfold unexplainedStep
      dsimp only
      split_ifs <;> rfl
    rw [hstep, ih]
    rfl

theorem addWeights_length (val : ℚ) (nw : List (Nat × ℚ)) (U : List ℚ) :
    (addWeights val nw U).length = U.length := by
  induction nw generalizing U with
  | nil => rfl
  | cons pw rest ih =>
    simp only [addWeights, List.foldl_cons]
    exact (ih _).trans (List.length_set _ _ _)

theorem addWeights_getD_notin (val : ℚ) (nw : List (Nat × ℚ)) (U : List ℚ) (i : Nat)
    (hi : i ∉ nw.map Prod.fst) : (addWeights val nw U).getD i 0 = U.getD i 0 := by
  induction nw generalizing U with
  | nil => rfl
  | cons pw rest ih =>
    simp only [List.map_cons, List.mem_cons, not_or] at hi
    simp only [addWeights, List.foldl_cons]
    exact (ih _ hi.2).trans (getD_set_other U pw.1 i _ 0 (Ne.symm hi.1))

theorem loop1_snd (val : ℚ) (E : List Int) (nw : List (Nat × ℚ)) (U : List ℚ) (add : ℚ)
    (hnd : (nw.map Prod.fst).Nodup) :
    (nw.foldl (unexplainedStep val E) (U, add)).2
      = add + (nw.map (fun pw => neighbourDelta val (U.getD pw.1 0) (E.getD pw.1 0) pw.2)).sum := by
  induction nw generalizing U add with
  | nil => simp
  | cons pw rest ih =>
    simp only [List.map_cons, List.nodup_cons] at hnd
    simp only [List.foldl_cons, List.map_cons, List.sum_cons]
    have hstep : unexplainedStep val E (U, add) pw
        = (U.set pw.1 (U.getD pw.1 0 + val * pw.2),
            add + neighbourDelta val (U.getD pw.1 0) (E.getD pw.1 0) pw.2) := by
      unfold unexplainedStep neighbourDelta
      dsimp only
      split_ifs <;> simp_all
      ring
    rw [hstep, ih _ _ hnd.2]
    have hcongr : rest.map (fun pw' => neighbourDelta val
          ((U.set pw.1 (U.getD pw.1 0 + val * pw.2)).getD pw'.1 0) (E.getD pw'.1 0) pw'.2)
        = rest.map (fun pw' => neighbourDelta val (U.getD pw'.1 0) (E.getD pw'.1 0) pw'.2) := by
      refine List.map_congr_left (fun pw' hmem => ?_)
      have hne : pw.1 ≠ pw'.1 := by
        intro heq
        exact hnd.1 (heq ▸ List.mem_map_of_mem Prod.fst hmem)
      rw [getD_set_other U pw.1 pw'.1 _ 0 hne]
    rw [hcongr]
    ring

theorem loop2_closed (val : ℚ) (U : List ℚ) (E : List Int) (explained : List Nat) (add : ℚ) :
    explained.foldl (explainedStep val U E) add
      = add + (explained.map (fun q => explainedDelta val (U.getD q 0) (E.getD q 0))).sum := by
  induction explained generalizing add with
  | nil => simp
  | cons q rest ih =>
    simp only [List.foldl_cons, List.map_cons, List.sum_cons]
    rw [ih]
    have hstep : explainedStep val U E add q
        = add + explainedDelta val (U.getD q 0) (E.getD q 0) := by
      unfold explainedStep explainedDelta
      split_ifs <;> simp_all
      ring
    rw [hstep]
    ring

theorem scratch_addWeights (val : ℚ) (E : List Int) (nw : List (Nat × ℚ)) (U : List ℚ)
    (hnd : (nw.map Prod.fst).Nodup) (hb : ∀ pw ∈ nw, pw.1 < U.length) :
    getUnexplainedInformationInNeighborhood (addWeights val nw U) E
      = getUnexplainedInformationInNeighborhood U E
        + (nw.map (fun pw => clutterVal (U.getD pw.1 0 + val * pw.2) (E.getD pw.1 0)
            - clutterVal (U.getD pw.1 0) (E.getD pw.1 0))).sum := by
  induction nw generalizing U with
  | nil => simp [addWeights]
  | cons pw rest ih =>
    simp only [List.map_cons, List.nodup_cons] at hnd
    have hp : pw.1 < U.length := hb pw (List.mem_cons_self _ _)
    have hb' : ∀ pw' ∈ rest, pw'.1 < (U.set pw.1 (U.getD pw.1 0 + val * pw.2)).length := by
      intro pw' hmem
      rw [List.length_set]
      exact hb pw' (List.mem_cons_of_mem _ hmem)
    have hcongr : rest.map (fun pw' =>
          clutterVal ((U.set pw.1 (U.getD pw.1 0 + val * pw.2)).getD pw'.1 0 + val * pw'.2)
              (E.getD pw'.1 0)
            - clutterVal ((U.set pw.1 (U.getD pw.1 0 + val * pw.2)).getD pw'.1 0)
              (E.getD pw'.1 0))
        = rest.map (fun pw' => clutterVal (U.getD pw'.1 0 + val * pw'.2) (E.getD pw'.1 0)
            - clutterVal (U.getD pw'.1 0) (E.getD pw'.1 0)) := by
      refine List.map_congr_left (fun pw' hmem => ?_)
      have hne : pw.1 ≠ pw'.1 := by
        intro heq
        exact hnd.1 (heq ▸ List.mem_map_of_mem Prod.fst hmem)
      rw [getD_set_other U pw.1 pw'.1 _ 0 hne]
    have hfold : addWeights val (pw :: rest) U
        = addWeights val rest (U.set pw.1 (U.getD pw.1 0 + val * pw.2)) := rfl
    rw [hfold, ih _ hnd.2 hb', hcongr, scratch_set_U U E pw.1 _ hp]
    simp only [List.map_cons, List.sum_cons]
    ring

theorem addToCounts_length (qs : List Nat) (s : Int) (E : List Int) :
    (addToCounts qs s E).length = E.length := by
  induction qs generalizing E with
  | nil => rfl
  | cons q rest ih =>
    simp only [addToCounts, List.foldl_cons]
    exact (ih _).trans (List.length_set _ _ _)

theorem addToCounts_getD_notin (qs : List Nat) (s : Int) (E : List Int) (i : Nat)
    (hi : i ∉ qs) : (addToCounts qs s E).getD i 0 = E.getD i 0 := by
  induction qs generalizing E with
  | nil => rfl
  | cons q rest ih =>
    simp only [List.mem_cons, not_or] at hi
    simp only [addToCounts, List.foldl_cons]
    exact (ih _ hi.2).trans (getD_set_other E q i _ 0 (Ne.symm hi.1))

theorem addToCounts_getD_mem (qs : List Nat) (s : Int) (E : List Int) (i : Nat)
    (hnd : qs.Nodup) (hi : i ∈ qs) (hb : i < E.length) :
    (addToCounts qs s E).getD i 0 = E.getD i 0 + s := by
  induction qs generalizing E with
  | nil => simp at hi
  | cons q rest ih =>
    rw [List.nodup_cons] at hnd
    have hfold : addToCounts (q :: rest) s E = addToCounts rest s (E.set q (E.getD q 0 + s)) :=
      rfl
    rw [hfold]
    rcases List.mem_cons.mp hi with heq | hmem
    · subst heq
      rw [addToCounts_getD_notin rest s _ i hnd.1, getD_set_self E i _ 0 hb]
    · have hne : q ≠ i := fun h => hnd.1 (h ▸ hmem)
      rw [ih _ hnd.2 hmem (by rw [List.length_set]; exact hb), getD_set_other E q i _ 0 hne]

theorem scratch_addToCounts (U : List ℚ) (s : Int) (qs : List Nat) (E : List Int)
    (hnd : qs.Nodup) (hb : ∀ q ∈ qs, q < E.length ∧ q < U.length) :
    getUnexplainedInformationInNeighborhood U (addToCounts qs s E)
      = getUnexplainedInformationInNeighborhood U E
        + (qs.map (fun q => clutterVal (U.getD q 0) (E.getD q 0 + s)
            - clutterVal (U.getD q 0) (E.getD q 0))).sum := by
  induction qs generalizing E with
  | nil => simp [addToCounts]
  | cons q rest ih =>
    rw [List.nodup_cons] at hnd
    have hq := hb q (List.mem_cons_self _ _)
    have hb' : ∀ q' ∈ rest, q' < (E.set q (E.getD q 0 + s)).length ∧ q' < U.length := by
      intro q' hmem
      rw [List.length_set]
      exact hb q' (List.mem_cons_of_mem _ hmem)
    have hcongr : rest.map (fun q' =>
          clutterVal (U.getD q' 0) ((E.set q (E.getD q 0 + s)).getD q' 0 + s)
            - clutterVal (U.getD q' 0) ((E.set q (E.getD q 0 + s)).getD q' 0))
        = rest.map (fun q' => clutterVal (U.getD q' 0) (E.getD q' 0 + s)
            - clutterVal (U.getD q' 0) (E.getD q' 0)) := by
      refine List.map_congr_left (fun q' hmem => ?_)
      have hne : q ≠ q' := fun h => hnd.1 (h ▸ hmem)
      rw [getD_set_other E q q' _ 0 hne]
    have hfold : addToCounts (q :: rest) s E = addToCounts rest s (E.set q (E.getD q 0 + s)) :=
      rfl
    rw [hfold, ih _ hnd.2 hb', hcongr, scratch_set_E U E q _ hq.1 hq.2]
    simp only [List.map_cons, List.sum_cons]
    ring

theorem neighbourDelta_on (u w : ℚ) (e : Int) (hu : 0 ≤ u) (hw : 0 ≤ w) :
    neighbourDelta 1 u e w = clutterVal (u + 1 * w) e - clutterVal u e := by
  have h10 : ¬ ((1 : ℚ) < 0) := by norm_num
  unfold neighbourDelta clutterVal
  rw [if_neg h10, one_mul]
  by_cases he : e = 0
  · simp only [he, and_true, if_true]
    split_ifs <;> linarith
  · simp [he]

theorem neighbourDelta_off (u w : ℚ) (e : Int) (hw : 0 ≤ w) (hwu : w ≤ u) :
    neighbourDelta (-1) u e w = clutterVal (u + (-1) * w) e - clutterVal u e := by
  have h10 : ((-1 : ℚ) < 0) := by norm_num
  unfold neighbourDelta clutterVal
  rw [if_pos h10]
  by_cases he : e = 0
  · simp only [he, and_true]
    split_ifs <;> linarith
  · simp [he]

theorem explainedDelta_on (u : ℚ) (e : Int) (he : 0 ≤ e) :
    explainedDelta 1 u (e + 1) = clutterVal u (e + 1) - clutterVal u e := by
  have h10 : ¬ ((1 : ℚ) < 0) := by norm_num
  unfold explainedDelta clutterVal
  rw [if_neg h10]
  have h1 : e + 1 ≠ 0 := by omega
  by_cases hzero : e = 0
  · subst hzero
    by_cases hu : u > 0 <;> simp [hu]
  · have h2 : e + 1 ≠ 1 := by omega
    simp [h1, h2, hzero]

theorem explainedDelta_off (u : ℚ) (e : Int) (he : 1 ≤ e) :
    explainedDelta (-1) u (e + -1) = clutterVal u (e + -1) - clutterVal u e := by
  have h10 : ((-1 : ℚ) < 0) := by norm_num
  unfold explainedDelta clutterVal
  rw [if_pos h10]
  have h1 : e ≠ 0 := by omega
  by_cases h2 : e + -1 = 0
  · by_cases hu : u > 0 <;> simp [hu, h1, h2]
  · simp [h1, h2]

theorem getD_nonneg_rat (U : List ℚ) (hU : ∀ u ∈ U, 0 ≤ u) (i : Nat) : 0 ≤ U.getD i 0 := by
  rw [List.getD_eq_getElem?_getD]
  rcases h : U[i]? with _ | u
  · simp
  · simpa using hU u (List.getElem?_mem h)

theorem getD_nonneg_int (E : List Int) (hE : ∀ e ∈ E, 0 ≤ e) (i : Nat) : 0 ≤ E.getD i 0 := by
  rw [List.getD_eq_getElem?_getD]
  rcases h : E[i]? with _ | e
  · simp
  · simpa using hE e (List.getElem?_mem h)

/-- Closed form of `updateUnexplainedVector` for a repeat-free neighbourhood list: the vectors
it leaves and the amount added to `previous_unexplained_`. -/
theorem updateUnexplainedVector_closed (N : List Nat) (W : List ℚ) (U : List ℚ)
    (explained : List Nat) (E : List Int) (val : ℚ) (g : GHVTotals)
    (hlen : W.length = N.length) (hN : N.Nodup) :
    updateUnexplainedVector N W U explained E val g
      = { unexplained_by_RM := addWeights val (N.zip W) U
          explained := explained
          explained_by_RM := E
          totals := { g with previous_unexplained_ := g.previous_unexplained_ +
            (0 + ((N.zip W).map (fun pw => neighbourDelta val (U.getD pw.1 0)
                  (E.getD pw.1 0) pw.2)).sum
              + (explained.map (fun q => explainedDelta val
                  ((addWeights val (N.zip W) U).getD q 0) (E.getD q 0))).sum) } } := by
  have hfst : (N.zip W).map Prod.fst = N := List.map_fst_zip N W (le_of_eq hlen.symm)
  have hN2 : ((N.zip W).map Prod.fst).Nodup := by rw [hfst]; exact hN
  unfold updateUnexplainedVector
  simp only
  rw [loop1_fst, loop1_snd _ _ _ _ _ hN2, loop2_closed]

/-- Closed form of a toggle: the vectors it leaves and the amount added to
`previous_unexplained_`. -/
theorem toggleClutter_closed (N : List Nat) (W : List ℚ) (explained : List Nat) (s : Int)
    (U : List ℚ) (E : List Int) (g : GHVTotals) (hlen : W.length = N.length) (hN : N.Nodup) :
    toggleClutter N W explained s U E g
      = { unexplained_by_RM := addWeights (s : ℚ) (N.zip W) U
          explained := explained
          explained_by_RM := addToCounts explained s E
          totals := { g with previous_unexplained_ := g.previous_unexplained_ +
            (0 + ((N.zip W).map (fun pw => neighbourDelta (s : ℚ) (U.getD pw.1 0)
                  ((addToCounts explained s E).getD pw.1 0) pw.2)).sum
              + (explained.map (fun q => explainedDelta (s : ℚ)
                  ((addWeights (s : ℚ) (N.zip W) U).getD q 0)
                  ((addToCounts explained s E).getD q 0))).sum) } } := by
  unfold toggleClutter
  exact updateUnexplainedVector_closed N W U explained (addToCounts explained s E) s g hlen hN

theorem toggle_on_total (N : List Nat) (W : List ℚ) (explained : List Nat)
    (U : List ℚ) (E : List Int) (g : GHVTotals)
    (hU : ∀ u ∈ U, 0 ≤ u) (hE : ∀ e ∈ E, 0 ≤ e) (hUE : U.length ≤ E.length)
    (hlen : W.length = N.length) (hN : N.Nodup) (hW : ∀ w ∈ W, 0 ≤ w)
    (hX : explained.Nodup) (hdisj : ∀ p ∈ N, p ∉ explained)
    (hNb : ∀ p ∈ N, p < U.length) (hXb : ∀ q ∈ explained, q < U.length) :
    (toggleClutter N W explained 1 U E g).totals.previous_unexplained_
      = g.previous_unexplained_
        + (getUnexplainedInformationInNeighborhood
            (toggleClutter N W explained 1 U E g).unexplained_by_RM
            (toggleClutter N W explained 1 U E g).explained_by_RM
          - getUnexplainedInformationInNeighborhood U E) := by
  have hfst : (N.zip W).map Prod.fst = N := List.map_fst_zip N W (le_of_eq hlen.symm)
  have hN2 : ((N.zip W).map Prod.fst).Nodup := by rw [hfst]; exact hN
  have hb1 : ∀ pw ∈ N.zip W, pw.1 < U.length := fun pw hmem =>
    hNb pw.1 (hfst ▸ List.mem_map_of_mem Prod.fst hmem)
  have hb2 : ∀ q ∈ explained, q < E.length ∧ q < U.length := fun q hq =>
    ⟨lt_of_lt_of_le (hXb q hq) hUE, hXb q hq⟩
  rw [toggleClutter_closed N W explained 1 U E g hlen hN]
  simp only [Int.cast_one]
  have h1 : (N.zip W).map (fun pw => neighbourDelta 1 (U.getD pw.1 0)
        ((addToCounts explained 1 E).getD pw.1 0) pw.2)
      = (N.zip W).map (fun pw =>
          clutterVal (U.getD pw.1 0 + 1 * pw.2) ((addToCounts explained 1 E).getD pw.1 0)
            - clutterVal (U.getD pw.1 0) ((addToCounts explained 1 E).getD pw.1 0)) := by
    refine List.map_congr_left (fun pw hmem => ?_)
    exact neighbourDelta_on _ _ _ (getD_nonneg_rat U hU _) (hW pw.2 (List.of_mem_zip hmem).2)
  have h2 : explained.map (fun q => explainedDelta 1 ((addWeights 1 (N.zip W) U).getD q 0)
        ((addToCounts explained 1 E).getD q 0))
      = explained.map (fun q => clutterVal (U.getD q 0) (E.getD q 0 + 1)
          - clutterVal (U.getD q 0) (E.getD q 0)) := by
    refine List.map_congr_left (fun q hq => ?_)
    have hqN : q ∉ (N.zip W).map Prod.fst := by
      rw [hfst]
      exact fun hmem => hdisj q hmem hq
    rw [addWeights_getD_notin 1 _ U q hqN,
      addToCounts_getD_mem explained 1 E q hX hq (hb2 q hq).1]
    exact explainedDelta_on _ _ (getD_nonneg_int E hE q)
  rw [h1, h2, scratch_addWeights 1 _ (N.zip W) U hN2 hb1,
    scratch_addToCounts U 1 explained E hX hb2]
  ring

theorem toggle_off_total (N : List Nat) (W : List ℚ) (explained : List Nat)
    (U : List ℚ) (E : List Int) (g : GHVTotals)
    (hUE : U.length ≤ E.length)
    (hlen : W.length = N.length) (hN : N.Nodup) (hW : ∀ w ∈ W, 0 ≤ w)
    (hX : explained.Nodup) (hdisj : ∀ p ∈ N, p ∉ explained)
    (hNb : ∀ p ∈ N, p < U.length) (hXb : ∀ q ∈ explained, q < U.length)
    (hactE : ∀ q ∈ explained, 1 ≤ E.getD q 0)
    (hactU : ∀ pw ∈ N.zip W, pw.2 ≤ U.getD pw.1 0) :
    (toggleClutter N W explained (-1) U E g).totals.previous_unexplained_
      = g.previous_unexplained_
        + (getUnexplainedInformationInNeighborhood
            (toggleClutter N W explained (-1) U E g).unexplained_by_RM
            (toggleClutter N W explained (-1) U E g).explained_by_RM
          - getUnexplainedInformationInNeighborhood U E) := by
  have hfst : (N.zip W).map Prod.fst = N := List.map_fst_zip N W (le_of_eq hlen.symm)
  have hN2 : ((N.zip W).map Prod.fst).Nodup := by rw [hfst]; exact hN
  have hb1 : ∀ pw ∈ N.zip W, pw.1 < U.length := fun pw hmem =>
    hNb pw.1 (hfst ▸ List.mem_map_of_mem Prod.fst hmem)
  have hb2 : ∀ q ∈ explained, q < E.length ∧ q < U.length := fun q hq =>
    ⟨lt_of_lt_of_le (hXb q hq) hUE, hXb q hq⟩
  rw [toggleClutter_closed N W explained (-1) U E g hlen hN]
  simp only [Int.cast_neg, Int.cast_one]
  have h1 : (N.zip W).map (fun pw => neighbourDelta (-1) (U.getD pw.1 0)
        ((addToCounts explained (-1) E).getD pw.1 0) pw.2)
      = (N.zip W).map (fun pw =>
          clutterVal (U.getD pw.1 0 + (-1) * pw.2) ((addToCounts explained (-1) E).getD pw.1 0)
            - clutterVal (U.getD pw.1 0) ((addToCounts explained (-1) E).getD pw.1 0)) := by
    refine List.map_congr_left (fun pw hmem => ?_)
    exact neighbourDelta_off _ _ _ (hW pw.2 (List.of_mem_zip hmem).2) (hactU pw hmem)
  have h2 : explained.map (fun q => explainedDelta (-1) ((addWeights (-1) (N.zip W) U).getD q 0)
        ((addToCounts explained (-1) E).getD q 0))
      = explained.map (fun q => clutterVal (U.getD q 0) (E.getD q 0 + -1)
          - clutterVal (U.getD q 0) (E.getD q 0)) := by
    refine List.map_congr_left (fun q hq => ?_)
    have hqN : q ∉ (N.zip W).map Prod.fst := by
      rw [hfst]
      exact fun hmem => hdisj q hmem hq
    rw [addWeights_getD_notin (-1) _ U q hqN,
      addToCounts_getD_mem explained (-1) E q hX hq (hb2 q hq).1]
    exact explainedDelta_off _ _ (hactE q hq)
  rw [h1, h2, scratch_addWeights (-1) _ (N.zip W) U hN2 hb1,
    scratch_addToCounts U (-1) explained E hX hb2]
  ring

theorem addWeights_getD_mem (val : ℚ) (nw : List (Nat × ℚ)) (U : List ℚ) (pw : Nat × ℚ)
    (hnd : (nw.map Prod.fst).Nodup) (hmem : pw ∈ nw) (hb : pw.1 < U.length) :
    (addWeights val nw U).getD pw.1 0 = U.getD pw.1 0 + val * pw.2 := by
  induction nw generalizing U with
  | nil => simp at hmem
  | cons hd rest ih =>
    simp only [List.map_cons, List.nodup_cons] at hnd
    have hfold : addWeights val (hd :: rest) U
        = addWeights val rest (U.set hd.1 (U.getD hd.1 0 + val * hd.2)) := rfl
    rw [hfold]
    rcases List.mem_cons.mp hmem with heq | hin
    · subst heq
      rw [addWeights_getD_notin val rest _ pw.1 hnd.1, getD_set_self U pw.1 _ 0 hb]
    · have hne : hd.1 ≠ pw.1 := fun h => hnd.1 (h ▸ List.mem_map_of_mem Prod.fst hin)
      rw [ih _ hnd.2 hin (by rw [List.length_set]; exact hb), getD_set_other U hd.1 pw.1 _ 0 hne]

theorem list_ext_getD (l₁ l₂ : List ℚ) (hlen : l₁.length = l₂.length)
    (h : ∀ i, l₁.getD i 0 = l₂.getD i 0) : l₁ = l₂ := by
  refine List.ext_getElem hlen (fun n h₁ h₂ => ?_)
  have := h n
  rwa [List.getD_eq_getElem _ _ h₁, List.getD_eq_getElem _ _ h₂] at this

theorem sum_map_cancel {α : Type} (l : List α) (f k : α → ℚ) (h : ∀ x ∈ l, f x + k x = 0) :
    (l.map f).sum + (l.map k).sum = 0 := by
  induction l with
  | nil => simp
  | cons a rest ih =>
    have ha := h a (List.mem_cons_self _ _)
    have hr := ih (fun x hx => h x (List.mem_cons_of_mem _ hx))
    simp only [List.map_cons, List.sum_cons]
    linarith

theorem addWeights_undo (nw : List (Nat × ℚ)) (U : List ℚ)
    (hnd : (nw.map Prod.fst).Nodup) (hb : ∀ pw ∈ nw, pw.1 < U.length) :
    addWeights (-1) nw (addWeights 1 nw U) = U := by
  refine list_ext_getD _ _ ?_ (fun i => ?_)
  · rw [addWeights_length, addWeights_length]
  · by_cases hi : i ∈ nw.map Prod.fst
    · obtain ⟨pw, hmem, rfl⟩ := List.mem_map.mp hi
      rw [addWeights_getD_mem (-1) nw _ pw hnd hmem
          (by rw [addWeights_length]; exact hb pw hmem),
        addWeights_getD_mem 1 nw U pw hnd hmem (hb pw hmem)]
      ring
    · rw [addWeights_getD_notin (-1) nw _ i hi, addWeights_getD_notin 1 nw U i hi]

theorem neighbourDelta_cancel (u w : ℚ) (e : Int) (hu : 0 ≤ u) (hw : 0 ≤ w) :
    neighbourDelta 1 u e w + neighbourDelta (-1) (u + 1 * w) e w = 0 := by
  have h10 : ¬ ((1 : ℚ) < 0) := by norm_num
  have h11 : ((-1 : ℚ) < 0) := by norm_num
  unfold neighbourDelta
  rw [if_neg h10, if_pos h11, one_mul]
  by_cases he : e = 0
  · simp only [he, and_true, if_true]
    split_ifs <;> linarith
  · simp [he]

theorem explainedDelta_cancel (u : ℚ) (e : Int) :
    explainedDelta 1 u (e + 1) + explainedDelta (-1) u e = 0 := by
  have h10 : ¬ ((1 : ℚ) < 0) := by norm_num
  have h11 : ((-1 : ℚ) < 0) := by norm_num
  unfold explainedDelta
  rw [if_neg h10, if_pos h11]
  by_cases he : e = 0
  · subst he
    by_cases hu : u > 0 <;> simp [hu]
  · have h2 : e + 1 ≠ 1 := by omega
    simp [he, h2]

theorem updateExplainedVector_fst (l : List (Nat × ℚ)) (E : List Int) (Wt : List ℚ)
    (sign : Int) :
    (l.foldl (fun (st : List Int × List ℚ) pv =>
        (st.1.set pv.1 (st.1.getD pv.1 0 + sign),
          st.2.set pv.1 (st.2.getD pv.1 0 + (sign : ℚ) * pv.2))) (E, Wt)).1
      = addToCounts (l.map Prod.fst) sign E := by
  induction l generalizing E Wt with
  | nil => rfl
  | cons pv rest ih =>
    simp only [List.foldl_cons, List.map_cons, addToCounts]
    rw [ih]
    rfl

theorem updateExplainedVector_counts (vec : List Nat) (vec_float : List ℚ) (E : List Int)
    (Wt : List ℚ) (sign : Int) (hlen : vec.length ≤ vec_float.length) :
    (updateExplainedVector vec vec_float E Wt sign).1 = addToCounts vec sign E := by
  unfold updateExplainedVector
  rw [updateExplainedVector_fst, List.map_fst_zip vec vec_float hlen]

theorem countInvariant_init (hypotheses : List GHVRecognitionModel) (n : Nat) :
    CountInvariant hypotheses n (ExplainedState.init hypotheses n) := by
  refine ⟨by simp [ExplainedState.init], by simp [ExplainedState.init], fun p => ?_⟩
  have hempty : activeExplainers hypotheses (ExplainedState.init hypotheses n).active p = ∅ := by
    apply Finset.eq_empty_of_forall_not_mem
    intro h hmem
    simp only [activeExplainers, ExplainedState.init, Finset.mem_filter] at hmem
    have hfalse : (List.replicate hypotheses.length false).getD h false = false := by
      rw [List.getD_eq_getElem?_getD, List.getElem?_replicate]
      split_ifs <;> rfl
    rw [hfalse] at hmem
    exact Bool.false_ne_true hmem.2.1
  rw [hempty]
  simp only [ExplainedState.init, Finset.card_empty, Nat.cast_zero]
  rw [List.getD_eq_getElem?_getD, List.getElem?_replicate]
  split_ifs <;> rfl

theorem getD_set_bool (l : List Bool) (h k : Nat) (b : Bool) (hh : h < l.length) :
    (l.set h b).getD k false = if k = h then b else l.getD k false := by
  by_cases hk : k = h
  · subst hk
    simp [List.getD_eq_getElem?_getD, List.getElem?_set_self, hh]
  · simp [List.getD_eq_getElem?_getD, List.getElem?_set_ne (Ne.symm hk), hk]

theorem mem_activeExplainers (hypotheses : List GHVRecognitionModel) (active : List Bool)
    (p k : Nat) :
    k ∈ activeExplainers hypotheses active p ↔
      k < hypotheses.length ∧ active.getD k false = true
        ∧ p ∈ (hypotheses.getD k default).explained_ := by
  simp only [activeExplainers, Finset.mem_filter, Finset.mem_range]

theorem mem_activeExplainers_set (hypotheses : List GHVRecognitionModel) (active : List Bool)
    (h : Nat) (b : Bool) (p k : Nat) (hha : h < active.length) :
    k ∈ activeExplainers hypotheses (active.set h b) p ↔
      k < hypotheses.length ∧ (if k = h then b else active.getD k false) = true
        ∧ p ∈ (hypotheses.getD k default).explained_ := by
  simp only [activeExplainers, Finset.mem_filter, Finset.mem_range, getD_set_bool _ _ _ _ hha]

theorem countInvariant_step (hypotheses : List GHVRecognitionModel) (n : Nat)
    (hwf : WellFormedHypotheses hypotheses n) (s : ExplainedState)
    (hinv : CountInvariant hypotheses n s) (h : Nat) :
    CountInvariant hypotheses n (applyMove hypotheses s h) := by
  obtain ⟨hact, hlenE, hcount⟩ := hinv
  by_cases hh : h < hypotheses.length
  · have hrm : hypotheses.getD h default ∈ hypotheses := by
      rw [List.getD_eq_getElem _ _ hh]
      exact List.getElem_mem _
    obtain ⟨hnd, hlen, hb⟩ := hwf _ hrm
    refine ⟨by simp [applyMove, hact], ?_, fun p => ?_⟩
    · simp only [applyMove]
      rw [updateExplainedVector_counts _ _ _ _ _ hlen, addToCounts_length, hlenE]
    · simp only [applyMove]
      rw [updateExplainedVector_counts _ _ _ _ _ hlen]
      have hha : h < s.active.length := hact ▸ hh
      by_cases hp : p ∈ (hypotheses.getD h default).explained_
      · rw [addToCounts_getD_mem _ _ _ p hnd hp (hlenE ▸ hb p hp), hcount p]
        cases hb0 : s.active.getD h false
        · have hnew : activeExplainers hypotheses (s.active.set h !false) p
              = insert h (activeExplainers hypotheses s.active p) := by
            ext k
            rw [mem_activeExplainers_set _ _ _ _ _ _ hha, Finset.mem_insert,
              mem_activeExplainers]
            by_cases hk : k = h
            · subst hk
              exact ⟨fun _ => Or.inl rfl, fun _ => ⟨hh, by rw [if_pos rfl]; rfl, hp⟩⟩
            · rw [if_neg hk]
              exact ⟨fun x => Or.inr x, fun x => x.resolve_left hk⟩
          have hnot : h ∉ activeExplainers hypotheses s.active p := by
            rw [mem_activeExplainers, hb0]
            exact fun x => Bool.false_ne_true x.2.1
          rw [hnew, Finset.card_insert_of_not_mem hnot]
          simp
        · have hnew : activeExplainers hypotheses (s.active.set h !true) p
              = (activeExplainers hypotheses s.active p).erase h := by
            ext k
            rw [mem_activeExplainers_set _ _ _ _ _ _ hha, Finset.mem_erase,
              mem_activeExplainers]
            by_cases hk : k = h
            · subst hk
              rw [if_pos rfl]
              exact ⟨fun x => absurd x.2.1 Bool.false_ne_true, fun x => absurd rfl x.1⟩
            · rw [if_neg hk]
              exact ⟨fun x => ⟨hk, x⟩, fun x => x.2⟩
          have hin : h ∈ activeExplainers hypotheses s.active p := by
            rw [mem_activeExplainers]
            exact ⟨hh, hb0, hp⟩
          have hpos : 0 < (activeExplainers hypotheses s.active p).card :=
            Finset.card_pos.mpr ⟨h, hin⟩
          rw [hnew, Finset.card_erase_of_mem hin]
          simp only [if_true]
          omega
      · rw [addToCounts_getD_notin _ _ _ p hp, hcount p]
        have hnew : activeExplainers hypotheses (s.active.set h !s.active.getD h false) p
            = activeExplainers hypotheses s.active p := by
          ext k
          rw [mem_activeExplainers_set _ _ _ _ _ _ hha, mem_activeExplainers]
          by_cases hk : k = h
          · subst hk
            exact ⟨fun x => absurd x.2.2 hp, fun x => absurd x.2.2 hp⟩
          · rw [if_neg hk]
        rw [hnew]
  · have hdef : hypotheses.getD h default = default := by
      rw [List.getD_eq_getElem?_getD, List.getElem?_eq_none (not_lt.mp hh)]
      rfl
    have hset : ∀ b, s.active.set h b = s.active := fun b =>
      List.set_eq_of_length_le (hact ▸ not_lt.mp hh)
    have hE : (applyMove hypotheses s h).explained_by_RM_ = s.explained_by_RM_ := by
      simp only [applyMove, hdef]
      rfl
    have hA : (applyMove hypotheses s h).active = s.active := by
      simp only [applyMove]
      exact hset _
    refine ⟨by rw [hA, hact], by rw [hE, hlenE], fun p => ?_⟩
    rw [hE, hA]
    exact hcount p

theorem foldl_add_eq_sum {α : Type} (l : List α) (f : α → ℚ) (a : ℚ) :
    l.foldl (fun acc m => acc + f m) a = a + (l.map f).sum := by
  induction l generalizing a with
  | nil => simp
  | cons m rest ih =>
    simp only [List.foldl_cons, List.map_cons, List.sum_cons]
    rw [ih]
    ring

/-! ## The verified properties -/

/-- C1. Clutter-term consistency. Let the accumulators `U` be non-negative, the explained-by
counts `E` be counts (non-negative, one per accumulator at least) and `previous_unexplained_`
equal `getUnexplainedInformationInNeighborhood U E`. For a hypothesis with a repeat-free
neighbourhood list `N` carrying non-negative weights `W`, disjoint from its repeat-free
explained list, all indices in range: after activating it (counts `+1` on the explained
indices, then `updateUnexplainedVector` with `val = +1`) the running total equals the clutter
term recomputed from scratch on the updated vectors; and the same holds after deactivating it
when it is currently active, that is when its explained points are counted (`E[q] ≥ 1`) and its
weights are contained in the accumulators (`w ≤ U[p]`). -/
theorem clutter_total_consistent (N : List Nat) (W : List ℚ) (explained : List Nat)
    (U : List ℚ) (E : List Int) (g : GHVTotals)
    (hU : ∀ u ∈ U, 0 ≤ u) (hE : ∀ e ∈ E, 0 ≤ e) (hUE : U.length ≤ E.length)
    (hT : g.previous_unexplained_ = getUnexplainedInformationInNeighborhood U E)
    (hlen : W.length = N.length) (hN : N.Nodup) (hW : ∀ w ∈ W, 0 ≤ w)
    (hX : explained.Nodup) (hdisj : ∀ p ∈ N, p ∉ explained)
    (hNb : ∀ p ∈ N, p < U.length) (hXb : ∀ q ∈ explained, q < U.length) :
    (toggleClutter N W explained 1 U E g).totals.previous_unexplained_
        = getUnexplainedInformationInNeighborhood
            (toggleClutter N W explained 1 U E g).unexplained_by_RM
            (toggleClutter N W explained 1 U E g).explained_by_RM
      ∧ ((∀ q ∈ explained, 1 ≤ E.getD q 0) → (∀ pw ∈ N.zip W, pw.2 ≤ U.getD pw.1 0) →
          (toggleClutter N W explained (-1) U E g).totals.previous_unexplained_
            = getUnexplainedInformationInNeighborhood
                (toggleClutter N W explained (-1) U E g).unexplained_by_RM
                (toggleClutter N W explained (-1) U E g).explained_by_RM) := by
  refine ⟨?_, fun hactE hactU => ?_⟩
  · rw [toggle_on_total N W explained U E g hU hE hUE hlen hN hW hX hdisj hNb hXb, hT]
    ring
  · rw [toggle_off_total N W explained U E g hUE hlen hN hW hX hdisj hNb hXb hactE hactU, hT]
    ring

/-- Witness for C1: a scene of three points, a hypothesis with neighbourhood point 0 (weight one
half) and explained point 1, which is currently active. -/
theorem clutter_total_consistent_witness :
    (toggleClutter [0] [1 / 2] [1] 1 [1, 2, 0] [0, 1, 0] ⟨0, 0, 0, 0, 1⟩).totals.previous_unexplained_
        = getUnexplainedInformationInNeighborhood
            (toggleClutter [0] [1 / 2] [1] 1 [1, 2, 0] [0, 1, 0] ⟨0, 0, 0, 0, 1⟩).unexplained_by_RM
            (toggleClutter [0] [1 / 2] [1] 1 [1, 2, 0] [0, 1, 0] ⟨0, 0, 0, 0, 1⟩).explained_by_RM
      ∧ (toggleClutter [0] [1 / 2] [1] (-1) [1, 2, 0] [0, 1, 0]
            ⟨0, 0, 0, 0, 1⟩).totals.previous_unexplained_
        = getUnexplainedInformationInNeighborhood
            (toggleClutter [0] [1 / 2] [1] (-1) [1, 2, 0] [0, 1, 0] ⟨0, 0, 0, 0, 1⟩).unexplained_by_RM
            (toggleClutter [0] [1 / 2] [1] (-1) [1, 2, 0] [0, 1, 0]
              ⟨0, 0, 0, 0, 1⟩).explained_by_RM := by
  have h := clutter_total_consistent [0] [1 / 2] [1] [1, 2, 0] [0, 1, 0] ⟨0, 0, 0, 0, 1⟩
    (by norm_num) (by decide) (by decide)
    (by simp [getUnexplainedInformationInNeighborhood, List.range_succ])
    (by decide) (by decide) (by norm_num) (by decide) (by decide) (by decide) (by decide)
  exact ⟨h.1, h.2 (by decide) (by norm_num)⟩

/-- C2. Reversibility of a toggle on the clutter bookkeeping. From any state with non-negative
accumulators `U`, for a hypothesis whose neighbourhood list `N` is repeat-free, carries
non-negative weights `W`, is disjoint from its explained list and lies in range: toggling it on
(the counts `E1` are `E` with `+1` on the explained indices, `updateUnexplainedVector` with
`val = +1`) and then off (the counts `E2` are `E1` with `-1` on the explained indices,
`val = -1`) returns the accumulator vector and `previous_unexplained_`, with every other
total, to their values before the toggle. -/
theorem toggle_on_off_restores (N : List Nat) (W : List ℚ) (explained : List Nat)
    (U : List ℚ) (E E1 E2 : List Int) (g : GHVTotals)
    (hU : ∀ u ∈ U, 0 ≤ u) (hlen : W.length = N.length) (hN : N.Nodup) (hW : ∀ w ∈ W, 0 ≤ w)
    (hdisj : ∀ p ∈ N, p ∉ explained) (hNb : ∀ p ∈ N, p < U.length)
    (hE1 : ∀ i, E1.getD i 0 = if i ∈ explained then E.getD i 0 + 1 else E.getD i 0)
    (hE2 : ∀ i, E2.getD i 0 = if i ∈ explained then E1.getD i 0 - 1 else E1.getD i 0) :
    (updateUnexplainedVector N W
        (updateUnexplainedVector N W U explained E1 1 g).unexplained_by_RM explained E2 (-1)
        (updateUnexplainedVector N W U explained E1 1 g).totals).unexplained_by_RM = U
      ∧ (updateUnexplainedVector N W
          (updateUnexplainedVector N W U explained E1 1 g).unexplained_by_RM explained E2 (-1)
          (updateUnexplainedVector N W U explained E1 1 g).totals).totals = g := by
  have hfst : (N.zip W).map Prod.fst = N := List.map_fst_zip N W (le_of_eq hlen.symm)
  have hN2 : ((N.zip W).map Prod.fst).Nodup := by rw [hfst]; exact hN
  have hb1 : ∀ pw ∈ N.zip W, pw.1 < U.length := fun pw hmem =>
    hNb pw.1 (hfst ▸ List.mem_map_of_mem Prod.fst hmem)
  have hundo := addWeights_undo (N.zip W) U hN2 hb1
  have hnb : ((N.zip W).map (fun pw =>
          neighbourDelta 1 (U.getD pw.1 0) (E1.getD pw.1 0) pw.2)).sum
      + ((N.zip W).map (fun pw => neighbourDelta (-1)
          ((addWeights 1 (N.zip W) U).getD pw.1 0) (E2.getD pw.1 0) pw.2)).sum = 0 := by
    refine sum_map_cancel _ _ _ (fun pw hmem => ?_)
    have hpN : pw.1 ∈ N := hfst ▸ List.mem_map_of_mem Prod.fst hmem
    have hpX : pw.1 ∉ explained := hdisj pw.1 hpN
    rw [addWeights_getD_mem 1 _ U pw hN2 hmem (hb1 pw hmem), hE2 pw.1, if_neg hpX]
    exact neighbourDelta_cancel _ _ _ (getD_nonneg_rat U hU _)
      (hW pw.2 (List.of_mem_zip hmem).2)
  have hex : (explained.map (fun q => explainedDelta 1
          ((addWeights 1 (N.zip W) U).getD q 0) (E1.getD q 0))).sum
      + (explained.map (fun q => explainedDelta (-1) (U.getD q 0) (E2.getD q 0))).sum = 0 := by
    refine sum_map_cancel _ _ _ (fun q hq => ?_)
    have hqN : q ∉ (N.zip W).map Prod.fst := by
      rw [hfst]
      exact fun hmem => hdisj q hmem hq
    rw [addWeights_getD_notin 1 _ U q hqN, hE2 q, if_pos hq, hE1 q, if_pos hq,
      add_sub_cancel_right]
    exact explainedDelta_cancel _ _
  rw [updateUnexplainedVector_closed N W U explained E1 1 g hlen hN]
  simp only
  rw [updateUnexplainedVector_closed N W _ explained E2 (-1) _ hlen hN]
  simp only
  rw [hundo]
  refine ⟨rfl, ?_⟩
  cases g
  simp only [GHVTotals.mk.injEq, true_and]
  linarith

/-- Witness for C2: two scene points, neighbourhood point 0 with weight one half, explained
point 1. -/
theorem toggle_on_off_restores_witness :
    (updateUnexplainedVector [0] [1 / 2]
        (updateUnexplainedVector [0] [1 / 2] [1, 2] [1] [0, 1] 1 ⟨0, 0, 0, 0, 5⟩).unexplained_by_RM
        [1] [0, 0] (-1)
        (updateUnexplainedVector [0] [1 / 2] [1, 2] [1] [0, 1] 1 ⟨0, 0, 0, 0, 5⟩).totals
      ).unexplained_by_RM = [1, 2]
      ∧ (updateUnexplainedVector [0] [1 / 2]
          (updateUnexplainedVector [0] [1 / 2] [1, 2] [1] [0, 1] 1
            ⟨0, 0, 0, 0, 5⟩).unexplained_by_RM
          [1] [0, 0] (-1)
          (updateUnexplainedVector [0] [1 / 2] [1, 2] [1] [0, 1] 1 ⟨0, 0, 0, 0, 5⟩).totals
        ).totals = ⟨0, 0, 0, 0, 5⟩ :=
  toggle_on_off_restores [0] [1 / 2] [1] [1, 2] [0, 0] [0, 1] [0, 0] ⟨0, 0, 0, 0, 5⟩
    (by norm_num) (by decide) (by decide) (by norm_num) (by decide) (by decide)
    (by intro i; rcases i with _ | _ | i <;> simp)
    (by intro i; rcases i with _ | _ | i <;> simp)

theorem countInvariant_moves (hypotheses : List GHVRecognitionModel) (n : Nat)
    (hwf : WellFormedHypotheses hypotheses n) (moves : List Nat) (s : ExplainedState)
    (hinv : CountInvariant hypotheses n s) :
    CountInvariant hypotheses n (moves.foldl (applyMove hypotheses) s) := by
  induction moves generalizing s with
  | nil => exact hinv
  | cons h rest ih => exact ih _ (countInvariant_step hypotheses n hwf s hinv h)

/-- C3. Explained-by count invariant. Start from the state before optimisation (all hypotheses
inactive, all counters zero) and apply any sequence of moves, each one toggling a hypothesis
through `updateExplainedVector` with sign `+1` (activation) or `-1` (deactivation). When every
hypothesis's explained list is a set of valid scene indices with one score per index, then after
the sequence, hence after every move, the counter of every scene point `p` equals the number of
currently active hypotheses whose explained set contains `p`. -/
theorem explained_count_invariant (hypotheses : List GHVRecognitionModel) (n : Nat)
    (hwf : ∀ rm ∈ hypotheses, rm.explained_.Nodup
      ∧ rm.explained_.length ≤ rm.explained_distances_.length ∧ ∀ q ∈ rm.explained_, q < n)
    (moves : List Nat) (p : Nat) :
    (moves.foldl (applyMove hypotheses) (ExplainedState.init hypotheses n)).explained_by_RM_.getD
        p 0
      = ((activeExplainers hypotheses
          (moves.foldl (applyMove hypotheses) (ExplainedState.init hypotheses n)).active p).card
          : Int) :=
  (countInvariant_moves hypotheses n hwf moves _ (countInvariant_init hypotheses n)).2.2 p

/-- Witness for C3: two hypotheses over three scene points, sharing point 1; the first is
switched on, the second on, the first off again. -/
theorem explained_count_invariant_witness :
    ([0, 1, 0].foldl
        (applyMove [⟨[0, 1], [1 / 2, 1 / 3], [], [], 2, 3⟩, ⟨[1, 2], [1, 1], [], [], 1, 1 / 2⟩])
        (ExplainedState.init
          [⟨[0, 1], [1 / 2, 1 / 3], [], [], 2, 3⟩, ⟨[1, 2], [1, 1], [], [], 1, 1 / 2⟩]
          3)).explained_by_RM_.getD 1 0
      = ((activeExplainers
          [⟨[0, 1], [1 / 2, 1 / 3], [], [], 2, 3⟩, ⟨[1, 2], [1, 1], [], [], 1, 1 / 2⟩]
          ([0, 1, 0].foldl
            (applyMove
              [⟨[0, 1], [1 / 2, 1 / 3], [], [], 2, 3⟩, ⟨[1, 2], [1, 1], [], [], 1, 1 / 2⟩])
            (ExplainedState.init
              [⟨[0, 1], [1 / 2, 1 / 3], [], [], 2, 3⟩, ⟨[1, 2], [1, 1], [], [], 1, 1 / 2⟩]
              3)).active 1).card : Int) :=
  explained_count_invariant
    [⟨[0, 1], [1 / 2, 1 / 3], [], [], 2, 3⟩, ⟨[1, 2], [1, 1], [], [], 1, 1 / 2⟩] 3
    (by simp) [0, 1, 0] 1

/-- C4. From-scratch clutter penalty. For every accumulator vector `unexplained` and count
vector `explained` at least as long, `getUnexplainedInformationInNeighborhood` returns the sum
of `unexplained[i]` over the indices with `unexplained[i] > 0` and `explained[i] = 0`; a point
whose count is not zero contributes nothing (whatever its accumulator is changed to, the result
is the same), and the result is never negative. -/
theorem getUnexplainedInformationInNeighborhood_spec (unexplained : List ℚ)
    (explained : List Int) (_hlen : unexplained.length ≤ explained.length) :
    getUnexplainedInformationInNeighborhood unexplained explained
        = ∑ i in (Finset.range unexplained.length).filter
            (fun i => unexplained.getD i 0 > 0 ∧ explained.getD i 0 = 0),
          unexplained.getD i 0
      ∧ (∀ i u, i < unexplained.length → explained.getD i 0 ≠ 0 →
          getUnexplainedInformationInNeighborhood (unexplained.set i u) explained
            = getUnexplainedInformationInNeighborhood unexplained explained)
      ∧ 0 ≤ getUnexplainedInformationInNeighborhood unexplained explained := by
  refine ⟨?_, fun i u hi he => ?_, ?_⟩
  · rw [scratch_eq_sum, Finset.sum_filter]
    rfl
  · rw [scratch_set_U unexplained explained i u hi]
    unfold clutterVal
    rw [if_neg (fun h => he h.2), if_neg (fun h => he h.2)]
    ring
  · rw [scratch_eq_sum]
    refine Finset.sum_nonneg (fun i _ => ?_)
    unfold clutterVal
    split_ifs with h
    · exact le_of_lt h.1
    · exact le_refl 0

/-- Witness for C4: four scene points, the second one explained. -/
theorem getUnexplainedInformationInNeighborhood_spec_witness :
    getUnexplainedInformationInNeighborhood [1, 2, 0, 3] [0, 1, 0, 0]
        = ∑ i in (Finset.range ([1, 2, 0, 3] : List ℚ).length).filter
            (fun i => ([1, 2, 0, 3] : List ℚ).getD i 0 > 0 ∧ ([0, 1, 0, 0] : List Int).getD i 0 = 0),
          ([1, 2, 0, 3] : List ℚ).getD i 0
      ∧ (∀ i u, i < ([1, 2, 0, 3] : List ℚ).length → ([0, 1, 0, 0] : List Int).getD i 0 ≠ 0 →
          getUnexplainedInformationInNeighborhood (([1, 2, 0, 3] : List ℚ).set i u) [0, 1, 0, 0]
            = getUnexplainedInformationInNeighborhood [1, 2, 0, 3] [0, 1, 0, 0])
      ∧ 0 ≤ getUnexplainedInformationInNeighborhood [1, 2, 0, 3] [0, 1, 0, 0] :=
  getUnexplainedInformationInNeighborhood_spec [1, 2, 0, 3] [0, 1, 0, 0] (by decide)

/-- C5. Bad-information penalty. For every list of recognition models
`getTotalBadInformation` returns the sum over the list of each model's `bad_information_` times
its `outliers_weight_`, which is 0 for the empty list, and the list of models is the same after
the call. -/
theorem getTotalBadInformation_spec (recog_models : List GHVRecognitionModel) :
    (getTotalBadInformation recog_models).2
        = (recog_models.map (fun m => m.bad_information_ * m.outliers_weight_)).sum
      ∧ (getTotalBadInformation []).2 = 0
      ∧ (getTotalBadInformation recog_models).1 = recog_models := by
  refine ⟨?_, rfl, rfl⟩
  unfold getTotalBadInformation
  simp only
  rw [foldl_add_eq_sum, zero_add]
  congr 1
  exact List.map_congr_left (fun m _ => mul_comm _ _)

theorem resizeVec_length {α : Type} (v : List α) (n : Nat) (d : α) :
    (resizeVec v n d).length = n := by
  unfold resizeVec
  rw [List.length_append, List.length_take, List.length_replicate]
  omega

theorem foldl_set_range_length (f : Nat → Bool) (k : Nat) (m : List Bool) :
    ((List.range k).foldl (fun m j => m.set j (f j)) m).length = m.length := by
  induction k with
  | zero => rfl
  | succ k ih =>
    rw [List.range_succ, List.foldl_append]
    simp only [List.foldl_cons, List.foldl_nil, List.length_set]
    exact ih

theorem foldl_set_range_getD (f : Nat → Bool) (k : Nat) (m : List Bool) (j : Nat)
    (hj : j < k) (hm : j < m.length) :
    ((List.range k).foldl (fun m j => m.set j (f j)) m).getD j false = f j := by
  induction k with
  | zero => omega
  | succ k ih =>
    rw [List.range_succ, List.foldl_append]
    simp only [List.foldl_cons, List.foldl_nil]
    by_cases hjk : j = k
    · subst hjk
      exact getD_set_self _ _ _ _ (by rw [foldl_set_range_length]; exact hm)
    · rw [getD_set_other _ _ _ _ _ (Ne.symm hjk)]
      exact ih (by omega)

theorem foldl_set_range_eq_take (go_mask : List Bool) (n : Nat) (m : List Bool)
    (hm : m.length = n) (hgo : n ≤ go_mask.length) :
    (List.range n).foldl (fun m j => m.set j (go_mask.getD j false)) m = go_mask.take n := by
  refine List.ext_getElem ?_ (fun j h₁ h₂ => ?_)
  · rw [foldl_set_range_length, hm, List.length_take, min_eq_left hgo]
  · have hjn : j < n := by
      rw [foldl_set_range_length, hm] at h₁
      exact h₁
    have h := foldl_set_range_getD (fun j => go_mask.getD j false) n m j hjn (hm ▸ hjn)
    rw [List.getD_eq_getElem _ _ h₁] at h
    rw [h, List.getElem_take]
    exact List.getD_eq_getElem _ _ (lt_of_lt_of_le hjn hgo)

theorem foldl_push_if {α β : Type} (c : α → Bool) (f : α → β) (l : List α) (acc : List β) :
    l.foldl (fun acc x => if c x then acc ++ [f x] else acc) acc
      = acc ++ (l.filter c).map f := by
  induction l generalizing acc with
  | nil => simp
  | cons x rest ih =>
    rw [List.foldl_cons, ih]
    cases hc : c x <;> simp [List.filter_cons, hc]

theorem appendPlanarModels_aligned {Model Transform Cloud : Type}
    (mps_models : List (PlaneModel Cloud)) (s : SingleViewRecognizer Model Transform Cloud) :
    (appendPlanarModels mps_models s).aligned_models_ = s.aligned_models_ := by
  unfold appendPlanarModels
  split_ifs <;> rfl

theorem appendPlanarModels_ids_length {Model Transform Cloud : Type}
    (mps_models : List (PlaneModel Cloud)) (s : SingleViewRecognizer Model Transform Cloud) :
    s.model_ids_.length ≤ (appendPlanarModels mps_models s).model_ids_.length := by
  unfold appendPlanarModels
  split_ifs
  · simp
  · exact le_refl _

/-- C6. Mask alignment. When `hypothesesVerification` runs the verifier and the verifier's mask
holds a decision for each of the `aligned_models_.size()` object hypotheses followed by one for
each plane in `planes_found_`, the mask handed back has exactly one entry per object hypothesis
and entry `j` is the verifier's decision for hypothesis `j`: it is the first
`aligned_models_.size()` entries of the verifier's mask. The decisions for the planes are not
in it; they select `verified_planes_`, the clouds of the planes whose decision is true, in
order. -/
theorem hypothesesVerification_mask_aligned {Model Transform Cloud : Type}
    (mps_models : List (PlaneModel Cloud)) (go_mask : List Bool)
    (s : SingleViewRecognizer Model Transform Cloud) (mask_hv : List Bool)
    (hrun : (hypothesesVerification mps_models go_mask s mask_hv).verify_called = true)
    (hgo : s.aligned_models_.length
      + (hypothesesVerification mps_models go_mask s mask_hv).recognizer.planes_found_.length
        ≤ go_mask.length) :
    (hypothesesVerification mps_models go_mask s mask_hv).returned = true
      ∧ (hypothesesVerification mps_models go_mask s mask_hv).mask_hv.length
          = s.aligned_models_.length
      ∧ (∀ j, j < s.aligned_models_.length →
          (hypothesesVerification mps_models go_mask s mask_hv).mask_hv.getD j false
            = go_mask.getD j false)
      ∧ (hypothesesVerification mps_models go_mask s mask_hv).mask_hv
          = go_mask.take s.aligned_models_.length
      ∧ (hypothesesVerification mps_models go_mask s mask_hv).recognizer.verified_planes_
          = (((hypothesesVerification mps_models go_mask s mask_hv).recognizer.planes_found_.enum
              ).filter (fun jp => go_mask.getD (s.aligned_models_.length + jp.1) false)).map
              (fun jp => jp.2.plane_cloud_) := by
  have hn : s.aligned_models_.length ≤ go_mask.length := le_trans (Nat.le_add_right _ _) hgo
  by_cases hids : (appendPlanarModels mps_models s).model_ids_.length = 0
  · have hcalled : (hypothesesVerification mps_models go_mask s mask_hv).verify_called = false := by
      unfold hypothesesVerification
      simp only [hids, if_true]
    rw [hcalled] at hrun
    exact absurd hrun Bool.false_ne_true
  · have hmask : (hypothesesVerification mps_models go_mask s mask_hv).mask_hv
        = go_mask.take s.aligned_models_.length := by
      unfold hypothesesVerification
      simp only [hids, if_false, appendPlanarModels_aligned]
      exact foldl_set_range_eq_take go_mask _ _ (resizeVec_length _ _ _) hn
    refine ⟨?_, ?_, fun j hj => ?_, hmask, ?_⟩
    · unfold hypothesesVerification
      simp only [hids, if_false]
    · rw [hmask, List.length_take, min_eq_left hn]
    · rw [hmask, List.getD_eq_getElem?_getD, List.getD_eq_getElem?_getD,
        List.getElem?_take_of_lt hj]
    · unfold hypothesesVerification
      simp only [hids, if_false, appendPlanarModels_aligned]
      rw [foldl_push_if
        (fun (jp : Nat × PlaneModel Cloud) =>
          go_mask.getD (s.aligned_models_.length + jp.1) false)
        (fun (jp : Nat × PlaneModel Cloud) => jp.2.plane_cloud_)]
      rfl

theorem pick_cons_false {α : Type} (mask : List Bool) (l : List α) (j : Nat) (rest : List Nat)
    (hm : mask.getD j false = false) :
    (j :: rest).filterMap (fun j => if mask.getD j false then l[j]? else none)
      = rest.filterMap (fun j => if mask.getD j false then l[j]? else none) := by
  refine List.filterMap_cons_none ?_
  show (if mask.getD j false = true then l[j]? else none) = none
  rw [hm]
  rfl

theorem pick_cons_true {α : Type} (mask : List Bool) (l : List α) (j : Nat) (rest : List Nat)
    (a : α) (hm : mask.getD j false = true) (ha : l[j]? = some a) :
    (j :: rest).filterMap (fun j => if mask.getD j false then l[j]? else none)
      = a :: rest.filterMap (fun j => if mask.getD j false then l[j]? else none) := by
  refine List.filterMap_cons_some ?_
  show (if mask.getD j false = true then l[j]? else none) = some a
  rw [hm, if_pos rfl, ha]

theorem selectVerified_loop {Model Transform Cloud : Type} (mask : List Bool) (js : List Nat)
    (s s' : SingleViewRecognizer Model Transform Cloud)
    (h : js.foldlM (selectVerifiedStep mask) s = some s') :
    s'.models_ = s.models_ ∧ s'.model_ids_ = s.model_ids_ ∧ s'.transforms_ = s.transforms_
      ∧ s'.models_verified_ = s.models_verified_
          ++ js.filterMap (fun j => if mask.getD j false then s.models_[j]? else none)
      ∧ s'.model_ids_verified_ = s.model_ids_verified_
          ++ js.filterMap (fun j => if mask.getD j false then s.model_ids_[j]? else none)
      ∧ s'.transforms_verified_ = s.transforms_verified_
          ++ js.filterMap (fun j => if mask.getD j false then s.transforms_[j]? else none)
      ∧ ∀ j ∈ js, mask.getD j false = true →
          j < s.models_.length ∧ j < s.model_ids_.length ∧ j < s.transforms_.length := by
  induction js generalizing s with
  | nil =>
    simp only [List.foldlM_nil, pure, Option.some.injEq] at h
    subst h
    simp
  | cons j rest ih =>
    rw [List.foldlM_cons] at h
    cases hstep : selectVerifiedStep mask s j with
    | none =>
      rw [hstep] at h
      exact absurd h (by simp)
    | some s1 =>
      rw [hstep] at h
      have hrest := ih s1 h
      unfold selectVerifiedStep at hstep
      cases hm : mask.getD j false
      · rw [hm] at hstep
        simp only [Bool.false_eq_true, if_false, Option.some.injEq] at hstep
        subst hstep
        obtain ⟨h1, h2, h3, h4, h5, h6, h7⟩ := hrest
        refine ⟨h1, h2, h3, ?_, ?_, ?_, ?_⟩
        · rw [h4, pick_cons_false _ _ _ _ hm]
        · rw [h5, pick_cons_false _ _ _ _ hm]
        · rw [h6, pick_cons_false _ _ _ _ hm]
        · intro k hk hmk
          rcases List.mem_cons.mp hk with rfl | hk
          · rw [hm] at hmk
            exact absurd hmk Bool.false_ne_true
          · exact h7 k hk hmk
      · rw [hm] at hstep
        simp only [if_true] at hstep
        cases ha : s.models_[j]? with
        | none =>
          rw [ha] at hstep
          exact absurd hstep (by simp)
        | some m =>
          cases hb : s.model_ids_[j]? with
          | none =>
            rw [ha, hb] at hstep
            exact absurd hstep (by simp)
          | some id =>
            cases hc : s.transforms_[j]? with
            | none =>
              rw [ha, hb, hc] at hstep
              exact absurd hstep (by simp)
            | some t =>
              rw [ha, hb, hc] at hstep
              simp only [Option.some.injEq] at hstep
              subst hstep
              obtain ⟨h1, h2, h3, h4, h5, h6, h7⟩ := hrest
              simp only at h1 h2 h3 h4 h5 h6 h7
              refine ⟨h1, h2, h3, ?_, ?_, ?_, ?_⟩
              · rw [h4, pick_cons_true _ _ _ _ m hm ha, List.append_assoc]
                rfl
              · rw [h5, pick_cons_true _ _ _ _ id hm hb, List.append_assoc]
                rfl
              · rw [h6, pick_cons_true _ _ _ _ t hm hc, List.append_assoc]
                rfl
              · intro k hk hmk
                rcases List.mem_cons.mp hk with rfl | hk
                · exact ⟨(List.getElem?_eq_some_iff.mp ha).1, (List.getElem?_eq_some_iff.mp hb).1,
                    (List.getElem?_eq_some_iff.mp hc).1⟩
                · exact h7 k hk hmk

theorem filterMap_mask_length {α : Type} (mask : List Bool) (l : List α) (js : List Nat)
    (hin : ∀ j ∈ js, mask.getD j false = true → j < l.length) :
    (js.filterMap (fun j => if mask.getD j false then l[j]? else none)).length
      = (js.filter (fun j => mask.getD j false)).length := by
  induction js with
  | nil => rfl
  | cons j rest ih =>
    have hrest := ih (fun k hk => hin k (List.mem_cons_of_mem _ hk))
    cases hm : mask.getD j false
    · rw [pick_cons_false _ _ _ _ hm, List.filter_cons]
      simp only [hm, Bool.false_eq_true, if_false]
      exact hrest
    · have hj := hin j (List.mem_cons_self _ _) hm
      rw [pick_cons_true _ _ _ _ _ hm (List.getElem?_eq_getElem hj), List.filter_cons]
      simp only [hm, if_true, List.length_cons, hrest]

theorem hypothesesVerification_frame {Model Transform Cloud : Type}
    (mps_models : List (PlaneModel Cloud)) (go_mask : List Bool)
    (s : SingleViewRecognizer Model Transform Cloud) (mask_hv : List Bool) :
    (hypothesesVerification mps_models go_mask s mask_hv).recognizer.models_verified_
        = s.models_verified_
      ∧ (hypothesesVerification mps_models go_mask s mask_hv).recognizer.model_ids_verified_
        = s.model_ids_verified_
      ∧ (hypothesesVerification mps_models go_mask s mask_hv).recognizer.transforms_verified_
        = s.transforms_verified_ := by
  unfold hypothesesVerification appendPlanarModels
  simp only
  split_ifs <;> exact ⟨rfl, rfl, rfl⟩

/-- C7. Accepted set. After `recognize` has returned true, `models_verified_`,
`model_ids_verified_` and `transforms_verified_` have the same length and are exactly the
entries of `models_`, `model_ids_` and `transforms_` at the positions `j` where the
verification mask is true, in increasing order of `j`; every such position is a valid position
of the three vectors. The member function `setModelsAndTransforms`, whose code is not among the
sources, is taken not to write the three `*_verified_` vectors. -/
theorem recognize_accepted_set {Model Transform Cloud : Type} (have_a_finite_pt : Bool)
    (recognized_models : List Model) (recognized_transforms : List Transform)
    (id_ : Model → String)
    (setModelsAndTransforms : SingleViewRecognizer Model Transform Cloud →
      SingleViewRecognizer Model Transform Cloud)
    (mps_models : List (PlaneModel Cloud)) (go_mask : List Bool)
    (s : SingleViewRecognizer Model Transform Cloud) (r : RecognizeRun Model Transform Cloud)
    (hframe : ∀ x, (setModelsAndTransforms x).models_verified_ = x.models_verified_
      ∧ (setModelsAndTransforms x).model_ids_verified_ = x.model_ids_verified_
      ∧ (setModelsAndTransforms x).transforms_verified_ = x.transforms_verified_)
    (hrun : recognize have_a_finite_pt recognized_models recognized_transforms id_
      setModelsAndTransforms mps_models go_mask s = some r)
    (hret : r.returned = true) :
    r.recognizer.models_verified_ = selectByMask r.recognizer.models_ r.mask_hv
      ∧ r.recognizer.model_ids_verified_ = selectByMask r.recognizer.model_ids_ r.mask_hv
      ∧ r.recognizer.transforms_verified_ = selectByMask r.recognizer.transforms_ r.mask_hv
      ∧ r.recognizer.models_verified_.length = r.recognizer.model_ids_verified_.length
      ∧ r.recognizer.model_ids_verified_.length = r.recognizer.transforms_verified_.length
      ∧ (∀ j, j < r.mask_hv.length → r.mask_hv.getD j false = true →
          j < r.recognizer.models_.length ∧ j < r.recognizer.model_ids_.length
            ∧ j < r.recognizer.transforms_.length) := by
  unfold recognize at hrun
  cases hfin : have_a_finite_pt
  · rw [hfin] at hrun
    simp only [Bool.not_false, if_true, Option.some.injEq] at hrun
    rw [← hrun] at hret
    exact absurd hret Bool.false_ne_true
  · rw [hfin] at hrun
    simp only [Bool.not_true, Bool.false_eq_true, if_false] at hrun
    split at hrun
    · rename_i s3 hloop
      simp only [Option.some.injEq] at hrun
      subst hrun
      obtain ⟨h1, h2, h3, h4, h5, h6, h7⟩ := selectVerified_loop _ _ _ _ hloop
      obtain ⟨f1, f2, f3⟩ := hypothesesVerification_frame mps_models go_mask
        (setModelsAndTransforms
          { s with
            model_ids_verified_ := [], transforms_verified_ := [], models_verified_ := []
            aligned_models_ := [], model_ids_ := recognized_models.map id_
            transforms_ := recognized_transforms, models_ := recognized_models }) []
      obtain ⟨g1, g2, g3⟩ := hframe
          { s with
            model_ids_verified_ := [], transforms_verified_ := [], models_verified_ := []
            aligned_models_ := [], model_ids_ := recognized_models.map id_
            transforms_ := recognized_transforms, models_ := recognized_models }
      rw [f1, g1] at h4
      rw [f2, g2] at h5
      rw [f3, g3] at h6
      simp only [List.nil_append] at h4 h5 h6
      have hin : ∀ j ∈ List.range
          (hypothesesVerification mps_models go_mask
            (setModelsAndTransforms
              { s with
                model_ids_verified_ := [], transforms_verified_ := [], models_verified_ := []
                aligned_models_ := [], model_ids_ := recognized_models.map id_
                transforms_ := recognized_transforms, models_ := recognized_models })
            []).mask_hv.length, _ := h7
      refine ⟨?_, ?_, ?_, ?_, ?_, ?_⟩
      · simp only [selectByMask]
        rw [h4, h1]
      · simp only [selectByMask]
        rw [h5, h2]
      · simp only [selectByMask]
        rw [h6, h3]
      · simp only
        rw [h4, h5, filterMap_mask_length _ _ _ (fun j hj hm => (hin j hj hm).1),
          filterMap_mask_length _ _ _ (fun j hj hm => (hin j hj hm).2.1)]
      · simp only
        rw [h5, h6, filterMap_mask_length _ _ _ (fun j hj hm => (hin j hj hm).2.1),
          filterMap_mask_length _ _ _ (fun j hj hm => (hin j hj hm).2.2)]
      · intro j hj hm
        simp only at hj hm ⊢
        rw [h1, h2, h3]
        exact hin j (List.mem_range.mpr hj) hm
    · exact absurd hrun (by simp)

/-- Witness for C6: two object hypotheses and two planes; the verifier accepts the first object
and the second plane. -/
theorem hypothesesVerification_mask_aligned_witness :
    (hypothesesVerification samplePlanes [true, false, false, true] sampleRecognizer []).mask_hv
        = [true, false]
      ∧ (hypothesesVerification samplePlanes [true, false, false, true] sampleRecognizer
          []).recognizer.verified_planes_ = [41] := by
  have h := hypothesesVerification_mask_aligned samplePlanes [true, false, false, true]
    sampleRecognizer [] (by decide) (by decide)
  exact ⟨h.2.2.2.1, h.2.2.2.2⟩

/-- Witness for C7: the run of `recognize` on two recognised models with the verifier accepting
the first object and the second plane. -/
theorem recognize_accepted_set_witness :
    recognize true [10, 11] [20, 21] (fun _ => "m") (fun x => { x with aligned_models_ := [30, 31] })
        samplePlanes [true, false, false, true] sampleRecognizer
      = some { returned := true, mask_hv := [true, false]
               recognizer := { sampleRecognizer with
                 model_ids_ := ["m", "m", "plane_0", "plane_1"], planes_found_ := samplePlanes
                 verified_planes_ := [41], models_verified_ := [10]
                 model_ids_verified_ := ["m"], transforms_verified_ := [20] } }
      ∧ ([10] : List Nat) = selectByMask [10, 11] [true, false] := by
  have hrun : recognize true [10, 11] [20, 21] (fun _ => "m")
        (fun x => { x with aligned_models_ := [30, 31] })
        samplePlanes [true, false, false, true] sampleRecognizer
      = some { returned := true, mask_hv := [true, false]
               recognizer := { sampleRecognizer with
                 model_ids_ := ["m", "m", "plane_0", "plane_1"], planes_found_ := samplePlanes
                 verified_planes_ := [41], models_verified_ := [10]
                 model_ids_verified_ := ["m"], transforms_verified_ := [20] } } := by
    rfl
  exact ⟨hrun, (recognize_accepted_set true [10, 11] [20, 21] (fun _ => "m")
    (fun x => { x with aligned_models_ := [30, 31] }) samplePlanes [true, false, false, true]
    sampleRecognizer _ (fun _ => ⟨rfl, rfl, rfl⟩) hrun rfl).1⟩

/-- C8, stale mask. A recognizer with two aligned models and no id, planes disabled, called
with a mask that still holds two true entries: `model_ids_` is empty, the call returns true
without `verify ()`, and the mask handed back is the caller's `[true, true]`, neither empty nor
all false. -/
theorem hypothesesVerification_degenerate_stale_mask_counterexample :
    (appendPlanarModels [] unlabelledRecognizer).model_ids_ = []
      ∧ (hypothesesVerification [] [] unlabelledRecognizer [true, true]).returned = true
      ∧ (hypothesesVerification [] [] unlabelledRecognizer [true, true]).verify_called = false
      ∧ (hypothesesVerification [] [] unlabelledRecognizer [true, true]).mask_hv = [true, true]
      ∧ ¬ ((hypothesesVerification [] [] unlabelledRecognizer [true, true]).mask_hv = []
        ∨ ∀ b ∈ (hypothesesVerification [] [] unlabelledRecognizer [true, true]).mask_hv,
            b = false) := by
  decide

/-- C8, amended. Degenerate input. When `model_ids_` is empty after the optional plane
hypotheses were appended, `hypothesesVerification` returns true without calling `verify ()`,
and the mask it hands back is the caller's mask resized to `aligned_models_.size()`: the
entries kept are the caller's and the entries added are false. So it is empty when there is
no aligned model (in particular when the recognizer has an id for each aligned model), and all
false when the caller's mask has no true entry, as the fresh mask of `recognize`. -/
theorem hypothesesVerification_degenerate {Model Transform Cloud : Type}
    (mps_models : List (PlaneModel Cloud)) (go_mask : List Bool)
    (s : SingleViewRecognizer Model Transform Cloud) (mask_hv : List Bool)
    (hempty : (appendPlanarModels mps_models s).model_ids_ = []) :
    (hypothesesVerification mps_models go_mask s mask_hv).returned = true
      ∧ (hypothesesVerification mps_models go_mask s mask_hv).verify_called = false
      ∧ (hypothesesVerification mps_models go_mask s mask_hv).mask_hv
          = mask_hv.take s.aligned_models_.length
            ++ List.replicate (s.aligned_models_.length - mask_hv.length) false
      ∧ (hypothesesVerification mps_models go_mask s mask_hv).mask_hv.length
          = s.aligned_models_.length
      ∧ (s.aligned_models_ = [] →
          (hypothesesVerification mps_models go_mask s mask_hv).mask_hv = [])
      ∧ (s.aligned_models_.length ≤ s.model_ids_.length →
          (hypothesesVerification mps_models go_mask s mask_hv).mask_hv = [])
      ∧ ((∀ b ∈ mask_hv, b = false) →
          (hypothesesVerification mps_models go_mask s mask_hv).mask_hv
            = List.replicate s.aligned_models_.length false) := by
  have hids : (appendPlanarModels mps_models s).model_ids_.length = 0 := by rw [hempty]; rfl
  have hmask : (hypothesesVerification mps_models go_mask s mask_hv).mask_hv
      = resizeVec mask_hv s.aligned_models_.length false := by
    unfold hypothesesVerification
    simp only [hids, if_true]
  have hnil : s.aligned_models_ = [] →
      (hypothesesVerification mps_models go_mask s mask_hv).mask_hv = [] := by
    intro h
    rw [hmask, h]
    simp [resizeVec]
  refine ⟨?_, ?_, hmask, ?_, hnil, fun hle => ?_, fun hfalse => ?_⟩
  · unfold hypothesesVerification
    simp only [hids, if_true]
  · unfold hypothesesVerification
    simp only [hids, if_true]
  · rw [hmask, resizeVec_length]
  · have h0 : s.aligned_models_.length = 0 :=
      Nat.le_zero.mp (hids ▸ le_trans hle (appendPlanarModels_ids_length mps_models s))
    exact hnil (List.length_eq_zero.mp h0)
  · rw [hmask]
    refine List.eq_replicate_iff.mpr ⟨resizeVec_length _ _ _, fun b hb => ?_⟩
    unfold resizeVec at hb
    rcases List.mem_append.mp hb with h1 | h1
    · exact hfalse b (List.mem_of_mem_take h1)
    · exact (List.mem_replicate.mp h1).2

/-- Witness for C8: two aligned models, no id and no plane; the caller passes a mask of one
entry, which is kept, and one false entry is added. On the recognizer without any hypothesis
the mask handed back is empty. -/
theorem hypothesesVerification_degenerate_witness :
    (appendPlanarModels [] unlabelledRecognizer).model_ids_ = []
      ∧ (hypothesesVerification [] [] unlabelledRecognizer [true]).returned = true
      ∧ (hypothesesVerification [] [] unlabelledRecognizer [true]).verify_called = false
      ∧ (hypothesesVerification [] [] unlabelledRecognizer [true]).mask_hv = [true, false]
      ∧ (appendPlanarModels [] emptyRecognizer).model_ids_ = []
      ∧ (hypothesesVerification [] [] emptyRecognizer [true, false]).mask_hv = [] := by
  have h := hypothesesVerification_degenerate [] [] unlabelledRecognizer [true] (by decide)
  have h2 := hypothesesVerification_degenerate [] [] emptyRecognizer [true, false] (by decide)
  exact ⟨by decide, h.1, h.2.1, h.2.2.1, by decide, h2.2.2.2.2.1 rfl⟩

/-- C9. `addModels` called with `occlusion_reasoning = true` while no scene cloud has been set
throws the `std::runtime_error`, and registers no hypothesis: `visible_models_`,
`complete_models_` and `visible_indices_` are what they were before the call. -/
theorem addModels_missing_scene_cloud {Cloud Normals : Type} (ops : OcclusionOps Cloud Normals)
    (s : HypothesisVerification Cloud Normals) (models : List Cloud)
    (hnull : s.scene_cloud_ = none) :
    (∃ what, (addModels ops s models true).2 = AddModelsOutcome.runtime_error what)
      ∧ (addModels ops s models true).1.visible_models_ = s.visible_models_
      ∧ (addModels ops s models true).1.complete_models_ = s.complete_models_
      ∧ (addModels ops s models true).1.visible_indices_ = s.visible_indices_ := by
  unfold addModels
  cases hset : s.occlusion_cloud_set_ <;> simp [hset, hnull]

/-- Witness for C9: a verifier without scene cloud that already holds one visible and one
complete model. -/
theorem addModels_missing_scene_cloud_witness :
    (∃ what, (addModels sampleOps sceneLessVerifier [[7, 8]] true).2
        = AddModelsOutcome.runtime_error what)
      ∧ (addModels sampleOps sceneLessVerifier [[7, 8]] true).1.visible_models_ = [[5]]
      ∧ (addModels sampleOps sceneLessVerifier [[7, 8]] true).1.complete_models_ = [[6]]
      ∧ (addModels sampleOps sceneLessVerifier [[7, 8]] true).1.visible_indices_ = [[0]] :=
  addModels_missing_scene_cloud sampleOps sceneLessVerifier [[7, 8]] rfl

/-- Counterexample to C10: the verifier requires normals and has been given none, yet
`addModels` returns normally, with and without occlusion reasoning, and registers the
hypothesis without normals. -/
theorem addModels_requires_normals_counterexample :
    sampleVerifier.requires_normals_ = true ∧ sampleVerifier.normals_set_ = false
      ∧ (addModels sampleOps sampleVerifier [[7, 8]] true).2 = AddModelsOutcome.returned
      ∧ (addModels sampleOps sampleVerifier [[7, 8]] true).1.visible_models_ = [[7, 8]]
      ∧ (addModels sampleOps sampleVerifier [[7, 8]] true).1.visible_normal_models_ = []
      ∧ (addModels sampleOps sampleVerifier [[7, 8]] false).2 = AddModelsOutcome.returned
      ∧ (addModels sampleOps sampleVerifier [[7, 8]] false).1.visible_models_ = [[7, 8]] := by
  decide

theorem addModelsStep_no_normals {Cloud Normals : Type} (ops : OcclusionOps Cloud Normals)
    (occ : Cloud) (st : HypothesisVerification Cloud Normals × AddModelsOutcome)
    (im : Nat × Cloud) (hret : st.2 = AddModelsOutcome.returned)
    (hns : st.1.normals_set_ = false) :
    (addModelsStep ops occ st im).2 = AddModelsOutcome.returned
      ∧ (addModelsStep ops occ st im).1.normals_set_ = false
      ∧ (addModelsStep ops occ st im).1.visible_normal_models_ = st.1.visible_normal_models_
      ∧ (addModelsStep ops occ st im).1.visible_models_.length
          = st.1.visible_models_.length + 1 := by
  unfold addModelsStep
  rw [hret]
  simp only [hns, Bool.false_and, Bool.false_eq_true, if_false]
  split_ifs <;> simp [hns]

theorem addModelsLoop_no_normals {Cloud Normals : Type} (ops : OcclusionOps Cloud Normals)
    (occ : Cloud) (ims : List (Nat × Cloud))
    (st : HypothesisVerification Cloud Normals × AddModelsOutcome)
    (hret : st.2 = AddModelsOutcome.returned) (hns : st.1.normals_set_ = false) :
    (ims.foldl (addModelsStep ops occ) st).2 = AddModelsOutcome.returned
      ∧ (ims.foldl (addModelsStep ops occ) st).1.visible_normal_models_
          = st.1.visible_normal_models_
      ∧ (ims.foldl (addModelsStep ops occ) st).1.visible_models_.length
          = st.1.visible_models_.length + ims.length := by
  induction ims generalizing st with
  | nil => exact ⟨hret, rfl, rfl⟩
  | cons im rest ih =>
    obtain ⟨h1, h2, h3, h4⟩ := addModelsStep_no_normals ops occ st im hret hns
    obtain ⟨k1, k2, k3⟩ := ih _ h1 h2
    refine ⟨k1, k2.trans h3, ?_⟩
    rw [List.foldl_cons, k3, h4, List.length_cons]
    omega

theorem addModelsOcclusion_no_normals {Cloud Normals : Type} (ops : OcclusionOps Cloud Normals)
    (s : HypothesisVerification Cloud Normals) (models : List Cloud) (occ : Cloud)
    (hns : s.normals_set_ = false) :
    (addModelsOcclusion ops s models occ).2 = AddModelsOutcome.returned
      ∧ (addModelsOcclusion ops s models occ).1.visible_normal_models_
          = s.visible_normal_models_
      ∧ (addModelsOcclusion ops s models occ).1.visible_models_.length
          = s.visible_models_.length + models.length
      ∧ (addModelsOcclusion ops s models occ).1.complete_models_ = models := by
  obtain ⟨k1, k2, k3⟩ := addModelsLoop_no_normals ops occ models.enum
    ({ s with visible_indices_ := resizeVec s.visible_indices_ models.length [] },
      AddModelsOutcome.returned) rfl hns
  unfold addModelsOcclusion
  simp only [k1]
  refine ⟨trivial, k2, ?_, trivial⟩
  rw [k3, List.enum_length]

/-- C10, amended. When the verifier requires normals but no model normals have been supplied,
`addModels` raises no error on that account and adds no normals to `visible_normal_models_`.
Without occlusion reasoning it returns normally with `visible_models_` set to the given
models; with occlusion reasoning, a scene cloud and an occlusion cloud it returns normally with
one visible model appended per hypothesis and `complete_models_` set to the given models. The
`std::runtime_error` is only thrown for a missing scene cloud under occlusion reasoning. -/
theorem addModels_without_normals {Cloud Normals : Type} (ops : OcclusionOps Cloud Normals)
    (s : HypothesisVerification Cloud Normals) (models : List Cloud)
    (occlusion_reasoning : Bool) (_hreq : s.requires_normals_ = true)
    (hns : s.normals_set_ = false) :
    (addModels ops s models occlusion_reasoning).1.visible_normal_models_
        = s.visible_normal_models_
      ∧ (occlusion_reasoning = false →
          (addModels ops s models occlusion_reasoning).2 = AddModelsOutcome.returned
            ∧ (addModels ops s models occlusion_reasoning).1.visible_models_ = models)
      ∧ (occlusion_reasoning = true → s.scene_cloud_ ≠ none →
          (s.occlusion_cloud_set_ = true → s.occlusion_cloud_ ≠ none) →
          (addModels ops s models occlusion_reasoning).2 = AddModelsOutcome.returned
            ∧ (addModels ops s models occlusion_reasoning).1.visible_models_.length
                = s.visible_models_.length + models.length
            ∧ (addModels ops s models occlusion_reasoning).1.complete_models_ = models)
      ∧ (∀ what, (addModels ops s models occlusion_reasoning).2
            = AddModelsOutcome.runtime_error what →
          occlusion_reasoning = true ∧ s.scene_cloud_ = none) := by
  cases occlusion_reasoning
  · unfold addModels
    cases hset : s.occlusion_cloud_set_ <;> simp [hset]
  · cases hsc : s.scene_cloud_ with
    | none =>
      unfold addModels
      cases hset : s.occlusion_cloud_set_ <;> simp [hset, hsc]
    | some c =>
      cases hset : s.occlusion_cloud_set_ with
      | false =>
        obtain ⟨k1, k2, k3, k4⟩ := addModelsOcclusion_no_normals ops
          { s with mask_ := [], occlusion_cloud_ := s.scene_cloud_ } models c hns
        have heq : addModels ops s models true
            = addModelsOcclusion ops { s with mask_ := [], occlusion_cloud_ := s.scene_cloud_ }
                models c := by
          unfold addModels
          simp [hset, hsc]
        rw [heq]
        exact ⟨k2, fun h => absurd h (by simp), fun _ _ _ => ⟨k1, k3, k4⟩,
          fun what h => absurd (k1.symm.trans h) (by simp)⟩
      | true =>
        cases hoc : s.occlusion_cloud_ with
        | none =>
          unfold addModels
          simp [hset, hsc, hoc]
        | some occ =>
          obtain ⟨k1, k2, k3, k4⟩ := addModelsOcclusion_no_normals ops
            { s with mask_ := [] } models occ hns
          have heq : addModels ops s models true
              = addModelsOcclusion ops { s with mask_ := [] } models occ := by
            unfold addModels
            simp [hset, hsc, hoc]
          rw [heq]
          exact ⟨k2, fun h => absurd h (by simp), fun _ _ _ => ⟨k1, k3, k4⟩,
            fun what h => absurd (k1.symm.trans h) (by simp)⟩

/-- Witness for the amended C10: the verifier that requires normals and has none, called with
occlusion reasoning. -/
theorem addModels_without_normals_witness :
    (addModels sampleOps sampleVerifier [[7, 8]] true).1.visible_normal_models_ = []
      ∧ (addModels sampleOps sampleVerifier [[7, 8]] true).2 = AddModelsOutcome.returned
      ∧ (addModels sampleOps sampleVerifier [[7, 8]] true).1.visible_models_.length = 0 + 1
      ∧ (addModels sampleOps sampleVerifier [[7, 8]] true).1.complete_models_ = [[7, 8]] := by
  have h := addModels_without_normals sampleOps sampleVerifier [[7, 8]] true rfl rfl
  exact ⟨h.1, h.2.2.1 rfl (by decide) (by decide)⟩

theorem binaryValue_foldl (l : List Bool) (acc : Nat) :
    l.foldl (fun acc b => 2 * acc + (if b then 1 else 0)) acc
      = acc * 2 ^ l.length + binaryValue l := by
  induction l generalizing acc with
  | nil => simp [binaryValue]
  | cons b rest ih =>
    have h0 := ih (2 * 0 + (if b then 1 else 0))
    have h1 := ih (2 * acc + (if b then 1 else 0))
    simp only [binaryValue, List.foldl_cons, List.length_cons] at h0 h1 ⊢
    rw [h1, h0]
    ring

theorem binaryValue_cons (b : Bool) (l : List Bool) :
    binaryValue (b :: l) = (if b then 2 ^ l.length else 0) + binaryValue l := by
  have h := binaryValue_foldl l (2 * 0 + (if b then 1 else 0))
  simp only [binaryValue, List.foldl_cons] at h ⊢
  rw [h]
  cases b <;> simp [binaryValue]

theorem binaryValue_append (a l : List Bool) :
    binaryValue (a ++ l) = binaryValue a * 2 ^ l.length + binaryValue l := by
  unfold binaryValue
  rw [List.foldl_append, binaryValue_foldl]
  rfl

theorem binaryValue_lt (l : List Bool) : binaryValue l < 2 ^ l.length := by
  induction l with
  | nil => simp [binaryValue]
  | cons b rest ih =>
    rw [binaryValue_cons, List.length_cons, pow_succ]
    split_ifs <;> omega

theorem binaryValue_eq_zero (l : List Bool) (h : binaryValue l = 0) : ∀ b ∈ l, b = false := by
  induction l with
  | nil => simp
  | cons b rest ih =>
    rw [binaryValue_cons] at h
    have hpos : 0 < 2 ^ rest.length := Nat.two_pow_pos _
    intro x hx
    rcases List.mem_cons.mp hx with rfl | hx
    · cases x
      · rfl
      · simp only [if_true] at h
        omega
    · exact ih (by omega) x hx

theorem overflow_eq_all (l : List Bool) (acc : Bool) :
    l.foldl (fun overflow b => if !b then false else overflow) acc = (acc && l.all id) := by
  induction l generalizing acc with
  | nil => simp
  | cons b rest ih =>
    rw [List.foldl_cons, ih]
    cases b <;> cases acc <;> simp

theorem incrementLoop (pre : List Bool) :
    ∀ (sufv sufi : List Bool) (carry : Bool),
      ((List.range pre.length).reverse.foldl (incrementStep (pre ++ sufv))
          (pre ++ sufi, carry)).1.length = pre.length + sufi.length
      ∧ binaryValue ((List.range pre.length).reverse.foldl (incrementStep (pre ++ sufv))
            (pre ++ sufi, carry)).1
          + (if ((List.range pre.length).reverse.foldl (incrementStep (pre ++ sufv))
              (pre ++ sufi, carry)).2 then 2 ^ (pre.length + sufi.length) else 0)
        = binaryValue (pre ++ sufi) + (if carry then 2 ^ sufi.length else 0) := by
  induction pre using List.reverseRecOn with
  | nil =>
    intro sufv sufi carry
    simp
  | append_singleton p b ih =>
    intro sufv sufi carry
    have hrange : (List.range (p ++ [b]).length).reverse
        = p.length :: (List.range p.length).reverse := by
      rw [List.length_append, List.length_singleton, List.range_succ, List.reverse_append]
      rfl
    have hread : (p ++ [b] ++ sufv).getD p.length false = b := by
      rw [List.getD_eq_getElem?_getD, List.append_assoc,
        List.getElem?_append_right (le_refl _)]
      simp
    have hset : ∀ x, (p ++ [b] ++ sufi).set p.length x = p ++ x :: sufi := by
      intro x
      simp [List.set_append]
    have hv : p ++ [b] ++ sufv = p ++ (b :: sufv) := by simp
    rw [hrange, List.foldl_cons]
    have hstep : incrementStep (p ++ [b] ++ sufv) (p ++ [b] ++ sufi, carry) p.length
        = (p ++ (b != carry) :: sufi, b && carry) := by
      unfold incrementStep
      simp only [hread, hset]
    rw [hstep, hv]
    obtain ⟨h1, h2⟩ := ih (b :: sufv) ((b != carry) :: sufi) (b && carry)
    refine ⟨?_, ?_⟩
    · rw [h1]
      simp
      omega
    · have hlen : (p ++ [b]).length + sufi.length = p.length + ((b != carry) :: sufi).length := by
        simp
        omega
      have hnil : binaryValue [] = 0 := rfl
      rw [hlen, h2]
      simp only [binaryValue_append, binaryValue_cons, hnil, List.length_cons, List.length_nil]
      cases b <;> cases carry <;> simp [pow_succ] <;> ring
theorem incrementVector_concat (pre : List Bool) (last : Bool) :
    incrementVector (pre ++ [last])
      = ((pre ++ [last]).all id,
          ((List.range pre.length).reverse.foldl (incrementStep (pre ++ [last]))
            (pre ++ [!last], last)).1) := by
  have hlen : (pre ++ [last]).length - 1 = pre.length := by simp
  have hread : (pre ++ [last]).getD pre.length false = last := by
    rw [List.getD_eq_getElem?_getD, List.getElem?_append_right (le_refl _)]
    simp
  have hset : (pre ++ [last]).set pre.length (!last) = pre ++ [!last] := by
    simp [List.set_append]
  unfold incrementVector
  simp only [hlen, hread, hset, overflow_eq_all, Bool.true_and]

theorem incrementVector_value (pre : List Bool) (last : Bool) :
    (incrementVector (pre ++ [last])).2.length = (pre ++ [last]).length
      ∧ binaryValue (incrementVector (pre ++ [last])).2
          = (binaryValue (pre ++ [last]) + 1) % 2 ^ (pre ++ [last]).length := by
  obtain ⟨h1, h2⟩ := incrementLoop pre [last] [!last] last
  rw [incrementVector_concat]
  simp only
  have hlen : (pre ++ [last]).length = pre.length + 1 := by simp
  have hlt := binaryValue_lt
    ((List.range pre.length).reverse.foldl (incrementStep (pre ++ [last]))
      (pre ++ [!last], last)).1
  rw [h1] at hlt
  have hnil : binaryValue [] = 0 := rfl
  simp only [binaryValue_append, binaryValue_cons, hnil, List.length_cons, List.length_nil,
    Nat.zero_add, pow_one, pow_zero, Nat.add_zero] at h1 h2 hlt
  refine ⟨by rw [h1, hlen], ?_⟩
  rw [hlen, binaryValue_append, binaryValue_cons]
  simp only [hnil, List.length_cons, List.length_nil, Nat.zero_add, pow_one, pow_zero,
    Nat.add_zero]
  generalize binaryValue ((List.range pre.length).reverse.foldl (incrementStep (pre ++ [last]))
      (pre ++ [!last], last)).1 = X at h2 hlt ⊢
  generalize ((List.range pre.length).reverse.foldl (incrementStep (pre ++ [last]))
      (pre ++ [!last], last)).2 = c at h2
  cases c
  · have hsum : binaryValue pre * 2 + (if last = true then 1 else 0) + 1 = X := by
      cases last <;> simp at h2 ⊢ <;> omega
    rw [hsum, Nat.mod_eq_of_lt hlt]
  · have hsum : binaryValue pre * 2 + (if last = true then 1 else 0) + 1
        = X + 2 ^ (pre.length + 1) := by
      cases last <;> simp at h2 ⊢ <;> omega
    rw [hsum, Nat.add_mod_right, Nat.mod_eq_of_lt hlt]

/-- C15. `incrementVector` increments by one: for every non-empty boolean vector `v` of length
`n`, read as an unsigned binary number with the least significant bit at the end, `inc_v` has
length `n` and stands for `(value v + 1) mod 2^n`. -/
theorem incrementVector_increments (v : List Bool) (hne : v ≠ []) :
    (incrementVector v).2.length = v.length
      ∧ binaryValue (incrementVector v).2 = (binaryValue v + 1) % 2 ^ v.length := by
  have h := incrementVector_value v.dropLast (v.getLast hne)
  rw [List.dropLast_append_getLast hne] at h
  exact h

/-- Witness for C15: eleven becomes twelve on four bits. -/
theorem incrementVector_increments_witness :
    (incrementVector [true, false, true, true]).2.length = 4
      ∧ binaryValue (incrementVector [true, false, true, true]).2
          = (binaryValue [true, false, true, true] + 1) % 2 ^ 4 :=
  incrementVector_increments [true, false, true, true] (by decide)

/-- C16. `incrementVector` reports overflow exactly: for every non-empty boolean vector it
returns true if and only if every bit of `v` is true (otherwise false), and when it returns
true every bit of `inc_v` is false. -/
theorem incrementVector_overflow (v : List Bool) (hne : v ≠ []) :
    ((incrementVector v).1 = true ↔ ∀ b ∈ v, b = true)
      ∧ ((incrementVector v).1 = true → ∀ b ∈ (incrementVector v).2, b = false) := by
  have hov : (incrementVector v).1 = v.all id := by
    unfold incrementVector
    simp only [overflow_eq_all, Bool.true_and]
  have hiff : (incrementVector v).1 = true ↔ ∀ b ∈ v, b = true := by
    rw [hov, List.all_eq_true]
    exact ⟨fun h b hb => h b hb, fun h b hb => h b hb⟩
  refine ⟨hiff, fun htrue => ?_⟩
  have hall := hiff.mp htrue
  have hval : ∀ l : List Bool, (∀ b ∈ l, b = true) → binaryValue l + 1 = 2 ^ l.length := by
    intro l
    induction l with
    | nil => intro _; rfl
    | cons b rest ih =>
      intro hl
      have hb : b = true := hl b (List.mem_cons_self _ _)
      have hr := ih (fun x hx => hl x (List.mem_cons_of_mem _ hx))
      rw [binaryValue_cons, hb, List.length_cons, pow_succ]
      simp only [if_true]
      omega
  have h := incrementVector_value v.dropLast (v.getLast hne)
  rw [List.dropLast_append_getLast hne] at h
  refine binaryValue_eq_zero _ ?_
  rw [h.2, hval v hall, Nat.mod_self]

/-- Witness for C16: three true bits overflow to three false bits. -/
theorem incrementVector_overflow_witness :
    ((incrementVector [true, true, true]).1 = true ↔ ∀ b ∈ [true, true, true], b = true)
      ∧ ((incrementVector [true, true, true]).1 = true →
          ∀ b ∈ (incrementVector [true, true, true]).2, b = false) :=
  incrementVector_overflow [true, true, true] (by decide)

theorem filterVector_length {T : Type} (d : T) (kept0 : Nat) (input : List T)
    (indices : List Nat) :
    (filterVector d kept0 input indices).length = kept0 + indices.length := by
  have hsnd : ∀ (l : List Nat) (st : List T × Nat),
      (l.foldl (fun (st : List T × Nat) idx => (st.1.set st.2 (input.getD idx d), st.2 + 1))
        st).2 = st.2 + l.length := by
    intro l
    induction l with
    | nil => intro st; rfl
    | cons a rest ih =>
      intro st
      rw [List.foldl_cons, ih, List.length_cons]
      omega
  unfold filterVector
  rw [resizeVec_length, hsnd]

/-- C17 (defect). `filterVector` at `in = {10, 20, 30}`, `indices = {2, 0}`: when the
uninitialised `kept` holds 1 at the start of the loop, the result is `{0, 30, 10}` and not
`{30, 10}`; and even with `kept` starting at 0, for four indices into the three elements the
fourth element is not `in[1]`, the output buffer having only `in.size ()` slots. -/
theorem filterVector_kept_uninitialised :
    filterVector 0 1 [10, 20, 30] [2, 0] = [0, 30, 10]
      ∧ filterVector 0 1 [10, 20, 30] [2, 0] ≠ [30, 10]
      ∧ filterVector 0 0 [10, 20, 30] [2, 0, 1, 1] = [30, 10, 20, 0]
      ∧ filterVector 0 0 [10, 20, 30] [2, 0, 1, 1] ≠ [30, 10, 20, 20] := by
  decide

theorem resizeVec_of_le {α : Type} (v : List α) (n : Nat) (d : α) (h : n ≤ v.length) :
    resizeVec v n d = v.take n := by
  unfold resizeVec
  rw [Nat.sub_eq_zero_of_le h]
  simp

/-- C18. `ObjectRecognizerParameter::validate` keeps only the first recognizers for which all
three elements are set: afterwards `global_feature_types_`, `classification_methods_` and
`global_recognition_pipeline_config_` are the prefixes of their previous values of the common
length `m`, the minimum of the three previous lengths, and no other parameter has changed; when
the three lengths were already equal nothing changes, and `validate` is idempotent. -/
theorem validate_keeps_common_prefix (p : ObjectRecognizerParameter) :
    p.validate
        = { p with
            global_feature_types_ := p.global_feature_types_.take
              (min (min p.global_feature_types_.length p.classification_methods_.length)
                p.global_recognition_pipeline_config_.length)
            classification_methods_ := p.classification_methods_.take
              (min (min p.global_feature_types_.length p.classification_methods_.length)
                p.global_recognition_pipeline_config_.length)
            global_recognition_pipeline_config_ := p.global_recognition_pipeline_config_.take
              (min (min p.global_feature_types_.length p.classification_methods_.length)
                p.global_recognition_pipeline_config_.length) }
      ∧ p.validate.global_feature_types_.length
          = min (min p.global_feature_types_.length p.classification_methods_.length)
              p.global_recognition_pipeline_config_.length
      ∧ p.validate.classification_methods_.length
          = min (min p.global_feature_types_.length p.classification_methods_.length)
              p.global_recognition_pipeline_config_.length
      ∧ p.validate.global_recognition_pipeline_config_.length
          = min (min p.global_feature_types_.length p.classification_methods_.length)
              p.global_recognition_pipeline_config_.length
      ∧ (p.global_feature_types_.length = p.classification_methods_.length →
          p.global_recognition_pipeline_config_.length = p.classification_methods_.length →
          p.validate = p)
      ∧ p.validate.validate = p.validate := by
  have hform : p.validate
      = { p with
          global_feature_types_ := p.global_feature_types_.take
            (min (min p.global_feature_types_.length p.classification_methods_.length)
              p.global_recognition_pipeline_config_.length)
          classification_methods_ := p.classification_methods_.take
            (min (min p.global_feature_types_.length p.classification_methods_.length)
              p.global_recognition_pipeline_config_.length)
          global_recognition_pipeline_config_ := p.global_recognition_pipeline_config_.take
            (min (min p.global_feature_types_.length p.classification_methods_.length)
              p.global_recognition_pipeline_config_.length) } := by
    unfold ObjectRecognizerParameter.validate
    split_ifs with hc
    · simp only
      rw [resizeVec_of_le _ _ _ (by omega), resizeVec_of_le _ _ _ (by omega),
        resizeVec_of_le _ _ _ (by omega)]
    · have h1 : p.global_feature_types_.length = p.classification_methods_.length := by
        by_contra h
        exact hc (Or.inl h)
      have h2 : p.global_recognition_pipeline_config_.length
          = p.classification_methods_.length := by
        by_contra h
        exact hc (Or.inr h)
      rw [List.take_of_length_le (by omega), List.take_of_length_le (by omega),
        List.take_of_length_le (by omega)]
  have hsame : ∀ q : ObjectRecognizerParameter,
      q.global_feature_types_.length = q.classification_methods_.length →
      q.global_recognition_pipeline_config_.length = q.classification_methods_.length →
      q.validate = q := by
    intro q h1 h2
    unfold ObjectRecognizerParameter.validate
    rw [if_neg]
    exact fun h => h.elim (fun h => h h1) (fun h => h h2)
  have hl1 : p.validate.global_feature_types_.length
      = min (min p.global_feature_types_.length p.classification_methods_.length)
          p.global_recognition_pipeline_config_.length := by
    rw [hform]
    simp only [List.length_take]
    omega
  have hl2 : p.validate.classification_methods_.length
      = min (min p.global_feature_types_.length p.classification_methods_.length)
          p.global_recognition_pipeline_config_.length := by
    rw [hform]
    simp only [List.length_take]
    omega
  have hl3 : p.validate.global_recognition_pipeline_config_.length
      = min (min p.global_feature_types_.length p.classification_methods_.length)
          p.global_recognition_pipeline_config_.length := by
    rw [hform]
    simp only [List.length_take]
    omega
  exact ⟨hform, hl1, hl2, hl3, hsame p, hsame _ (hl1.trans hl2.symm) (hl3.trans hl2.symm)⟩

theorem lowestKey_spec {View : Type} (l : List (Nat × View)) (init : Nat) :
    (l.foldl (fun lowest view_it => if view_it.1 < lowest then view_it.1 else lowest) init
        = init
      ∨ l.foldl (fun lowest view_it => if view_it.1 < lowest then view_it.1 else lowest) init
        ∈ l.map Prod.fst)
      ∧ l.foldl (fun lowest view_it => if view_it.1 < lowest then view_it.1 else lowest) init
          ≤ init
      ∧ ∀ kv ∈ l,
          l.foldl (fun lowest view_it => if view_it.1 < lowest then view_it.1 else lowest) init
            ≤ kv.1 := by
  induction l generalizing init with
  | nil => simp
  | cons a rest ih =>
    rw [List.foldl_cons]
    obtain ⟨h1, h2, h3⟩ := ih (if a.1 < init then a.1 else init)
    refine ⟨?_, ?_, ?_⟩
    · rcases h1 with h1 | h1
      · rw [h1]
        split_ifs with hlt
        · exact Or.inr (by simp)
        · exact Or.inl rfl
      · exact Or.inr (by simp [h1])
    · refine le_trans h2 ?_
      split_ifs with hlt
      · exact le_of_lt hlt
      · exact le_refl _
    · intro kv hkv
      rcases List.mem_cons.mp hkv with rfl | hkv
      · refine le_trans h2 ?_
        split_ifs with hlt
        · exact le_refl _
        · exact not_lt.mp hlt
      · exact h3 kv hkv

theorem lowestKey_mem {View : Type} (l : List (Nat × View)) (hne : l ≠ [])
    (hmax : ∀ kv ∈ l, kv.1 ≤ size_t_max) :
    ∃ kv ∈ l, kv.1
        = l.foldl (fun lowest view_it => if view_it.1 < lowest then view_it.1 else lowest)
            size_t_max
      ∧ ∀ kv' ∈ l, kv.1 ≤ kv'.1 := by
  obtain ⟨h1, _, h3⟩ := lowestKey_spec l size_t_max
  rcases h1 with h1 | h1
  · obtain ⟨a, rest, rfl⟩ := List.exists_cons_of_ne_nil hne
    have ha := h3 a (List.mem_cons_self _ _)
    have ha2 := hmax a (List.mem_cons_self _ _)
    refine ⟨a, List.mem_cons_self _ _, ?_, ?_⟩
    · rw [h1] at ha ⊢
      exact le_antisymm ha2 ha
    · intro kv' hkv'
      have hk := h3 kv' hkv'
      rw [h1] at hk
      exact le_trans ha2 hk
  · obtain ⟨kv, hkv, hfst⟩ := List.mem_map.mp h1
    exact ⟨kv, hkv, hfst, fun kv' hkv' => hfst ▸ h3 kv' hkv'⟩

theorem not_mem_eraseP_key {View : Type} (l : List (Nat × View)) (k : Nat)
    (hnd : (l.map Prod.fst).Nodup) (kv : Nat × View) (hk : kv.1 = k) :
    kv ∉ l.eraseP (fun view_it => view_it.1 == k) := by
  induction l with
  | nil => simp
  | cons a rest ih =>
    rw [List.map_cons, List.nodup_cons] at hnd
    by_cases ha : a.1 = k
    · rw [List.eraseP_cons_of_pos (by simp [ha])]
      intro hmem
      exact hnd.1 (ha ▸ hk ▸ List.mem_map_of_mem Prod.fst hmem)
    · rw [List.eraseP_cons_of_neg (by simp [ha])]
      intro hmem
      rcases List.mem_cons.mp hmem with rfl | hmem
      · exact ha hk
      · exact ih hnd.2 hmem

/-- C19. Oldest view is dropped. For a map of views (distinct `size_t` keys): when the number
of stored views exceeds `max_vertices_in_graph_`, `pruneGraph` removes exactly one view, one
with the smallest view id, and keeps every other view, in order; when the number does not
exceed the maximum the recognizer is left as it is. Hence if at most
`max_vertices_in_graph_ + 1` views are stored before, at most `max_vertices_in_graph_` are
stored afterwards. -/
theorem pruneGraph_drops_oldest {View Graph Recognizer Points : Type}
    (removeVertex : Graph → Nat → Graph)
    (s : MultiviewRecognizer View Graph Recognizer Points)
    (hkeys : (s.views_.map Prod.fst).Nodup) (hmax : ∀ kv ∈ s.views_, kv.1 ≤ size_t_max) :
    (s.views_.length > s.max_vertices_in_graph_ →
        ∃ kv ∈ s.views_, (∀ kv' ∈ s.views_, kv.1 ≤ kv'.1)
          ∧ (MultiviewRecognizer.pruneGraph removeVertex s).views_.length + 1
              = s.views_.length
          ∧ kv ∉ (MultiviewRecognizer.pruneGraph removeVertex s).views_
          ∧ (∀ kv' ∈ s.views_, kv' ≠ kv →
              kv' ∈ (MultiviewRecognizer.pruneGraph removeVertex s).views_)
          ∧ (MultiviewRecognizer.pruneGraph removeVertex s).views_.Sublist s.views_)
      ∧ (s.views_.length ≤ s.max_vertices_in_graph_ →
          MultiviewRecognizer.pruneGraph removeVertex s = s)
      ∧ (s.views_.length ≤ s.max_vertices_in_graph_ + 1 →
          (MultiviewRecognizer.pruneGraph removeVertex s).views_.length
            ≤ s.max_vertices_in_graph_) := by
  have hkeep : s.views_.length ≤ s.max_vertices_in_graph_ →
      MultiviewRecognizer.pruneGraph removeVertex s = s := by
    intro hle
    unfold MultiviewRecognizer.pruneGraph
    rw [if_neg (not_lt.mpr hle)]
  have hviews : s.views_.length > s.max_vertices_in_graph_ →
      (MultiviewRecognizer.pruneGraph removeVertex s).views_
        = s.views_.eraseP (fun view_it => view_it.1 ==
            s.views_.foldl
              (fun lowest view_it => if view_it.1 < lowest then view_it.1 else lowest)
              size_t_max) := by
    intro hgt
    unfold MultiviewRecognizer.pruneGraph
    rw [if_pos hgt]
    simp only
    split_ifs <;> rfl
  have hdrop : s.views_.length > s.max_vertices_in_graph_ →
      ∃ kv ∈ s.views_, (∀ kv' ∈ s.views_, kv.1 ≤ kv'.1)
        ∧ (MultiviewRecognizer.pruneGraph removeVertex s).views_.length + 1
            = s.views_.length
        ∧ kv ∉ (MultiviewRecognizer.pruneGraph removeVertex s).views_
        ∧ (∀ kv' ∈ s.views_, kv' ≠ kv →
            kv' ∈ (MultiviewRecognizer.pruneGraph removeVertex s).views_)
        ∧ (MultiviewRecognizer.pruneGraph removeVertex s).views_.Sublist s.views_ := by
    intro hgt
    have hne : s.views_ ≠ [] := by
      intro h
      rw [h] at hgt
      exact Nat.not_lt_zero _ hgt
    obtain ⟨kv, hkv, hlow, hmin⟩ := lowestKey_mem s.views_ hne hmax
    have hp : (fun (view_it : Nat × View) => view_it.1 ==
        s.views_.foldl (fun lowest view_it => if view_it.1 < lowest then view_it.1 else lowest)
          size_t_max) kv = true := by
      simp [hlow]
    have huniq : ∀ kv' ∈ s.views_, kv'.1 = kv.1 → kv' = kv := by
      intro kv' hkv' hfst
      exact List.inj_on_of_nodup_map hkeys hkv' hkv hfst
    rw [hviews hgt]
    refine ⟨kv, hkv, hmin, ?_, ?_, ?_, List.eraseP_sublist _⟩
    · rw [List.length_eraseP_of_mem hkv hp]
      have : 0 < s.views_.length := List.length_pos.mpr hne
      omega
    · exact not_mem_eraseP_key s.views_ _ hkeys kv hlow
    · intro kv' hkv' hneq
      refine (List.mem_eraseP_of_neg ?_).mpr hkv'
      intro hq
      have : kv'.1 = kv.1 := by
        rw [hlow]
        simpa using hq
      exact hneq (huniq kv' hkv' this)
  refine ⟨hdrop, hkeep, fun hle => ?_⟩
  by_cases hgt : s.views_.length > s.max_vertices_in_graph_
  · obtain ⟨_, _, _, hlen, _⟩ := hdrop hgt
    omega
  · rw [hkeep (not_lt.mp hgt)]
    exact not_lt.mp hgt

/-- Witness for C19: four stored views with at most three allowed; view 4 is dropped. -/
theorem pruneGraph_drops_oldest_witness :
    (MultiviewRecognizer.pruneGraph (fun g v => g.erase v) sampleMultiview).views_
        = [(5, 50), (6, 60), (7, 70)]
      ∧ (MultiviewRecognizer.pruneGraph (fun g v => g.erase v) sampleMultiview).views_.length
          ≤ sampleMultiview.max_vertices_in_graph_ :=
  ⟨by decide,
    (pruneGraph_drops_oldest (fun g v => g.erase v) sampleMultiview (by decide)
      (by decide)).2.2 (by decide)⟩

/-- C20. `MultiviewRecognizer::recognize` throws a `std::runtime_error` whenever no single-view
recognizer is set, or the scene is missing or its width is not 640 or its height is not 480,
and in each of these cases the recognizer, in particular the stored views and the view counter
`id_`, is left unchanged. -/
theorem recognize_rejects_bad_input {View Graph Recognizer Points : Type}
    (removeVertex : Graph → Nat → Graph)
    (processView : MultiviewRecognizer View Graph Recognizer Points →
      MultiviewRecognizer View Graph Recognizer Points)
    (s : MultiviewRecognizer View Graph Recognizer Points)
    (hbad : s.rr_ = none ∨ s.scene_ = none
      ∨ ∃ scene, s.scene_ = some scene ∧ (scene.width ≠ 640 ∨ scene.height ≠ 480)) :
    (∃ what, (MultiviewRecognizer.recognize removeVertex processView s).2
        = RecognizeOutcome.runtime_error what)
      ∧ (MultiviewRecognizer.recognize removeVertex processView s).1.views_ = s.views_
      ∧ (MultiviewRecognizer.recognize removeVertex processView s).1.id_ = s.id_
      ∧ (MultiviewRecognizer.recognize removeVertex processView s).1 = s := by
  unfold MultiviewRecognizer.recognize
  cases hrr : s.rr_ with
  | none => exact ⟨⟨_, rfl⟩, rfl, rfl, rfl⟩
  | some r =>
    have hcheck : (match s.scene_ with
        | none => true
        | some scene => scene.width != 640 || scene.height != 480) = true := by
      rcases hbad with h | h | ⟨scene, h, hsize⟩
      · rw [hrr] at h
        exact absurd h (by simp)
      · rw [h]
      · rw [h]
        rcases hsize with hw | hh
        · simp [hw]
        · simp [hh]
    rw [if_pos hcheck]
    exact ⟨⟨_, rfl⟩, rfl, rfl, rfl⟩

/-- Witness for C20: a recognizer is set but the scene is 320 x 240. -/
theorem recognize_rejects_bad_input_witness :
    (∃ what, (MultiviewRecognizer.recognize (fun g v => g.erase v) (fun x => x)
        { sampleMultiview with scene_ := some ⟨320, 240, 0⟩ }).2
        = RecognizeOutcome.runtime_error what)
      ∧ (MultiviewRecognizer.recognize (fun g v => g.erase v) (fun x => x)
          { sampleMultiview with scene_ := some ⟨320, 240, 0⟩ }).1.views_
        = [(4, 40), (5, 50), (6, 60), (7, 70)]
      ∧ (MultiviewRecognizer.recognize (fun g v => g.erase v) (fun x => x)
          { sampleMultiview with scene_ := some ⟨320, 240, 0⟩ }).1.id_ = 8 := by
  have h := recognize_rejects_bad_input (fun g v => g.erase v) (fun x => x)
    { sampleMultiview with scene_ := some ⟨320, 240, 0⟩ }
    (Or.inr (Or.inr ⟨⟨320, 240, 0⟩, rfl, Or.inl (by decide)⟩))
  exact ⟨h.1, h.2.1, h.2.2.1⟩

/-! ## Smooth segmentation: invariants of the region growing -/

theorem getD_true_false_lt (p : List Bool) (e : Nat) (h : p.getD e true = false) :
    e < p.length := by
  by_contra hge
  rw [List.getD_eq_getElem?_getD, List.getElem?_eq_none (not_lt.mp hge)] at h
  exact Bool.false_ne_true h.symm

theorem count_false_set (p : List Bool) (e : Nat) (h : p.getD e true = false) :
    (p.set e true).count false + 1 = p.count false := by
  induction p generalizing e with
  | nil =>
    have := getD_true_false_lt [] e h
    exact absurd this (Nat.not_lt_zero _)
  | cons b rest ih =>
    cases e with
    | zero =>
      have hb : b = false := by simpa [List.getD_eq_getElem?_getD] using h
      subst hb
      simp
    | succ e =>
      have hrest : rest.getD e true = false := by
        simpa [List.getD_eq_getElem?_getD] using h
      have := ih e hrest
      rw [List.set_cons_succ, List.count_cons, List.count_cons]
      omega

theorem getD_append_left_nat (q : List Nat) (x k : Nat) (hk : k < q.length) :
    (q ++ [x]).getD k 0 = q.getD k 0 := by
  rw [List.getD_eq_getElem?_getD, List.getD_eq_getElem?_getD, List.getElem?_append_left hk]

theorem getD_append_last_nat (q : List Nat) (x : Nat) :
    (q ++ [x]).getD q.length 0 = x := by
  rw [List.getD_eq_getElem?_getD, List.getElem?_append_right (le_refl _)]
  simp

theorem growStep_inv (inp : SmoothSegmentationInput) (P0 p : List Bool) (q : List Nat)
    (idx s nj : Nat) (hinv : RegionInv inp P0 p q) (hidx : idx < q.length)
    (hs : q.getD idx 0 = s)
    (hcs : (inp.normals.getD s default).curvature ≤ inp.curvature_threshold)
    (hnj : nj ∈ (inp.radiusSearch s inp.tolerance).nn_indices.tail) :
    RegionInv inp P0 (growStep inp s (p, q) nj).1 (growStep inp s (p, q) nj).2
      ∧ idx < (growStep inp s (p, q) nj).2.length
      ∧ (growStep inp s (p, q) nj).2.getD idx 0 = s
      ∧ (∃ rest, (growStep inp s (p, q) nj).2 = q ++ rest)
      ∧ (growStep inp s (p, q) nj).1.length = p.length
      ∧ (growStep inp s (p, q) nj).1.count false + (growStep inp s (p, q) nj).2.length
          = p.count false + q.length := by
  unfold growStep
  simp only
  split_ifs with h1 h2 h3
  · exact ⟨hinv, hidx, hs, ⟨[], by simp⟩, rfl, rfl⟩
  · exact ⟨hinv, hidx, hs, ⟨[], by simp⟩, rfl, rfl⟩
  · obtain ⟨i1, i2, i3, i4, i5⟩ := hinv
    have hfalse : p.getD nj true = false := by
      cases hb : p.getD nj true
      · rfl
      · exact absurd hb h1
    have hlt : nj < p.length := getD_true_false_lt p nj hfalse
    have hnotin : nj ∉ q := fun hmem => by
      have := i2 nj hmem
      rw [hfalse] at this
      exact Bool.false_ne_true this
    have hP0 : P0.getD nj true = false := by
      cases hb : P0.getD nj true
      · rfl
      · have := i4 nj hb
        rw [hfalse] at this
        exact absurd this Bool.false_ne_true
    dsimp only
    refine ⟨⟨?_, ?_, ?_, ?_, ?_⟩, ?_, ?_, ⟨[nj], rfl⟩, List.length_set _ _ _, ?_⟩
    · exact List.nodup_append.mpr ⟨i1, List.nodup_singleton _,
        fun x hx hx' => hnotin ((List.mem_singleton.mp hx') ▸ hx)⟩
    · intro e he
      rcases List.mem_append.mp he with he | he
      · by_cases hen : nj = e
        · subst hen
          exact getD_set_self p nj true true hlt
        · rw [getD_set_other p nj e true true hen]
          exact i2 e he
      · rw [List.mem_singleton.mp he]
        exact getD_set_self p nj true true hlt
    · intro e he
      rcases List.mem_append.mp he with he | he
      · exact i3 e he
      · rw [List.mem_singleton.mp he]
        exact hP0
    · intro e he
      by_cases hen : nj = e
      · subst hen
        exact getD_set_self p nj true true hlt
      · rw [getD_set_other p nj e true true hen]
        exact i4 e he
    · intro k hk0 hk
      rw [List.length_append, List.length_singleton] at hk
      by_cases hkq : k < q.length
      · obtain ⟨m, hm, hj⟩ := i5 k hk0 hkq
        refine ⟨m, hm, ?_⟩
        rw [getD_append_left_nat q nj m (lt_trans hm hkq), getD_append_left_nat q nj k hkq]
        exact hj
      · have hkeq : k = q.length := by omega
        subst hkeq
        refine ⟨idx, hidx, ?_⟩
        rw [getD_append_left_nat q nj idx hidx, getD_append_last_nat, hs]
        exact ⟨hnj, h3, hcs, not_lt.mp h2⟩
    · rw [List.length_append, List.length_singleton]
      omega
    · rw [getD_append_left_nat q nj idx hidx]
      exact hs
    · have := count_false_set p nj hfalse
      rw [List.length_append, List.length_singleton]
      omega
  · exact ⟨hinv, hidx, hs, ⟨[], by simp⟩, rfl, rfl⟩

theorem growFold_inv (inp : SmoothSegmentationInput) (P0 : List Bool) (idx s : Nat)
    (hcs : (inp.normals.getD s default).curvature ≤ inp.curvature_threshold)
    (l : List Nat) (hl : ∀ nj ∈ l, nj ∈ (inp.radiusSearch s inp.tolerance).nn_indices.tail)
    (p : List Bool) (q : List Nat) (hinv : RegionInv inp P0 p q) (hidx : idx < q.length)
    (hs : q.getD idx 0 = s) :
    RegionInv inp P0 (l.foldl (growStep inp s) (p, q)).1 (l.foldl (growStep inp s) (p, q)).2
      ∧ idx < (l.foldl (growStep inp s) (p, q)).2.length
      ∧ (∃ rest, (l.foldl (growStep inp s) (p, q)).2 = q ++ rest)
      ∧ (l.foldl (growStep inp s) (p, q)).1.length = p.length
      ∧ (l.foldl (growStep inp s) (p, q)).1.count false
          + (l.foldl (growStep inp s) (p, q)).2.length
          = p.count false + q.length := by
  induction l generalizing p q with
  | nil => exact ⟨hinv, hidx, ⟨[], by simp⟩, rfl, rfl⟩
  | cons nj rest ih =>
    obtain ⟨g1, g2, g3, ⟨r1, g4⟩, gl, g5⟩ := growStep_inv inp P0 p q idx s nj hinv hidx hs hcs
      (hl nj (List.mem_cons_self _ _))
    obtain ⟨k1, k2, ⟨r2, k3⟩, kl, k4⟩ := ih (fun x hx => hl x (List.mem_cons_of_mem _ hx))
      (growStep inp s (p, q) nj).1 (growStep inp s (p, q) nj).2 g1 g2 g3
    rw [List.foldl_cons]
    refine ⟨k1, k2, ⟨r1 ++ r2, ?_⟩, ?_, ?_⟩
    · rw [k3, g4, List.append_assoc]
    · rw [kl, gl]
    · rw [k4, g5]

theorem growRegion_inv (inp : SmoothSegmentationInput) (P0 : List Bool) (fuel : Nat) :
    ∀ (p : List Bool) (q : List Nat) (idx : Nat), RegionInv inp P0 p q →
      RegionInv inp P0 (growRegion inp fuel p q idx).1 (growRegion inp fuel p q idx).2.1
        ∧ (∃ rest, (growRegion inp fuel p q idx).2.1 = q ++ rest)
        ∧ (growRegion inp fuel p q idx).1.length = p.length
        ∧ (p.count false + q.length ≤ fuel + idx →
            (growRegion inp fuel p q idx).2.1.length ≤ (growRegion inp fuel p q idx).2.2) := by
  induction fuel with
  | zero =>
    intro p q idx hinv
    refine ⟨hinv, ⟨[], by simp [growRegion]⟩, rfl, fun h => ?_⟩
    show q.length ≤ idx
    omega
  | succ fuel ih =>
    intro p q idx hinv
    unfold growRegion
    split_ifs with h1 h2 h3
    · obtain ⟨a, b, c, d⟩ := ih p q (idx + 1) hinv
      exact ⟨a, b, c, fun h => d (by omega)⟩
    · obtain ⟨a, b, c, d⟩ := ih p q (idx + 1) hinv
      exact ⟨a, b, c, fun h => d (by omega)⟩
    · obtain ⟨g1, g2, ⟨r1, g3⟩, gl, g5⟩ := growFold_inv inp P0 idx (q.getD idx 0) (not_lt.mp h2)
        (inp.radiusSearch (q.getD idx 0) inp.tolerance).nn_indices.tail (fun _ h => h)
        p q hinv h1 rfl
      obtain ⟨a, ⟨r2, b⟩, c, d⟩ := ih _ _ (idx + 1) g1
      dsimp only
      refine ⟨a, ⟨r1 ++ r2, ?_⟩, ?_, fun h => d (by omega)⟩
      · rw [b, g3, List.append_assoc]
      · rw [c, gl]
    · refine ⟨hinv, ⟨[], by simp⟩, rfl, fun _ => ?_⟩
      show q.length ≤ idx
      omega

theorem region_sort_unique (q : List Nat) (hq : q.Nodup) :
    (q.insertionSort (· ≤ ·)).destutter (· ≠ ·) = q.insertionSort (· ≤ ·)
      ∧ (q.insertionSort (· ≤ ·)).Sorted (· < ·)
      ∧ (q.insertionSort (· ≤ ·)).Perm q := by
  have hperm : (q.insertionSort (· ≤ ·)).Perm q := List.perm_insertionSort _ q
  have hsorted : (q.insertionSort (· ≤ ·)).Sorted (· < ·) :=
    (List.sorted_insertionSort (· ≤ ·) q).lt_of_le (hperm.nodup_iff.mpr hq)
  refine ⟨?_, hsorted, hperm⟩
  apply List.destutter_of_chain'
  exact (List.Pairwise.chain' hsorted).imp (fun _ _ h => ne_of_lt h)

theorem mem_getD_nat (q : List Nat) (e : Nat) (h : e ∈ q) :
    ∃ k, k < q.length ∧ q.getD k 0 = e := by
  obtain ⟨k, hk, hke⟩ := List.mem_iff_getElem.mp h
  refine ⟨k, hk, ?_⟩
  rw [List.getD_eq_getElem?_getD, List.getElem?_eq_getElem hk]
  exact hke

theorem getD_mem_nat (q : List Nat) (k : Nat) (h : k < q.length) : q.getD k 0 ∈ q := by
  rw [List.getD_eq_getElem?_getD, List.getElem?_eq_getElem h]
  exact List.getElem_mem h

theorem region_of_inv (inp : SmoothSegmentationInput) (P0 p : List Bool) (q : List Nat)
    (hinv : RegionInv inp P0 p q) (hne : 0 < q.length)
    (hmin : inp.min_pts_per_cluster ≤ q.length) (hmax : q.length ≤ inp.max_pts_per_cluster) :
    RegionProp inp ((q.insertionSort (· ≤ ·)).destutter (· ≠ ·))
      ∧ ∀ e, e ∈ (q.insertionSort (· ≤ ·)).destutter (· ≠ ·) ↔ e ∈ q := by
  obtain ⟨i1, i2, i3, i4, i5⟩ := hinv
  obtain ⟨hd, hsorted, hperm⟩ := region_sort_unique q i1
  rw [hd]
  have hmem : ∀ e, e ∈ q.insertionSort (· ≤ ·) ↔ e ∈ q := fun e => hperm.mem_iff
  have hlen : (q.insertionSort (· ≤ ·)).length = q.length := hperm.length_eq
  refine ⟨⟨hsorted, by rw [hlen]; exact hmin, by rw [hlen]; exact hmax, ?_, ?_⟩, hmem⟩
  · refine ⟨q.getD 0 0, (hmem _).mpr (getD_mem_nat q 0 hne), ?_⟩
    intro j hj hjs
    obtain ⟨k, hk, hkj⟩ := mem_getD_nat q j ((hmem j).mp hj)
    have hk0 : 0 < k := by
      rcases Nat.eq_zero_or_pos k with h0 | h0
      · rw [h0] at hkj
        exact absurd hkj.symm hjs
      · exact h0
    obtain ⟨m, hm, hjoin⟩ := i5 k hk0 hk
    refine ⟨q.getD m 0, (hmem _).mpr (getD_mem_nat q m (lt_trans hm hk)), ?_⟩
    rw [← hkj]
    exact hjoin
  · intro h2 j hj
    rw [hlen] at h2
    obtain ⟨k, hk, hkj⟩ := mem_getD_nat q j ((hmem j).mp hj)
    rcases Nat.eq_zero_or_pos k with h0 | h0
    · obtain ⟨m, hm, hjoin⟩ := i5 1 Nat.one_pos (by omega)
      have hm0 : m = 0 := by omega
      rw [hm0] at hjoin
      rw [← hkj, h0]
      exact hjoin.2.2.1
    · obtain ⟨m, hm, hjoin⟩ := i5 k h0 hk
      rw [← hkj]
      exact hjoin.2.2.2

theorem regionInv_init (inp : SmoothSegmentationInput) (P0 : List Bool) (i : Nat)
    (h : P0.getD i true = false) : RegionInv inp P0 (P0.set i true) [i] := by
  have hlt : i < P0.length := getD_true_false_lt P0 i h
  refine ⟨List.nodup_singleton i, ?_, ?_, ?_, ?_⟩
  · intro e he
    rw [List.mem_singleton.mp he]
    exact getD_set_self P0 i true true hlt
  · intro e he
    rw [List.mem_singleton.mp he]
    exact h
  · intro e he
    by_cases hie : i = e
    · subst hie
      exact getD_set_self P0 i true true hlt
    · rw [getD_set_other P0 i e true true hie]
      exact he
  · intro k hk0 hk
    simp only [List.length_singleton] at hk
    omega

theorem clusterStep_inv (inp : SmoothSegmentationInput) (clusters : List (List Nat))
    (st : List Bool × List (List Nat)) (i : Nat)
    (hlen : st.1.length = inp.cloud_size)
    (happ : ∃ appended, st.2 = clusters ++ appended
      ∧ (∀ R ∈ appended, RegionProp inp R ∧ ∀ e ∈ R, st.1.getD e true = true)
      ∧ appended.Pairwise List.Disjoint) :
    (clusterStep inp st i).1.length = inp.cloud_size
      ∧ ∃ appended, (clusterStep inp st i).2 = clusters ++ appended
        ∧ (∀ R ∈ appended, RegionProp inp R ∧ ∀ e ∈ R, (clusterStep inp st i).1.getD e true = true)
        ∧ appended.Pairwise List.Disjoint := by
  obtain ⟨appended, h1, h2, h3⟩ := happ
  unfold clusterStep
  split_ifs with hp
  · exact ⟨hlen, appended, h1, h2, h3⟩
  dsimp only
  split_ifs with hsize
  · have hfalse : st.1.getD i true = false := by
      cases hb : st.1.getD i true
      · rfl
      · exact absurd hb hp
    obtain ⟨ginv, ⟨rest, gq⟩, gl, _⟩ := growRegion_inv inp st.1 inp.cloud_size
      (st.1.set i true) [i] 0 (regionInv_init inp st.1 i hfalse)
    have hpos : 0 < (growRegion inp inp.cloud_size (st.1.set i true) [i] 0).2.1.length := by
      rw [gq]
      simp
    obtain ⟨hprop, hmem⟩ := region_of_inv inp st.1 _ _ ginv hpos hsize.1 hsize.2
    obtain ⟨i1, i2, i3, i4, i5⟩ := ginv
    dsimp only
    refine ⟨by rw [gl, List.length_set]; exact hlen,
      appended ++ [((growRegion inp inp.cloud_size (st.1.set i true) [i] 0).2.1.insertionSort
        (· ≤ ·)).destutter (· ≠ ·)], ?_, ?_, ?_⟩
    · rw [h1, List.append_assoc]
    · intro R hR
      rcases List.mem_append.mp hR with hR | hR
      · exact ⟨(h2 R hR).1, fun e he => i4 e ((h2 R hR).2 e he)⟩
      · rw [List.mem_singleton.mp hR]
        exact ⟨hprop, fun e he => i2 e ((hmem e).mp he)⟩
    · rw [List.pairwise_append]
      refine ⟨h3, List.pairwise_singleton _ _, ?_⟩
      intro R hR R2 hR2
      rw [List.mem_singleton.mp hR2]
      intro e he he2
      have ht := (h2 R hR).2 e he
      have hf := i3 e ((hmem e).mp he2)
      rw [ht] at hf
      exact Bool.noConfusion hf
  · have hfalse : st.1.getD i true = false := by
      cases hb : st.1.getD i true
      · rfl
      · exact absurd hb hp
    obtain ⟨ginv, _, gl, _⟩ := growRegion_inv inp st.1 inp.cloud_size
      (st.1.set i true) [i] 0 (regionInv_init inp st.1 i hfalse)
    obtain ⟨i1, i2, i3, i4, i5⟩ := ginv
    dsimp only
    refine ⟨by rw [gl, List.length_set]; exact hlen, appended, h1, ?_, h3⟩
    intro R hR
    exact ⟨(h2 R hR).1, fun e he => i4 e ((h2 R hR).2 e he)⟩

theorem clusterFold_inv (inp : SmoothSegmentationInput) (clusters : List (List Nat))
    (l : List Nat) (st : List Bool × List (List Nat))
    (hlen : st.1.length = inp.cloud_size)
    (happ : ∃ appended, st.2 = clusters ++ appended
      ∧ (∀ R ∈ appended, RegionProp inp R ∧ ∀ e ∈ R, st.1.getD e true = true)
      ∧ appended.Pairwise List.Disjoint) :
    (l.foldl (clusterStep inp) st).1.length = inp.cloud_size
      ∧ ∃ appended, (l.foldl (clusterStep inp) st).2 = clusters ++ appended
        ∧ (∀ R ∈ appended, RegionProp inp R
            ∧ ∀ e ∈ R, (l.foldl (clusterStep inp) st).1.getD e true = true)
        ∧ appended.Pairwise List.Disjoint := by
  induction l generalizing st with
  | nil => exact ⟨hlen, happ⟩
  | cons i rest ih =>
    obtain ⟨a, b⟩ := clusterStep_inv inp clusters st i hlen happ
    rw [List.foldl_cons]
    exact ih _ a b

theorem extract_spec (inp : SmoothSegmentationInput) (clusters : List (List Nat)) :
    ∃ appended, (extractEuclideanClustersSmooth inp clusters).clusters = clusters ++ appended
      ∧ (∀ R ∈ appended, RegionProp inp R) ∧ appended.Pairwise List.Disjoint := by
  unfold extractEuclideanClustersSmooth
  split_ifs with h1 h2
  · exact ⟨[], by simp, fun _ h => absurd h (List.not_mem_nil _), List.Pairwise.nil⟩
  · exact ⟨[], by simp, fun _ h => absurd h (List.not_mem_nil _), List.Pairwise.nil⟩
  · obtain ⟨_, appended, a, b, c⟩ := clusterFold_inv inp clusters (List.range inp.cloud_size)
      (List.replicate inp.cloud_size false, clusters) (List.length_replicate _ _)
      ⟨[], by simp, fun _ h => absurd h (List.not_mem_nil _), List.Pairwise.nil⟩
    exact ⟨appended, a, fun R hR => (b R hR).1, c⟩

theorem extract_appended (inp : SmoothSegmentationInput) (clusters : List (List Nat)) :
    (extractEuclideanClustersSmooth inp clusters).clusters.take clusters.length = clusters
      ∧ (∀ R ∈ (extractEuclideanClustersSmooth inp clusters).clusters.drop clusters.length,
          RegionProp inp R)
      ∧ ((extractEuclideanClustersSmooth inp clusters).clusters.drop clusters.length).Pairwise
          List.Disjoint := by
  obtain ⟨appended, a, b, c⟩ := extract_spec inp clusters
  rw [a, List.take_left, List.drop_left]
  exact ⟨rfl, b, c⟩

theorem growRegion_exits (inp : SmoothSegmentationInput) (P : List Bool) (i : Nat)
    (hlen : P.length = inp.cloud_size) (h : P.getD i true = false) :
    (growRegion inp inp.cloud_size (P.set i true) [i] 0).2.1.length
      ≤ (growRegion inp inp.cloud_size (P.set i true) [i] 0).2.2 := by
  obtain ⟨_, _, _, hexit⟩ := growRegion_inv inp P inp.cloud_size (P.set i true) [i] 0
    (regionInv_init inp P i h)
  apply hexit
  have h1 := count_false_set P i h
  have h2 : P.count false ≤ P.length := List.count_le_length _ _
  rw [List.length_singleton]
  omega

theorem extract_growRegion_exits (inp : SmoothSegmentationInput) (clusters : List (List Nat))
    (i : Nat)
    (h : ((List.range i).foldl (clusterStep inp)
      (List.replicate inp.cloud_size false, clusters)).1.getD i true = false) :
    (growRegion inp inp.cloud_size
        (((List.range i).foldl (clusterStep inp)
          (List.replicate inp.cloud_size false, clusters)).1.set i true) [i] 0).2.1.length
      ≤ (growRegion inp inp.cloud_size
        (((List.range i).foldl (clusterStep inp)
          (List.replicate inp.cloud_size false, clusters)).1.set i true) [i] 0).2.2 := by
  obtain ⟨hlen, _⟩ := clusterFold_inv inp clusters (List.range i)
    (List.replicate inp.cloud_size false, clusters) (List.length_replicate _ _)
    ⟨[], by simp, fun _ h => absurd h (List.not_mem_nil _), List.Pairwise.nil⟩
  exact growRegion_exits inp _ i hlen h

/-- C11. Every region that `extractEuclideanClustersSmooth` appends to `clusters` (the entries
after the ones the caller passed in, which are kept) has no repeated index and holds at least
`min_pts_per_cluster` and at most `max_pts_per_cluster` distinct indices; a seed whose grown
queue is shorter than `min_pts_per_cluster` appends nothing. -/
theorem smooth_regions_size_bounds (inp : SmoothSegmentationInput)
    (clusters : List (List Nat)) :
    (extractEuclideanClustersSmooth inp clusters).clusters.take clusters.length = clusters
      ∧ (∀ R ∈ (extractEuclideanClustersSmooth inp clusters).clusters.drop clusters.length,
          R.Nodup ∧ inp.min_pts_per_cluster ≤ R.toFinset.card
            ∧ R.toFinset.card ≤ inp.max_pts_per_cluster)
      ∧ ∀ (st : List Bool × List (List Nat)) (i : Nat),
          (growRegion inp inp.cloud_size (st.1.set i true) [i] 0).2.1.length
              < inp.min_pts_per_cluster →
            (clusterStep inp st i).2 = st.2 := by
  obtain ⟨a, b, _⟩ := extract_appended inp clusters
  refine ⟨a, ?_, ?_⟩
  · intro R hR
    obtain ⟨hs, hmin, hmax, _⟩ := b R hR
    have hnd : R.Nodup := hs.nodup
    rw [List.toFinset_card_of_nodup hnd]
    exact ⟨hnd, hmin, hmax⟩
  · intro st i hlt
    unfold clusterStep
    split_ifs with hp
    · rfl
    dsimp only
    rw [if_neg (fun hsize => absurd hsize.1 (not_le.mpr hlt))]

/-- C12, boundary case. On the sample input the region `[0, 1, 2]` is appended although the
curvature of its point `0` equals `curvature_threshold`, so it is not below it. -/
theorem smooth_regions_curvature_below_counterexample :
    ¬ (∀ R ∈ (extractEuclideanClustersSmooth sampleSegmentation []).clusters.drop 0,
        2 ≤ R.length → ∀ j ∈ R,
          (sampleSegmentation.normals.getD j default).curvature
            < sampleSegmentation.curvature_threshold) := by
  intro h
  have hmem : [0, 1, 2] ∈ (extractEuclideanClustersSmooth sampleSegmentation []).clusters.drop 0 := by
    decide!
  have h0 := h [0, 1, 2] hmem (by decide) 0 (by simp)
  exact absurd h0 (by decide!)

/-- C12, amended. Every region appended by `extractEuclideanClustersSmooth` has a seed such that
each other point `j` of the region joined from a point `s` of the region: `j` is among the
neighbours the radius search around `s` returns, the angle between the two normals is below
`eps_angle`, and neither curvature exceeds `curvature_threshold`; hence in a region of two or
more points no curvature exceeds `curvature_threshold`. -/
theorem smooth_regions_merge_criterion (inp : SmoothSegmentationInput)
    (clusters : List (List Nat)) :
    ∀ R ∈ (extractEuclideanClustersSmooth inp clusters).clusters.drop clusters.length,
      (∃ seed ∈ R, ∀ j ∈ R, j ≠ seed → ∃ s ∈ R, Joins inp s j)
        ∧ (2 ≤ R.length →
            ∀ j ∈ R, (inp.normals.getD j default).curvature ≤ inp.curvature_threshold) := by
  obtain ⟨_, b, _⟩ := extract_appended inp clusters
  intro R hR
  obtain ⟨_, _, _, hj, hc⟩ := b R hR
  exact ⟨hj, hc⟩

/-- Witness of C12 on the sample input: the appended region `[0, 1, 2]`. -/
theorem smooth_regions_merge_criterion_witness :
    [0, 1, 2] ∈ (extractEuclideanClustersSmooth sampleSegmentation []).clusters.drop
        ([] : List (List Nat)).length
      ∧ (∃ seed ∈ [0, 1, 2], ∀ j ∈ [0, 1, 2], j ≠ seed →
          ∃ s ∈ [0, 1, 2], Joins sampleSegmentation s j)
      ∧ (2 ≤ [0, 1, 2].length →
          ∀ j ∈ [0, 1, 2], (sampleSegmentation.normals.getD j default).curvature
            ≤ sampleSegmentation.curvature_threshold) :=
  ⟨by decide!, smooth_regions_merge_criterion sampleSegmentation [] [0, 1, 2] (by decide!)⟩

/-- C13. No point index occurs in two different regions appended by one call of
`extractEuclideanClustersSmooth`, and the index list of each appended region is strictly
ascending, so no index occurs twice inside it. -/
theorem smooth_regions_disjoint_ascending (inp : SmoothSegmentationInput)
    (clusters : List (List Nat)) :
    ((extractEuclideanClustersSmooth inp clusters).clusters.drop clusters.length).Pairwise
        List.Disjoint
      ∧ ∀ R ∈ (extractEuclideanClustersSmooth inp clusters).clusters.drop clusters.length,
          R.Sorted (· < ·) ∧ R.Nodup := by
  obtain ⟨_, b, c⟩ := extract_appended inp clusters
  exact ⟨c, fun R hR => ⟨(b R hR).1, (b R hR).1.nodup⟩⟩

/-- C14. When the number of points differs from the number of normals, or the search tree
was built for a cloud of another size, `extractEuclideanClustersSmooth` reports an error and
leaves `clusters` exactly as it was. -/
theorem extract_malformed_input (inp : SmoothSegmentationInput) (clusters : List (List Nat))
    (h : inp.cloud_size ≠ inp.normals.length ∨ inp.tree_cloud_size ≠ inp.cloud_size) :
    (extractEuclideanClustersSmooth inp clusters).clusters = clusters
      ∧ (extractEuclideanClustersSmooth inp clusters).error ≠ none := by
  unfold extractEuclideanClustersSmooth
  split_ifs with h1 h2
  · exact ⟨rfl, by simp⟩
  · exact ⟨rfl, by simp⟩
  · rcases h with h | h
    · exact absurd h h2
    · exact absurd h h1

/-- Witness of C14 on the sample input with a tree built for four points. -/
theorem extract_malformed_input_witness :
    (mismatchedSegmentation.cloud_size ≠ mismatchedSegmentation.normals.length
        ∨ mismatchedSegmentation.tree_cloud_size ≠ mismatchedSegmentation.cloud_size)
      ∧ (extractEuclideanClustersSmooth mismatchedSegmentation [[9]]).clusters = [[9]]
      ∧ (extractEuclideanClustersSmooth mismatchedSegmentation [[9]]).error ≠ none :=
  ⟨Or.inr (by decide), extract_malformed_input mismatchedSegmentation [[9]] (Or.inr (by decide))⟩

/-! ## Masks and index conversions -/

theorem set_append_drop {α : Type} (L B : List α) (v : α) (h : L.length < B.length) :
    (L ++ B.drop L.length).set L.length v = (L ++ [v]) ++ B.drop (L.length + 1) := by
  rw [List.set_append_right _ _ (le_refl _), Nat.sub_self, List.drop_eq_getElem_cons h,
    List.set_cons_zero, List.append_assoc]
  rfl

theorem keepLoop_closed {T : Type} (cast : Nat → T) (c : Nat → Bool) (B : List T) (k : Nat)
    (hk : k ≤ B.length) :
    (List.range k).foldl
        (fun (st : List T × Nat) i => if c i then (st.1.set st.2 (cast i), st.2 + 1) else st)
        (B, 0)
      = (((List.range k).filter c).map cast ++ B.drop ((List.range k).filter c).length,
          ((List.range k).filter c).length) := by
  induction k with
  | zero => simp
  | succ k ih =>
    rw [List.range_succ, List.foldl_append, ih (Nat.le_of_succ_le hk), List.foldl_cons,
      List.foldl_nil, List.filter_append]
    have hcnt : ((List.range k).filter c).length ≤ k :=
      (List.length_filter_le _ _).trans (le_of_eq (List.length_range k))
    by_cases hc : c k = true
    · have hf : List.filter c [k] = [k] := by simp [hc]
      rw [if_pos hc, hf]
      dsimp only
      have hset := set_append_drop (((List.range k).filter c).map cast) B (cast k)
        (by rw [List.length_map]; omega)
      rw [List.length_map] at hset
      rw [hset, List.map_append, List.length_append]
      rfl
    · have hf : List.filter c [k] = [] := by simp [hc]
      rw [if_neg hc, hf, List.append_nil]

theorem createIndicesFromMask_closed {T : Type} (cast : Nat → T) (d : T) (mask : List Bool)
    (invert : Bool) :
    createIndicesFromMask cast d mask invert
      = ((List.range mask.length).filter
          (fun i => (mask.getD i false && !invert) || (!mask.getD i false && invert))).map
          cast := by
  unfold createIndicesFromMask
  have hloop := keepLoop_closed cast
    (fun i => (mask.getD i false && !invert) || (!mask.getD i false && invert))
    (List.replicate mask.length d) mask.length (by rw [List.length_replicate])
  dsimp only at hloop ⊢
  rw [hloop]
  dsimp only
  rw [resizeVec_of_le _ _ _ (by rw [List.length_append, List.length_map]; omega),
    List.take_left' (List.length_map _ _)]

theorem ext_getD {α : Type} (d : α) (l₁ l₂ : List α) (hlen : l₁.length = l₂.length)
    (h : ∀ i, i < l₁.length → l₁.getD i d = l₂.getD i d) : l₁ = l₂ := by
  apply List.ext_getElem hlen
  intro i h1 h2
  have := h i h1
  rw [List.getD_eq_getElem?_getD, List.getD_eq_getElem?_getD, List.getElem?_eq_getElem h1,
    List.getElem?_eq_getElem h2] at this
  exact this

theorem setTrue_length (indices : List Nat) (M : List Bool) :
    (indices.foldl (fun mask idx => mask.set idx true) M).length = M.length := by
  induction indices generalizing M with
  | nil => rfl
  | cons a rest ih =>
    rw [List.foldl_cons, ih, List.length_set]

theorem setTrue_getD (indices : List Nat) (M : List Bool) (i : Nat) (hi : i < M.length) :
    (indices.foldl (fun mask idx => mask.set idx true) M).getD i false
      = (M.getD i false || decide (i ∈ indices)) := by
  induction indices generalizing M with
  | nil => simp
  | cons a rest ih =>
    rw [List.foldl_cons, ih _ (by rw [List.length_set]; exact hi)]
    by_cases ha : a = i
    · subst ha
      rw [getD_set_self M a true false hi]
      simp
    · rw [getD_set_other M a i true false ha]
      have : decide (i ∈ a :: rest) = decide (i ∈ rest) := by
        simp [List.mem_cons, Ne.symm ha]
      rw [this]

theorem createMaskFromIndices_length (indices : List Nat) (image_size : Nat) :
    (createMaskFromIndices indices image_size).length = image_size := by
  unfold createMaskFromIndices
  rw [setTrue_length, List.length_replicate]

theorem createMaskFromIndices_getD (indices : List Nat) (image_size i : Nat)
    (hi : i < image_size) :
    (createMaskFromIndices indices image_size).getD i false = decide (i ∈ indices) := by
  unfold createMaskFromIndices
  rw [setTrue_getD _ _ _ (by rw [List.length_replicate]; exact hi)]
  simp [List.getD_eq_getElem?_getD, hi]

/-- C23. For every mask `m`, `createIndicesFromMask` (with `T = size_t`) returns the strictly
ascending list of the positions where `m` is true, and with `invert = true` the strictly
ascending list of the positions where `m` is false; `createMaskFromIndices` applied to the
former and the size of `m` gives back `m`. -/
theorem mask_indices_round_trip (m : List Bool) :
    (createIndicesFromMask id 0 m false).Sorted (· < ·)
      ∧ (∀ i, i ∈ createIndicesFromMask id 0 m false ↔ i < m.length ∧ m.getD i false = true)
      ∧ (createIndicesFromMask id 0 m true).Sorted (· < ·)
      ∧ (∀ i, i ∈ createIndicesFromMask id 0 m true ↔ i < m.length ∧ m.getD i false = false)
      ∧ createMaskFromIndices (createIndicesFromMask id 0 m false) m.length = m := by
  have hsorted : ∀ c : Nat → Bool, ((List.range m.length).filter c).Sorted (· < ·) :=
    fun c => List.Pairwise.filter c (List.pairwise_lt_range m.length)
  have hmemT : ∀ i, i ∈ createIndicesFromMask id 0 m false
      ↔ i < m.length ∧ m.getD i false = true := by
    intro i
    rw [createIndicesFromMask_closed, List.map_id, List.mem_filter, List.mem_range]
    simp
  have hmemF : ∀ i, i ∈ createIndicesFromMask id 0 m true
      ↔ i < m.length ∧ m.getD i false = false := by
    intro i
    rw [createIndicesFromMask_closed, List.map_id, List.mem_filter, List.mem_range]
    simp
  refine ⟨?_, hmemT, ?_, hmemF, ?_⟩
  · rw [createIndicesFromMask_closed, List.map_id]
    exact hsorted _
  · rw [createIndicesFromMask_closed, List.map_id]
    exact hsorted _
  · apply ext_getD false _ _ (createMaskFromIndices_length _ _)
    intro i hi
    rw [createMaskFromIndices_length] at hi
    rw [createMaskFromIndices_getD _ _ _ hi]
    cases hb : m.getD i false
    · exact decide_eq_false (fun hmem => by
        have := ((hmemT i).mp hmem).2
        rw [hb] at this
        exact Bool.noConfusion this)
    · exact decide_eq_true ((hmemT i).mpr ⟨hi, hb⟩)

theorem fillLoop_closed {α β : Type} (f : α → β) (d : α) (xs : List α) (B : List β)
    (hB : B.length = xs.length) (k : Nat) (hk : k ≤ xs.length) :
    (List.range k).foldl (fun v i => v.set i (f (xs.getD i d))) B
      = (xs.take k).map f ++ B.drop k := by
  induction k with
  | zero => simp
  | succ k ih =>
    have hlt : k < xs.length := hk
    rw [List.range_succ, List.foldl_append, ih (Nat.le_of_succ_le hk), List.foldl_cons,
      List.foldl_nil]
    have hlen : ((xs.take k).map f).length = k := by
      rw [List.length_map, List.length_take]
      omega
    have hset := set_append_drop ((xs.take k).map f) B (f (xs.getD k d))
      (by rw [hlen, hB]; exact hlt)
    rw [hlen] at hset
    rw [hset, List.take_succ, List.map_append, List.getD_eq_getElem?_getD,
      List.getElem?_eq_getElem hlt]
    rfl

theorem fill_eq_map {α β : Type} (f : α → β) (d : α) (d2 : β) (xs : List α) :
    (List.range xs.length).foldl (fun v i => v.set i (f (xs.getD i d)))
        (List.replicate xs.length d2)
      = xs.map f := by
  rw [fillLoop_closed f d xs _ (List.length_replicate _ _) xs.length (le_refl _),
    List.take_length, List.drop_eq_nil_of_le (by rw [List.length_replicate]), List.append_nil]

theorem convertVecInt2VecSizet_eq_map (input : List Int) :
    convertVecInt2VecSizet input = input.map castIntToSizet :=
  fill_eq_map castIntToSizet 0 0 input

theorem convertVecSizet2VecInt_eq_map (input : List Nat) :
    convertVecSizet2VecInt input = input.map castSizetToInt :=
  fill_eq_map castSizetToInt 0 0 input

theorem cast_round_trip_int (x : Int) (hlo : -(2 ^ 31) ≤ x) (hhi : x ≤ int_max) :
    castSizetToInt (castIntToSizet x) = x := by
  unfold castSizetToInt castIntToSizet int_max at *
  rw [Int.toNat_of_nonneg (Int.emod_nonneg _ (by norm_num))]
  omega

theorem cast_round_trip_sizet (u : Nat) (hu : u ≤ size_t_max) :
    castIntToSizet (castSizetToInt u) = u ↔ ((u : Int) ≤ int_max ∨ 2 ^ 64 - 2 ^ 31 ≤ u) := by
  unfold size_t_max at hu
  unfold castSizetToInt castIntToSizet int_max
  constructor
  · intro h
    have h2 : (((((u : Int) + 2 ^ 31) % 2 ^ 32 - 2 ^ 31) % 2 ^ 64).toNat : Int) = (u : Int) := by
      rw [h]
    rw [Int.toNat_of_nonneg (Int.emod_nonneg _ (by norm_num))] at h2
    omega
  · intro h
    have h2 : (((((u : Int) + 2 ^ 31) % 2 ^ 32 - 2 ^ 31) % 2 ^ 64).toNat : Int) = (u : Int) := by
      rw [Int.toNat_of_nonneg (Int.emod_nonneg _ (by norm_num))]
      omega
    exact Int.ofNat_inj.mp h2

theorem map_map_eq_self_iff {α β : Type} (f : α → β) (g : β → α) (l : List α) :
    (l.map f).map g = l ↔ ∀ y ∈ l, g (f y) = y := by
  induction l with
  | nil => simp
  | cons a rest ih =>
    rw [List.map_cons, List.map_cons, List.cons.injEq, ih, List.forall_mem_cons]

/-- C24, upper range. The vector holding `2 ^ 64 - 1` comes back unchanged from the conversion
to `int` and back, although its element is above the largest `int`. -/
theorem convert_round_trip_above_int_max_counterexample :
    convertVecInt2VecSizet (convertVecSizet2VecInt [2 ^ 64 - 1]) = [2 ^ 64 - 1]
      ∧ ¬ (∀ y ∈ [2 ^ 64 - 1], ((y : Nat) : Int) ≤ int_max) := by
  decide

/-- C24, amended. For a vector `v` of 32-bit ints, negative ones included (they are taken
modulo `2 ^ 64`), `convertVecSizet2VecInt (convertVecInt2VecSizet v) = v`; both conversions
cast element by element, keeping length and order; and for a vector `u` of 64-bit values
`convertVecInt2VecSizet (convertVecSizet2VecInt u) = u` exactly when every element of `u` is
at most the largest `int` or at least `2 ^ 64 - 2 ^ 31`. -/
theorem convert_round_trip (v : List Int) (u : List Nat)
    (hv : ∀ x ∈ v, -(2 ^ 31) ≤ x ∧ x ≤ int_max) (hu : ∀ y ∈ u, y ≤ size_t_max) :
    convertVecSizet2VecInt (convertVecInt2VecSizet v) = v
      ∧ convertVecInt2VecSizet v = v.map castIntToSizet
      ∧ (convertVecInt2VecSizet v).length = v.length
      ∧ (∀ x ∈ v, x < 0 → (castIntToSizet x : Int) = x + 2 ^ 64)
      ∧ convertVecSizet2VecInt u = u.map castSizetToInt
      ∧ (convertVecSizet2VecInt u).length = u.length
      ∧ (convertVecInt2VecSizet (convertVecSizet2VecInt u) = u
          ↔ ∀ y ∈ u, (y : Int) ≤ int_max ∨ 2 ^ 64 - 2 ^ 31 ≤ y) := by
  refine ⟨?_, convertVecInt2VecSizet_eq_map v, ?_, ?_, convertVecSizet2VecInt_eq_map u, ?_, ?_⟩
  · rw [convertVecInt2VecSizet_eq_map, convertVecSizet2VecInt_eq_map, map_map_eq_self_iff]
    intro x hx
    exact cast_round_trip_int x (hv x hx).1 (hv x hx).2
  · rw [convertVecInt2VecSizet_eq_map, List.length_map]
  · intro x hx hneg
    have hlo := (hv x hx).1
    unfold castIntToSizet
    rw [Int.toNat_of_nonneg (Int.emod_nonneg _ (by norm_num))]
    omega
  · rw [convertVecSizet2VecInt_eq_map, List.length_map]
  · rw [convertVecSizet2VecInt_eq_map, convertVecInt2VecSizet_eq_map, map_map_eq_self_iff]
    constructor
    · intro h y hy
      exact (cast_round_trip_sizet y (hu y hy)).mp (h y hy)
    · intro h y hy
      exact (cast_round_trip_sizet y (hu y hy)).mpr (h y hy)

/-- Witness of C24 on a vector with a negative int and on a vector with a value above the
largest `int`. -/
theorem convert_round_trip_witness :
    (∀ x ∈ [(-1 : Int), 5], -(2 ^ 31) ≤ x ∧ x ≤ int_max)
      ∧ (∀ y ∈ [7, 2 ^ 32], y ≤ size_t_max)
      ∧ convertVecSizet2VecInt (convertVecInt2VecSizet [-1, 5]) = [-1, 5]
      ∧ convertVecInt2VecSizet [-1, 5] = [2 ^ 64 - 1, 5]
      ∧ convertVecInt2VecSizet (convertVecSizet2VecInt [7, 2 ^ 32]) ≠ [7, 2 ^ 32] := by
  have h := convert_round_trip [-1, 5] [7, 2 ^ 32] (by decide) (by decide)
  refine ⟨by decide, by decide, h.1, by decide, ?_⟩
  intro heq
  have := h.2.2.2.2.2.2.mp heq (2 ^ 32) (by simp)
  revert this
  decide

/-! ## `updateUnexplainedVector`: what it adds and what it leaves -/

theorem unexplainedStep_eq (val : ℚ) (E : List Int) (U : List ℚ) (add : ℚ) (pw : Nat × ℚ) :
    unexplainedStep val E (U, add) pw
      = (U.set pw.1 (U.getD pw.1 0 + val * pw.2),
          add + neighbourDelta val (U.getD pw.1 0) (E.getD pw.1 0) pw.2) := by
  unfold unexplainedStep neighbourDelta
  dsimp only
  split_ifs <;> simp_all
  ring

theorem loop1_snd_prefix (val : ℚ) (E : List Int) (nw : List (Nat × ℚ)) (U : List ℚ)
    (add : ℚ) :
    (nw.foldl (unexplainedStep val E) (U, add)).2
      = add + ((List.range nw.length).map (fun k =>
          neighbourDelta val ((addWeights val (nw.take k) U).getD (nw.getD k (0, 0)).1 0)
            (E.getD (nw.getD k (0, 0)).1 0) (nw.getD k (0, 0)).2)).sum := by
  induction nw generalizing U add with
  | nil => simp
  | cons pw rest ih =>
    rw [List.foldl_cons, unexplainedStep_eq, ih, List.length_cons, List.range_succ_eq_map,
      List.map_cons, List.sum_cons, List.map_map]
    have h0 : addWeights val (List.take 0 (pw :: rest)) U = U := rfl
    have h1 : (pw :: rest).getD 0 (0, 0) = pw := rfl
    rw [h0, h1, add_assoc]
    rfl

theorem addWeights_getD_sum (val : ℚ) (nw : List (Nat × ℚ)) (U : List ℚ) (i : Nat)
    (hi : i < U.length) :
    (addWeights val nw U).getD i 0
      = U.getD i 0 + val * ((nw.filter (fun pw => pw.1 = i)).map Prod.snd).sum := by
  induction nw generalizing U with
  | nil => simp [addWeights]
  | cons pw rest ih =>
    have hfold : addWeights val (pw :: rest) U
        = addWeights val rest (U.set pw.1 (U.getD pw.1 0 + val * pw.2)) := rfl
    rw [hfold, ih _ (by rw [List.length_set]; exact hi)]
    by_cases hp : pw.1 = i
    · rw [List.filter_cons_of_pos (by simpa using hp), List.map_cons, List.sum_cons, ← hp,
        getD_set_self U pw.1 _ 0 (by rw [hp]; exact hi)]
      ring
    · rw [List.filter_cons_of_neg (by simpa using hp), getD_set_other U pw.1 i _ 0 hp]

theorem zip_fst_sublist {α β : Type} (N : List α) (W : List β) :
    ((N.zip W).map Prod.fst).Sublist N := by
  induction N generalizing W with
  | nil => simp
  | cons a rest ih =>
    cases W with
    | nil => simp
    | cons w ws =>
      rw [List.zip_cons_cons, List.map_cons]
      exact (ih ws).cons₂ a

theorem prefix_accumulator (val : ℚ) (nw : List (Nat × ℚ)) (U : List ℚ)
    (hnd : (nw.map Prod.fst).Nodup) (k : Nat) (hk : k < nw.length) :
    (addWeights val (nw.take k) U).getD (nw.getD k (0, 0)).1 0
      = U.getD (nw.getD k (0, 0)).1 0 := by
  apply addWeights_getD_notin
  intro hmem
  obtain ⟨pw, hpw, hfst⟩ := List.mem_map.mp hmem
  obtain ⟨j, hj, hjpw⟩ := List.mem_iff_getElem.mp hpw
  rw [List.length_take] at hj
  have hjk : j < k := lt_of_lt_of_le hj (Nat.min_le_left _ _)
  have hjn : j < nw.length := lt_trans hjk hk
  rw [List.getElem_take] at hjpw
  have hkget : nw.getD k (0, 0) = nw[k] := by
    rw [List.getD_eq_getElem?_getD, List.getElem?_eq_getElem hk]
    rfl
  rw [hkget, ← hjpw] at hfst
  have hinj := (List.nodup_iff_injective_get.mp hnd)
  have hj2 : j < (nw.map Prod.fst).length := by rw [List.length_map]; exact hjn
  have hk2 : k < (nw.map Prod.fst).length := by rw [List.length_map]; exact hk
  have heq : (nw.map Prod.fst).get ⟨j, hj2⟩ = (nw.map Prod.fst).get ⟨k, hk2⟩ := by
    simp only [List.get_eq_getElem, List.getElem_map]
    exact hfst
  have := Fin.mk.inj (hinj heq)
  omega

theorem sum_map_neg_of {α : Type} (l : List α) (f g : α → ℚ) (h : ∀ x, f x = -g x) :
    (l.map f).sum = -(l.map g).sum := by
  induction l with
  | nil => simp
  | cons a rest ih =>
    rw [List.map_cons, List.map_cons, List.sum_cons, List.sum_cons, ih, h a]
    ring

theorem range_map_getD {α β : Type} (f : α → β) (d : α) (l : List α) :
    (List.range l.length).map (fun k => f (l.getD k d)) = l.map f := by
  induction l with
  | nil => rfl
  | cons a rest ih =>
    rw [List.length_cons, List.range_succ_eq_map, List.map_cons, List.map_map, List.map_cons,
      ← ih]
    rfl

/-- C21. The amount by which `updateUnexplainedVector` changes `previous_unexplained_`. On
activation (the `else` branch, `val` not negative) the weight of every neighbourhood entry whose
explained-by count is `0` is added and the accumulator, as the first loop leaves it, of every
explained point with count exactly `1` and a positive accumulator is subtracted. On
deactivation (`val < 0`) the weight of every neighbourhood entry that had count `0` and a
positive accumulator when its own update was reached is subtracted and the accumulator of
every explained point with count `0` and a positive accumulator is added. For a neighbourhood
list without repetition an entry's accumulator before its own update is the one before the
call. -/
theorem updateUnexplainedVector_clutter_delta (unexplained_ : List Nat)
    (unexplained_distances : List ℚ) (unexplained_by_RM : List ℚ) (explained : List Nat)
    (explained_by_RM : List Int) (val : ℚ) (g : GHVTotals) :
    (0 ≤ val →
        (updateUnexplainedVector unexplained_ unexplained_distances unexplained_by_RM explained
            explained_by_RM val g).totals.previous_unexplained_
          = g.previous_unexplained_
            + ((unexplained_.zip unexplained_distances).map
                (fun pw => if explained_by_RM.getD pw.1 0 = 0 then pw.2 else 0)).sum
            - (explained.map (fun q =>
                if explained_by_RM.getD q 0 = 1
                    ∧ (updateUnexplainedVector unexplained_ unexplained_distances
                        unexplained_by_RM explained explained_by_RM val
                        g).unexplained_by_RM.getD q 0 > 0 then
                  (updateUnexplainedVector unexplained_ unexplained_distances unexplained_by_RM
                    explained explained_by_RM val g).unexplained_by_RM.getD q 0
                else 0)).sum)
      ∧ (val < 0 →
        (updateUnexplainedVector unexplained_ unexplained_distances unexplained_by_RM explained
            explained_by_RM val g).totals.previous_unexplained_
          = g.previous_unexplained_
            - ((List.range (unexplained_.zip unexplained_distances).length).map (fun k =>
                if (addWeights val ((unexplained_.zip unexplained_distances).take k)
                      unexplained_by_RM).getD
                      ((unexplained_.zip unexplained_distances).getD k (0, 0)).1 0 > 0
                    ∧ explained_by_RM.getD
                      ((unexplained_.zip unexplained_distances).getD k (0, 0)).1 0 = 0 then
                  ((unexplained_.zip unexplained_distances).getD k (0, 0)).2
                else 0)).sum
            + (explained.map (fun q =>
                if explained_by_RM.getD q 0 = 0
                    ∧ (updateUnexplainedVector unexplained_ unexplained_distances
                        unexplained_by_RM explained explained_by_RM val
                        g).unexplained_by_RM.getD q 0 > 0 then
                  (updateUnexplainedVector unexplained_ unexplained_distances unexplained_by_RM
                    explained explained_by_RM val g).unexplained_by_RM.getD q 0
                else 0)).sum)
      ∧ (unexplained_.Nodup →
          ∀ k, k < (unexplained_.zip unexplained_distances).length →
            (addWeights val ((unexplained_.zip unexplained_distances).take k)
                unexplained_by_RM).getD
                ((unexplained_.zip unexplained_distances).getD k (0, 0)).1 0
              = unexplained_by_RM.getD
                ((unexplained_.zip unexplained_distances).getD k (0, 0)).1 0) := by
  have hU : (updateUnexplainedVector unexplained_ unexplained_distances unexplained_by_RM
      explained explained_by_RM val g).unexplained_by_RM
      = addWeights val (unexplained_.zip unexplained_distances) unexplained_by_RM := by
    unfold updateUnexplainedVector
    exact loop1_fst _ _ _ _ _
  have hT : (updateUnexplainedVector unexplained_ unexplained_distances unexplained_by_RM
      explained explained_by_RM val g).totals.previous_unexplained_
      = g.previous_unexplained_
        + (0 + ((List.range (unexplained_.zip unexplained_distances).length).map (fun k =>
            neighbourDelta val
              ((addWeights val ((unexplained_.zip unexplained_distances).take k)
                unexplained_by_RM).getD
                ((unexplained_.zip unexplained_distances).getD k (0, 0)).1 0)
              (explained_by_RM.getD
                ((unexplained_.zip unexplained_distances).getD k (0, 0)).1 0)
              ((unexplained_.zip unexplained_distances).getD k (0, 0)).2)).sum
          + (explained.map (fun q => explainedDelta val
              ((addWeights val (unexplained_.zip unexplained_distances)
                unexplained_by_RM).getD q 0) (explained_by_RM.getD q 0))).sum) := by
    unfold updateUnexplainedVector
    simp only
    rw [loop1_fst, loop1_snd_prefix, loop2_closed]
  refine ⟨?_, ?_, ?_⟩
  · intro hval
    have hneg : ¬ val < 0 := not_lt.mpr hval
    rw [hT, hU]
    have h1 : (List.range (unexplained_.zip unexplained_distances).length).map (fun k =>
          neighbourDelta val
            ((addWeights val ((unexplained_.zip unexplained_distances).take k)
              unexplained_by_RM).getD
              ((unexplained_.zip unexplained_distances).getD k (0, 0)).1 0)
            (explained_by_RM.getD
              ((unexplained_.zip unexplained_distances).getD k (0, 0)).1 0)
            ((unexplained_.zip unexplained_distances).getD k (0, 0)).2)
        = (unexplained_.zip unexplained_distances).map
            (fun pw => if explained_by_RM.getD pw.1 0 = 0 then pw.2 else 0) := by
      rw [← range_map_getD (fun pw : Nat × ℚ => if explained_by_RM.getD pw.1 0 = 0 then pw.2 else 0)
        (0, 0) (unexplained_.zip unexplained_distances)]
      refine List.map_congr_left (fun k _ => ?_)
      unfold neighbourDelta
      rw [if_neg hneg]
    have h2 := sum_map_neg_of explained
      (fun q => explainedDelta val
        ((addWeights val (unexplained_.zip unexplained_distances) unexplained_by_RM).getD q 0)
        (explained_by_RM.getD q 0))
      (fun q => if explained_by_RM.getD q 0 = 1
          ∧ (addWeights val (unexplained_.zip unexplained_distances)
              unexplained_by_RM).getD q 0 > 0 then
        (addWeights val (unexplained_.zip unexplained_distances) unexplained_by_RM).getD q 0
        else 0)
      (fun q => by
        dsimp only
        unfold explainedDelta
        rw [if_neg hneg]
        split_ifs <;> simp)
    rw [h1, h2]
    ring
  · intro hval
    rw [hT, hU]
    have h1 := sum_map_neg_of (List.range (unexplained_.zip unexplained_distances).length)
      (fun k => neighbourDelta val
        ((addWeights val ((unexplained_.zip unexplained_distances).take k)
          unexplained_by_RM).getD
          ((unexplained_.zip unexplained_distances).getD k (0, 0)).1 0)
        (explained_by_RM.getD
          ((unexplained_.zip unexplained_distances).getD k (0, 0)).1 0)
        ((unexplained_.zip unexplained_distances).getD k (0, 0)).2)
      (fun k =>
        if (addWeights val ((unexplained_.zip unexplained_distances).take k)
              unexplained_by_RM).getD
              ((unexplained_.zip unexplained_distances).getD k (0, 0)).1 0 > 0
            ∧ explained_by_RM.getD
              ((unexplained_.zip unexplained_distances).getD k (0, 0)).1 0 = 0 then
          ((unexplained_.zip unexplained_distances).getD k (0, 0)).2
        else 0)
      (fun k => by
        dsimp only
        unfold neighbourDelta
        rw [if_pos hval]
        split_ifs <;> simp)
    have h2 : explained.map (fun q => explainedDelta val
          ((addWeights val (unexplained_.zip unexplained_distances) unexplained_by_RM).getD q 0)
          (explained_by_RM.getD q 0))
        = explained.map (fun q => if explained_by_RM.getD q 0 = 0
            ∧ (addWeights val (unexplained_.zip unexplained_distances)
                unexplained_by_RM).getD q 0 > 0 then
          (addWeights val (unexplained_.zip unexplained_distances) unexplained_by_RM).getD q 0
          else 0) := by
      refine List.map_congr_left (fun q _ => ?_)
      unfold explainedDelta
      rw [if_pos hval]
    rw [h1, h2]
    ring
  · intro hnd k hk
    exact prefix_accumulator val _ _ (hnd.sublist (zip_fst_sublist _ _)) k hk

/-- C22. Frame of `updateUnexplainedVector`: the accumulator vector keeps its length; an entry
at a position `i` of the vector has `val * weight` added once for every occurrence of `i` in
the neighbourhood list, so an entry at a position that is not listed is unchanged; the
explained list and the explained-by counts come back as they were; and of the aggregate cost
terms only `previous_unexplained_` can differ. -/
theorem updateUnexplainedVector_frame (unexplained_ : List Nat)
    (unexplained_distances : List ℚ) (unexplained_by_RM : List ℚ) (explained : List Nat)
    (explained_by_RM : List Int) (val : ℚ) (g : GHVTotals) :
    (updateUnexplainedVector unexplained_ unexplained_distances unexplained_by_RM explained
        explained_by_RM val g).unexplained_by_RM.length = unexplained_by_RM.length
      ∧ (∀ i, i < unexplained_by_RM.length →
          (updateUnexplainedVector unexplained_ unexplained_distances unexplained_by_RM
              explained explained_by_RM val g).unexplained_by_RM.getD i 0
            = unexplained_by_RM.getD i 0
              + val * (((unexplained_.zip unexplained_distances).filter
                  (fun pw => pw.1 = i)).map Prod.snd).sum)
      ∧ (∀ i, i ∉ unexplained_ →
          (updateUnexplainedVector unexplained_ unexplained_distances unexplained_by_RM
              explained explained_by_RM val g).unexplained_by_RM.getD i 0
            = unexplained_by_RM.getD i 0)
      ∧ (updateUnexplainedVector unexplained_ unexplained_distances unexplained_by_RM explained
          explained_by_RM val g).explained = explained
      ∧ (updateUnexplainedVector unexplained_ unexplained_distances unexplained_by_RM explained
          explained_by_RM val g).explained_by_RM = explained_by_RM
      ∧ (updateUnexplainedVector unexplained_ unexplained_distances unexplained_by_RM explained
          explained_by_RM val g).totals.previous_explained_value = g.previous_explained_value
      ∧ (updateUnexplainedVector unexplained_ unexplained_distances unexplained_by_RM explained
          explained_by_RM val g).totals.previous_duplicity_ = g.previous_duplicity_
      ∧ (updateUnexplainedVector unexplained_ unexplained_distances unexplained_by_RM explained
          explained_by_RM val g).totals.previous_duplicity_complete_models_
          = g.previous_duplicity_complete_models_
      ∧ (updateUnexplainedVector unexplained_ unexplained_distances unexplained_by_RM explained
          explained_by_RM val g).totals.previous_bad_info_ = g.previous_bad_info_ := by
  have hU : (updateUnexplainedVector unexplained_ unexplained_distances unexplained_by_RM
      explained explained_by_RM val g).unexplained_by_RM
      = addWeights val (unexplained_.zip unexplained_distances) unexplained_by_RM := by
    unfold updateUnexplainedVector
    exact loop1_fst _ _ _ _ _
  refine ⟨?_, ?_, ?_, rfl, rfl, rfl, rfl, rfl, rfl⟩
  · rw [hU, addWeights_length]
  · intro i hi
    rw [hU]
    exact addWeights_getD_sum val _ _ i hi
  · intro i hi
    rw [hU]
    exact addWeights_getD_notin val _ _ i (fun h => hi ((zip_fst_sublist _ _).subset h))

end V4R
